import Mathlib

/-!
A verification development for the `Conveyor` class (src/conveyor.ts and
src/types.ts): a multiplexer that merges several asynchronous producer
streams ("belts") into one output stream, applying a handler to items of
inlet belts and passing items of outlet belts through verbatim.

The embedding is a small-step transition system that mirrors the
JavaScript execution model of the source:

* the async generator `iterate` runs atomically between its suspension
  points — `await this.signal`, `await this.handler(...)`, and `yield` —
  and the continuations of `callInletNext` / `callOutletNext` (which run
  after `await iterator.next()` settles) can only interleave at those
  suspension points;
* a producer stream is modelled as a finite list of items followed by
  either a clean end (`done: true`) or a raised error;
* the scheduler is fully nondeterministic: any outstanding pull may
  complete whenever the merge loop is suspended, so all arrival orders
  are covered;
* JavaScript iterator objects have identity, which the embedding models
  by tagging every registered producer with a fresh numeric id; yielded
  values are tagged with the id of the producer they came from (the
  consumer-visible output is the projection that drops the tags).
-/

namespace Conveyor

/-- A producer stream (`AsyncIterable` in the source): a finite list of
items it will yield, followed by a clean end-of-stream if `post = none`,
or by raising the error `e` on its final pull if `post = some e`. -/
structure Producer (α : Type) (E : Type) where
  items : List α
  post : Option E
deriving DecidableEq, Repr

/-- The settled result of the handler for one inlet item
(src/types.ts `Handler`): a plain value, an async iterable to be merged
as a new outlet belt, or a raised error. -/
inductive HandlerResult (OV E : Type) : Type where
  | scalar (w : OV)
  | stream (q : Producer OV E)
  | raise (e : E)
deriving DecidableEq, Repr

/-- `PromiseOrValue` from src/types.ts: the handler may return its result
directly or wrapped in a promise. -/
inductive PromiseOrValue (OV E : Type) : Type where
  | now (r : HandlerResult OV E)
  | promise (r : HandlerResult OV E)
deriving DecidableEq, Repr

/-- Awaiting a `PromiseOrValue`: `await x` on a plain value resolves to
the value itself, on a promise to the promise's settled result.  The
merge loop always awaits the handler result (src/conveyor.ts line 156). -/
def PromiseOrValue.await {OV E : Type} : PromiseOrValue OV E → HandlerResult OV E
  | .now r => r
  | .promise r => r

/-- A queued event (src/types.ts `InletEvent` / `OutletEvent`): a pulled
value together with the advanced iterator it came from.  `id` models the
identity of the underlying iterator object. -/
inductive Event (IV OV Ctx E : Type) : Type where
  | inlet (id : Nat) (value : IV) (context : Ctx) (rest : Producer IV E)
  | outlet (id : Nat) (value : OV) (rest : Producer OV E)
deriving DecidableEq, Repr

/-- An outstanding pull: a call to `callInletNext` / `callOutletNext`
that is suspended at `await iterator.next()` and has not yet settled. -/
inductive Pull (IV OV Ctx E : Type) : Type where
  | inlet (id : Nat) (p : Producer IV E) (context : Ctx)
  | outlet (id : Nat) (p : Producer OV E)
deriving DecidableEq, Repr

/-- The control position of the async generator `iterate`
(src/conveyor.ts lines 147-189).  Suspension points of the generator and
its terminal outcomes:

* `notStarted` — the generator body has not run yet (before the first
  `next()` from the consumer);
* `waitSig` — suspended at `await this.signal` (line 149);
* `awaitingHandler i id v c rest` — suspended at
  `await this.handler(event.value, event.context)` for the event at
  queue index `i` (line 156); `rest` is that event's iterator;
* `yielding i re` — suspended at a `yield` (line 161 or 169) for the
  event at index `i`; on resumption the pull `re` is re-issued
  (line 164 or 171);
* `finished` — the `while` loop exited because `iteratorCount` reached
  zero: clean end of the output sequence;
* `threw e` — the generator body threw `e` (either a handler failure at
  line 156 or the error replay at line 180): the sequence ends with a
  failure carrying `e`. -/
inductive LoopState (IV OV Ctx E : Type) : Type where
  | notStarted
  | waitSig
  | awaitingHandler (i : Nat) (id : Nat) (value : IV) (context : Ctx) (rest : Producer IV E)
  | yielding (i : Nat) (re : Pull IV OV Ctx E)
  | finished
  | threw (e : E)
deriving DecidableEq, Repr

/-- The complete instantaneous state of one `Conveyor` object together
with its driving generator.

Fields `iteratorCount`, `events`, `signal`, `throws` embed the mutable
fields of the class (src/conveyor.ts lines 57-62); `pending` is the set
of outstanding pulls; `loop` the generator position; `output` the values
yielded to the consumer so far, each tagged with the id of the producer
it came from.

`nextId`, `bornOut`, `bornIn` are history variables: `nextId` is the
supply of fresh iterator identities, and `bornOut` / `bornIn` record,
for every outlet / inlet producer ever registered, its id, its full item
list (and for inlets its context) at registration time.  They are never
read by the transition functions' visible effects and exist only so that
per-producer properties can be stated. -/
structure State (IV OV Ctx E : Type) where
  iteratorCount : Int
  events : List (Event IV OV Ctx E)
  signal : Bool
  throws : List E
  pending : List (Pull IV OV Ctx E)
  loop : LoopState IV OV Ctx E
  output : List (Nat × OV)
  nextId : Nat
  bornOut : List (Nat × List OV)
  bornIn : List (Nat × List IV × Ctx)
deriving DecidableEq, Repr

variable {IV OV Ctx E : Type}

/-- The state of a freshly constructed `Conveyor` (constructor,
src/conveyor.ts lines 64-72): zero live iterators, empty queue, a fresh
unresolved signal, empty error accumulator, and the generator not yet
started. -/
def mkConveyor : State IV OV Ctx E :=
  { iteratorCount := 0
    events := []
    signal := false
    throws := []
    pending := []
    loop := .notStarted
    output := []
    nextId := 0
    bornOut := []
    bornIn := [] }

/-- `addInletBelt(belt, context)` (src/conveyor.ts lines 74-81):
increments `iteratorCount` and issues the first pull for the belt's
iterator. -/
def addInletBelt (s : State IV OV Ctx E) (p : Producer IV E) (c : Ctx) : State IV OV Ctx E :=
  { s with
    iteratorCount := s.iteratorCount + 1
    pending := s.pending ++ [.inlet s.nextId p c]
    nextId := s.nextId + 1
    bornIn := s.bornIn ++ [(s.nextId, p.items, c)] }

/-- `addOutletBelt(belt)` (src/conveyor.ts lines 83-87): increments
`iteratorCount` and issues the first pull for the belt's iterator. -/
def addOutletBelt (s : State IV OV Ctx E) (q : Producer OV E) : State IV OV Ctx E :=
  { s with
    iteratorCount := s.iteratorCount + 1
    pending := s.pending ++ [.outlet s.nextId q]
    nextId := s.nextId + 1
    bornOut := s.bornOut ++ [(s.nextId, q.items)] }

/-- The continuation of `callInletNext` / `callOutletNext` once
`await iterator.next()` has settled (src/conveyor.ts lines 97-118 and
124-144): on a value, push an event; on `done`, decrement
`iteratorCount`; on an error, decrement `iteratorCount` and append the
error to `throws`.  In every case resolve the signal.  No outcome is
ever thrown to the caller: the `try`/`catch` captures the failure. -/
def completePull (s : State IV OV Ctx E) : Pull IV OV Ctx E → State IV OV Ctx E
  | .inlet id ⟨v :: rest, post⟩ c =>
      { s with events := s.events ++ [.inlet id v c ⟨rest, post⟩], signal := true }
  | .inlet _ ⟨[], none⟩ _ =>
      { s with iteratorCount := s.iteratorCount - 1, signal := true }
  | .inlet _ ⟨[], some e⟩ _ =>
      { s with iteratorCount := s.iteratorCount - 1, throws := s.throws ++ [e], signal := true }
  | .outlet id ⟨v :: rest, post⟩ =>
      { s with events := s.events ++ [.outlet id v ⟨rest, post⟩], signal := true }
  | .outlet _ ⟨[], none⟩ =>
      { s with iteratorCount := s.iteratorCount - 1, signal := true }
  | .outlet _ ⟨[], some e⟩ =>
      { s with iteratorCount := s.iteratorCount - 1, throws := s.throws ++ [e], signal := true }

/-- The synchronous continuation of `iterate` from "about to test
`i < this.events.length`" (src/conveyor.ts line 151) up to the next
suspension point or terminal state.

The `for` loop reads `this.events` live — there is no snapshot — so an
event appended during the round is reached by the same round's loop.
If the index has passed the end of the queue the round ends: a non-empty
`throws` makes the generator throw its first element (line 180; the
generator dies on the first `throw`, so the rest of the loop at lines
179-181 and the reset at line 183 are unreachable); otherwise the queue
is cleared, the signal replaced by a fresh unresolved one (lines
186-187), and the `while` condition re-tested (line 148). -/
def drainFrom (s : State IV OV Ctx E) (i : Nat) : State IV OV Ctx E :=
  match s.events.get? i with
  | some (.inlet id v c rest) => { s with loop := .awaitingHandler i id v c rest }
  | some (.outlet id v rest) =>
      { s with loop := .yielding i (.outlet id rest), output := s.output ++ [(id, v)] }
  | none =>
      match s.throws with
      | e :: _ => { s with loop := .threw e }
      | [] =>
          if s.iteratorCount = 0 then
            { s with events := [], signal := false, loop := .finished }
          else
            { s with events := [], signal := false, loop := .waitSig }

/-- The first run of the generator body: the `while` test at line 148.
If `iteratorCount` is zero the sequence terminates immediately;
otherwise the loop suspends at `await this.signal`. -/
def startRun (s : State IV OV Ctx E) : State IV OV Ctx E :=
  if s.iteratorCount = 0 then { s with loop := .finished }
  else { s with loop := .waitSig }

/-- The synchronous continuation of `iterate` after
`await this.handler(event.value, event.context)` settles
(src/conveyor.ts lines 156-166).  A raised error propagates out of the
generator uncaught (there is no `try`/`catch` in `iterate`).  An async
iterable result is registered via `addOutletBelt` and nothing is yielded
for the event; a scalar result is yielded.  In the stream branch the
originating iterator is re-pulled at once and the loop moves on; in the
scalar branch the re-pull happens when the `yield` resumes. -/
def applyHandler (h : IV → Ctx → PromiseOrValue OV E) (s : State IV OV Ctx E)
    (i : Nat) (id : Nat) (v : IV) (c : Ctx) (rest : Producer IV E) : State IV OV Ctx E :=
  match (h v c).await with
  | .raise e => { s with loop := .threw e }
  | .scalar w =>
      { s with loop := .yielding i (.inlet id rest c), output := s.output ++ [(id, w)] }
  | .stream q =>
      drainFrom
        { addOutletBelt s q with pending := (addOutletBelt s q).pending ++ [.inlet id rest c] }
        (i + 1)

/-- Loop positions at which the generator is suspended and scheduler
steps (pull completions) may therefore run. -/
def LoopState.suspended : LoopState IV OV Ctx E → Prop
  | .notStarted => True
  | .waitSig => True
  | .awaitingHandler _ _ _ _ _ => True
  | .yielding _ _ => True
  | .finished => False
  | .threw _ => False

instance (l : LoopState IV OV Ctx E) : Decidable l.suspended := by
  cases l <;> simp [LoopState.suspended] <;> infer_instance

/-- One step of the whole system, for a fixed handler `h`.

* `start`: the consumer's first `next()` call runs the `while` test;
* `pull`: any outstanding pull settles while the generator is suspended
  (the JavaScript event loop runs the continuation of
  `await iterator.next()`);
* `wake`: the generator resumes from `await this.signal` once the signal
  has been resolved and enters the drain loop;
* `handlerResolved`: the awaited handler call settles and the generator
  continues with its result;
* `yieldResumed`: the consumer requests the next value, resuming the
  generator after a `yield`: the originating iterator is re-pulled and
  the drain loop moves to the next index. -/
inductive Step (h : IV → Ctx → PromiseOrValue OV E) :
    State IV OV Ctx E → State IV OV Ctx E → Prop where
  | start (s : State IV OV Ctx E) :
      s.loop = .notStarted → Step h s (startRun s)
  | pull (s : State IV OV Ctx E) (k : Fin s.pending.length) :
      s.loop.suspended →
      Step h s (completePull { s with pending := s.pending.eraseIdx k.val } (s.pending.get k))
  | wake (s : State IV OV Ctx E) :
      s.loop = .waitSig → s.signal = true → Step h s (drainFrom s 0)
  | handlerResolved (s : State IV OV Ctx E) (i id : Nat) (v : IV) (c : Ctx)
      (rest : Producer IV E) :
      s.loop = .awaitingHandler i id v c rest →
      Step h s (applyHandler h s i id v c rest)
  | yieldResumed (s : State IV OV Ctx E) (i : Nat) (re : Pull IV OV Ctx E) :
      s.loop = .yielding i re →
      Step h s (drainFrom { s with pending := s.pending ++ [re] } (i + 1))

/-- Reachability: zero or more steps. -/
def Reaches (h : IV → Ctx → PromiseOrValue OV E) :
    State IV OV Ctx E → State IV OV Ctx E → Prop :=
  Relation.ReflTransGen (Step h)

/-- A registration call made before iteration begins: either
`addInletBelt(producer, context)` or `addOutletBelt(producer)`. -/
inductive Reg (IV OV Ctx E : Type) : Type where
  | inl (p : Producer IV E) (c : Ctx)
  | out (q : Producer OV E)
deriving DecidableEq, Repr

/-- Apply one registration call. -/
def applyReg (s : State IV OV Ctx E) : Reg IV OV Ctx E → State IV OV Ctx E
  | .inl p c => addInletBelt s p c
  | .out q => addOutletBelt s q

/-- The state of a conveyor after a sequence of registration calls on a
freshly constructed object. -/
def mkInit (regs : List (Reg IV OV Ctx E)) : State IV OV Ctx E :=
  regs.foldl applyReg mkConveyor

/-- The consumer-visible output: yielded values without their ghost
producer tags. -/
def State.visible (s : State IV OV Ctx E) : List OV :=
  s.output.map Prod.snd

/-- The names of the public methods declared by the `Conveyor` class
(src/conveyor.ts lines 74-91): the two registration methods and the
async-iteration entry point.  The class declares no other public member,
in particular no `add` method, even though the repository's README
("Usage" section) calls `conveyor.add(...)`. -/
def publicMethodNames : List String :=
  ["addInletBelt", "addOutletBelt", "Symbol.asyncIterator"]


/-! ## Observables and derived notions -/

/-- Whether the generator has terminated by throwing. -/
def LoopState.isThrew : LoopState IV OV Ctx E → Prop
  | .threw _ => True
  | _ => False

instance (l : LoopState IV OV Ctx E) : Decidable l.isThrew := by
  cases l <;> simp [LoopState.isThrew] <;> infer_instance

/-- The number of leading queue entries already handed over to the drain
loop: events strictly before this index have been processed, and the
event at the drain index itself (if the loop is parked on one) is held
in the loop position.  Zero outside a round. -/
def LoopState.cut : LoopState IV OV Ctx E → Nat
  | .awaitingHandler i _ _ _ _ => i + 1
  | .yielding i _ => i + 1
  | _ => 0

/-- The queued events whose handles are still owned by the queue: those
the drain loop has not yet reached.  After the generator throws, no
event will ever be processed again. -/
def liveEvents (s : State IV OV Ctx E) : List (Event IV OV Ctx E) :=
  match s.loop with
  | .threw _ => []
  | l => s.events.drop l.cut

/-- The pull a loop position is holding: the iterator of the event
being processed, as the pull that will be re-issued for it. -/
def LoopState.held : LoopState IV OV Ctx E → Option (Pull IV OV Ctx E)
  | .awaitingHandler _ id _ c rest => some (.inlet id rest c)
  | .yielding _ re => some re
  | _ => none

/-- The pull that the loop itself is holding. -/
def heldPull (s : State IV OV Ctx E) : Option (Pull IV OV Ctx E) :=
  s.loop.held

/-- The iterator identity carried by a pull. -/
def Pull.pid : Pull IV OV Ctx E → Nat
  | .inlet id _ _ => id
  | .outlet id _ => id

/-- The iterator identity carried by an event. -/
def Event.eid : Event IV OV Ctx E → Nat
  | .inlet id _ _ _ => id
  | .outlet id _ _ => id

/-- All identities of producers that are still live, each listed once
per place that currently owns its iterator: an outstanding pull, an
unprocessed queued event, or the loop position itself. -/
def liveIds (s : State IV OV Ctx E) : List Nat :=
  s.pending.map Pull.pid ++ (liveEvents s).map Event.eid
    ++ (heldPull s).toList.map Pull.pid

/-- The number of producers that have not yet ended or errored, counted
from where their iterators currently live. -/
def liveCount (s : State IV OV Ctx E) : Nat :=
  s.pending.length + (liveEvents s).length + (heldPull s).toList.length

/-- The identities of live inlet-role producers. -/
def liveIdsIn (s : State IV OV Ctx E) : List Nat :=
  s.pending.filterMap (fun pu => match pu with | .inlet id _ _ => some id | _ => none)
    ++ (liveEvents s).filterMap
        (fun ev => match ev with | .inlet id _ _ _ => some id | _ => none)
    ++ (heldPull s).toList.filterMap
        (fun pu => match pu with | .inlet id _ _ => some id | _ => none)

/-- The identities of live outlet-role producers. -/
def liveIdsOut (s : State IV OV Ctx E) : List Nat :=
  s.pending.filterMap (fun pu => match pu with | .outlet id _ => some id | _ => none)
    ++ (liveEvents s).filterMap
        (fun ev => match ev with | .outlet id _ _ => some id | _ => none)
    ++ (heldPull s).toList.filterMap
        (fun pu => match pu with | .outlet id _ => some id | _ => none)

/-- The values yielded so far that came from the producer with identity
`id`, in order. -/
def outFor (id : Nat) (s : State IV OV Ctx E) : List OV :=
  s.output.filterMap (fun pr => if pr.1 = id then some pr.2 else none)

/-- The items the producer `id` will still deliver, seen from an
outstanding pull of outlet role. -/
def Pull.remOut (id : Nat) : Pull IV OV Ctx E → Option (List OV)
  | .outlet id2 q => if id2 = id then some q.items else none
  | .inlet _ _ _ => none

/-- The items the producer `id` will still deliver, seen from a queued
outlet event (its value has been pulled but not yet yielded). -/
def Event.remOut (id : Nat) : Event IV OV Ctx E → Option (List OV)
  | .outlet id2 v rest => if id2 = id then some (v :: rest.items) else none
  | .inlet _ _ _ _ => none

/-- Every still-undelivered item list of the outlet producer `id`, one
entry per live occurrence of its iterator (at most one, by the
uniqueness invariant). -/
def remsOut (id : Nat) (s : State IV OV Ctx E) : List (List OV) :=
  s.pending.filterMap (Pull.remOut id)
    ++ (liveEvents s).filterMap (Event.remOut id)
    ++ (heldPull s).toList.filterMap (Pull.remOut id)

/-- The items the inlet producer `id` has not yet had transformed, with
the context its occurrence carries, seen from an outstanding pull. -/
def Pull.remIn (id : Nat) : Pull IV OV Ctx E → Option (List IV × Ctx)
  | .inlet id2 p c => if id2 = id then some (p.items, c) else none
  | .outlet _ _ => none

/-- As `Pull.remIn` but for a queued inlet event: its pulled value has
not been transformed yet, so it counts as remaining. -/
def Event.remIn (id : Nat) : Event IV OV Ctx E → Option (List IV × Ctx)
  | .inlet id2 v c rest => if id2 = id then some (v :: rest.items, c) else none
  | .outlet _ _ _ => none

/-- As `Pull.remIn` but for a loop position: while the handler runs,
the current value's transformation has not been delivered yet. -/
def LoopState.lRemIn (id : Nat) : LoopState IV OV Ctx E → Option (List IV × Ctx)
  | .awaitingHandler _ id2 v c rest => if id2 = id then some (v :: rest.items, c) else none
  | .yielding _ (.inlet id2 rest c) => if id2 = id then some (rest.items, c) else none
  | _ => none

/-- As `Pull.remIn` but for the loop position of a state. -/
def loopRemIn (id : Nat) (s : State IV OV Ctx E) : Option (List IV × Ctx) :=
  s.loop.lRemIn id

/-- Every still-untransformed item list of the inlet producer `id`. -/
def remsIn (id : Nat) (s : State IV OV Ctx E) : List (List IV × Ctx) :=
  s.pending.filterMap (Pull.remIn id)
    ++ (liveEvents s).filterMap (Event.remIn id)
    ++ (loopRemIn id s).toList

/-- The sequence of values the handler yields (as scalars) for the item
list `l` under context `c`: items whose result is a stream or a raised
error contribute no direct yield. -/
def scalarSeq (h : IV → Ctx → PromiseOrValue OV E) (c : Ctx) (l : List IV) : List OV :=
  l.filterMap (fun v =>
    match (h v c).await with
    | .scalar w => some w
    | _ => none)

/-- Whether a loop position is consistent with a queue: the loop is
parked on exactly the event stored at its index. -/
def drainPosL (lp : LoopState IV OV Ctx E) (evs : List (Event IV OV Ctx E)) : Prop :=
  match lp with
  | .awaitingHandler i id v c rest => evs.get? i = some (.inlet id v c rest)
  | .yielding i (.outlet id rest) =>
      (match evs.get? i with
       | some (.outlet id2 _ rest2) => id = id2 ∧ rest = rest2
       | _ => False)
  | .yielding i (.inlet id rest c) =>
      (match evs.get? i with
       | some (.inlet id2 _ c2 rest2) => id = id2 ∧ rest = rest2 ∧ c = c2
       | _ => False)
  | _ => True

/-- Whether the drain-loop position is consistent with the queue. -/
def drainPos (s : State IV OV Ctx E) : Prop :=
  drainPosL s.loop s.events

/-! ## Expected output -/

/-- The multiset of output values one inlet item `v` under context `c`
is expected to contribute: its scalar result, or all items of its
stream result. -/
def expVal (h : IV → Ctx → PromiseOrValue OV E) (v : IV) (c : Ctx) : Multiset OV :=
  match (h v c).await with
  | .scalar w => {w}
  | .stream q => (q.items : Multiset OV)
  | .raise _ => 0

/-- The multiset of output values an inlet item list is expected to
contribute. -/
def expList (h : IV → Ctx → PromiseOrValue OV E) (l : List IV) (c : Ctx) : Multiset OV :=
  (l.map (fun v => expVal h v c)).sum

/-- The output still owed by an outstanding pull. -/
def Pull.todo (h : IV → Ctx → PromiseOrValue OV E) : Pull IV OV Ctx E → Multiset OV
  | .inlet _ p c => expList h p.items c
  | .outlet _ q => (q.items : Multiset OV)

/-- The output still owed by a queued event. -/
def Event.todo (h : IV → Ctx → PromiseOrValue OV E) : Event IV OV Ctx E → Multiset OV
  | .inlet _ v c rest => expVal h v c + expList h rest.items c
  | .outlet _ v rest => v ::ₘ (rest.items : Multiset OV)

/-- The output still owed by a loop position. -/
def LoopState.todoL (h : IV → Ctx → PromiseOrValue OV E) :
    LoopState IV OV Ctx E → Multiset OV
  | .awaitingHandler _ _ v c rest => expVal h v c + expList h rest.items c
  | .yielding _ re => re.todo h
  | _ => 0

/-- The output still owed by the loop position of a state. -/
def loopTodo (h : IV → Ctx → PromiseOrValue OV E) (s : State IV OV Ctx E) : Multiset OV :=
  s.loop.todoL h

/-- All output still owed by the system. -/
def todo (h : IV → Ctx → PromiseOrValue OV E) (s : State IV OV Ctx E) : Multiset OV :=
  (s.pending.map (Pull.todo h)).sum + ((liveEvents s).map (Event.todo h)).sum + loopTodo h s

/-- Output already delivered plus output still owed. -/
def totalOut (h : IV → Ctx → PromiseOrValue OV E) (s : State IV OV Ctx E) : Multiset OV :=
  (s.visible : Multiset OV) + todo h s

/-- The expected contribution of one registration. -/
def Reg.expected (h : IV → Ctx → PromiseOrValue OV E) : Reg IV OV Ctx E → Multiset OV
  | .inl p c => expList h p.items c
  | .out q => (q.items : Multiset OV)

/-- The expected final output of a run started from the given
registrations: the handler image of every inlet item plus every outlet
item verbatim. -/
def expectedOf (h : IV → Ctx → PromiseOrValue OV E) (regs : List (Reg IV OV Ctx E)) :
    Multiset OV :=
  (regs.map (Reg.expected h)).sum

/-! ## Error-freedom hypotheses -/

/-- The handler never raises (and never returns a rejecting promise). -/
def NoRaise (h : IV → Ctx → PromiseOrValue OV E) : Prop :=
  ∀ v c e, (h v c).await ≠ .raise e

/-- Every stream the handler returns ends cleanly. -/
def CleanStreams (h : IV → Ctx → PromiseOrValue OV E) : Prop :=
  ∀ v c q, (h v c).await = .stream q → q.post = none

/-- A registration of a producer that ends cleanly. -/
def Reg.clean : Reg IV OV Ctx E → Prop
  | .inl p _ => p.post = none
  | .out q => q.post = none

/-! ## Termination measure -/

/-- Weight of an outlet iterator: an upper bound scaled to dominate the
steps its remaining life can take. -/
def Producer.weightOut (q : Producer OV E) : Nat :=
  4 * q.items.length + 3

/-- Weight of one handler invocation's aftermath. -/
def handlerWeight (h : IV → Ctx → PromiseOrValue OV E) (v : IV) (c : Ctx) : Nat :=
  match (h v c).await with
  | .stream q => q.weightOut + 1
  | _ => 1

/-- Weight of an inlet iterator's remaining life. -/
def weightIn (h : IV → Ctx → PromiseOrValue OV E) : List IV → Ctx → Nat
  | [], _ => 3
  | v :: r, c => 5 + handlerWeight h v c + weightIn h r c

/-- Weight of an outstanding pull. -/
def Pull.weight (h : IV → Ctx → PromiseOrValue OV E) : Pull IV OV Ctx E → Nat
  | .inlet _ p c => weightIn h p.items c
  | .outlet _ q => q.weightOut

/-- Weight of a queued event. -/
def Event.weight (h : IV → Ctx → PromiseOrValue OV E) : Event IV OV Ctx E → Nat
  | .inlet _ v c rest => 3 + handlerWeight h v c + weightIn h rest.items c
  | .outlet _ _ rest => rest.weightOut + 2

/-- Weight of the loop position. -/
def LoopState.weight (h : IV → Ctx → PromiseOrValue OV E) : LoopState IV OV Ctx E → Nat
  | .notStarted => 2
  | .waitSig => 1
  | .awaitingHandler _ _ v c rest => 2 + handlerWeight h v c + weightIn h rest.items c
  | .yielding _ re => re.weight h + 2
  | .finished => 0
  | .threw _ => 0

/-- Contribution of the signal: a resolved signal can wake the loop once
more. -/
def sigWeight (s : State IV OV Ctx E) : Nat :=
  if s.signal then 1 else 0

/-- Total weight of a list of outstanding pulls. -/
def pweightL (h : IV → Ctx → PromiseOrValue OV E) (l : List (Pull IV OV Ctx E)) : Nat :=
  (l.map (Pull.weight h)).sum

/-- Total weight of a list of events. -/
def eweightL (h : IV → Ctx → PromiseOrValue OV E) (l : List (Event IV OV Ctx E)) : Nat :=
  (l.map (Event.weight h)).sum

/-- The global termination measure: strictly decreases on every step of
the system, for any handler and any schedule. -/
def phi (h : IV → Ctx → PromiseOrValue OV E) (s : State IV OV Ctx E) : Nat :=
  s.loop.weight h + sigWeight s + pweightL h s.pending + eweightL h (liveEvents s)

/-! ## Concrete instances used by counterexamples and witnesses -/

/-- A handler that passes every value through unchanged, returning it
directly. -/
def hPass : Nat → Unit → PromiseOrValue Nat Nat :=
  fun v _ => .now (.scalar v)

/-- As `hPass` but returning the value wrapped in a promise. -/
def hPassP : Nat → Unit → PromiseOrValue Nat Nat :=
  fun v _ => .promise (.scalar v)

/-- A handler that always fails with error 7. -/
def hRaise : Nat → Unit → PromiseOrValue Nat Nat :=
  fun _ _ => .now (.raise 7)

/-- Two inlet belts yielding one value each, under the failing handler:
the starting state for the refutation of claim C1. -/
def c1init : State Nat Nat Unit Nat :=
  mkInit [.inl ⟨[1], none⟩ (), .inl ⟨[2], none⟩ ()]

/-- The state in which the run of `c1init` under `hRaise` ends: the
handler's error has escaped the generator while the second queued event
is still unprocessed and the error accumulator is empty. -/
def c1final : State Nat Nat Unit Nat :=
  { iteratorCount := 2
    events := [.inlet 0 1 () ⟨[], none⟩, .inlet 1 2 () ⟨[], none⟩]
    signal := true
    throws := []
    pending := []
    loop := .threw 7
    output := []
    nextId := 2
    bornOut := []
    bornIn := [(0, [1], ()), (1, [2], ())] }

/-- Two inlet belts yielding values 3 and 4 under the failing handler:
the starting state for the refutation of claim C4 as universally
stated. -/
def c4xinit : State Nat Nat Unit Nat :=
  mkInit [.inl ⟨[3], none⟩ (), .inl ⟨[4], none⟩ ()]

/-- The state in which the run of `c4xinit` under `hRaise` ends: the
handler error escaped while the second queued event of the same round
was still undelivered. -/
def c4xfinal : State Nat Nat Unit Nat :=
  { iteratorCount := 2
    events := [.inlet 0 3 () ⟨[], none⟩, .inlet 1 4 () ⟨[], none⟩]
    signal := true
    throws := []
    pending := []
    loop := .threw 7
    output := []
    nextId := 2
    bornOut := []
    bornIn := [(0, [3], ()), (1, [4], ())] }

/-- Two inlet belts whose first pull rejects (with errors 1 and 2): the
starting state for claim C3. -/
def c3init : State Nat Nat Unit Nat :=
  mkInit [.inl ⟨[], some 1⟩ (), .inl ⟨[], some 2⟩ ()]

/-- The terminal state of the run of `c3init`: both errors were
accumulated, the generator threw the first and died, and the accumulator
was never cleared. -/
def c3final : State Nat Nat Unit Nat :=
  { iteratorCount := 0
    events := []
    signal := true
    throws := [1, 2]
    pending := []
    loop := .threw 1
    output := []
    nextId := 2
    bornOut := []
    bornIn := [(0, [], ()), (1, [], ())] }

/-- Two outlet belts, `[1, 2]` and `[3]`: the starting state for the
refutation of claim C8. -/
def c8init : State Nat Nat Unit Nat :=
  mkInit [.out ⟨[1, 2], none⟩, .out ⟨[3], none⟩]

/-- `c8init` after the first belt's pull completed: the queue holds only
the event for value 1 and the loop is about to begin a round. -/
def c8s2 : State Nat Nat Unit Nat :=
  { iteratorCount := 2
    events := [.outlet 0 1 ⟨[2], none⟩]
    signal := true
    throws := []
    pending := [.outlet 1 ⟨[3], none⟩]
    loop := .waitSig
    output := []
    nextId := 2
    bornOut := [(0, [1, 2]), (1, [3])]
    bornIn := [] }

/-- `c8s2` after the round began: value 1 has been yielded and the loop
is suspended at the yield for queue index 0. -/
def c8s3 : State Nat Nat Unit Nat :=
  { c8s2 with
    loop := .yielding 0 (.outlet 0 ⟨[2], none⟩)
    output := [(0, 1)] }

/-- `c8s3` after the second belt's pull completed mid-round: its event
joined the queue that the current round is still draining. -/
def c8s4 : State Nat Nat Unit Nat :=
  { c8s3 with
    events := [.outlet 0 1 ⟨[2], none⟩, .outlet 1 3 ⟨[], none⟩]
    pending := [] }

/-- `c8s4` after the yield resumed: the drain loop reached the
mid-round arrival at index 1 and yielded its value 3 in the same round
(the queue has not been cleared; the round is still in progress). -/
def c8s5 : State Nat Nat Unit Nat :=
  { c8s4 with
    pending := [.outlet 0 ⟨[2], none⟩]
    loop := .yielding 1 (.outlet 1 ⟨[], none⟩)
    output := [(0, 1), (1, 3)] }

/-- One outlet belt that yields 9 and then fails with error 5: the
starting state for the witness of claim C4. -/
def c4init : State Nat Nat Unit Nat :=
  mkInit [.out ⟨[9], some 5⟩]

/-- `c4init` once value 9 has been pulled and yielded: the loop is
suspended at the yield, with the failing remainder as the event's
iterator. -/
def c4a : State Nat Nat Unit Nat :=
  { iteratorCount := 1
    events := [.outlet 0 9 ⟨[], some 5⟩]
    signal := true
    throws := []
    pending := []
    loop := .yielding 0 (.outlet 0 ⟨[], some 5⟩)
    output := [(0, 9)]
    nextId := 1
    bornOut := [(0, [9])]
    bornIn := [] }

/-- `c4a` after the round ended and a new round began awaiting the
signal. -/
def c4b : State Nat Nat Unit Nat :=
  { c4a with
    events := []
    signal := false
    pending := [.outlet 0 ⟨[], some 5⟩]
    loop := .waitSig }

/-- `c4b` after the re-issued pull rejected with error 5: the failure
is in the accumulator and the producer is retired. -/
def c4c : State Nat Nat Unit Nat :=
  { c4b with
    iteratorCount := 0
    signal := true
    throws := [5]
    pending := [] }

/-- The terminal state of the C4 witness run: the generator threw the
accumulated error after value 9 had been yielded. -/
def c4d : State Nat Nat Unit Nat :=
  { c4c with loop := .threw 5 }

/-- One outlet belt `[7]`: the starting state for the witness of
claim C2. -/
def c2init : State Nat Nat Unit Nat :=
  mkInit [.out ⟨[7], none⟩]

/-- The clean terminal state of the run of `c2init`: value 7 yielded,
producer retired, loop finished. -/
def c2final : State Nat Nat Unit Nat :=
  { iteratorCount := 0
    events := []
    signal := false
    throws := []
    pending := []
    loop := .finished
    output := [(0, 7)]
    nextId := 1
    bornOut := [(0, [7])]
    bornIn := [] }


/-! ## Invariant bundles -/

/-- `l1` is an initial segment of `l2`. -/
def InitSeg {A : Type} (l1 l2 : List A) : Prop :=
  ∃ t, l1 ++ t = l2

/-- No step is possible: the system has halted. -/
def Halted (h : IV → Ctx → PromiseOrValue OV E) (s : State IV OV Ctx E) : Prop :=
  ∀ t, ¬ Step h s t

/-- The iterator carried by a pull ends cleanly. -/
def Pull.clean : Pull IV OV Ctx E → Prop
  | .inlet _ p _ => p.post = none
  | .outlet _ q => q.post = none

/-- The iterator carried by an event ends cleanly. -/
def Event.clean : Event IV OV Ctx E → Prop
  | .inlet _ _ _ rest => rest.post = none
  | .outlet _ _ rest => rest.post = none

/-- A pull whose producer is exhausted: its settlement reports done or
error (the iterator yields no further value), so completing it retires
the producer. -/
def Pull.spent : Pull IV OV Ctx E → Prop
  | .inlet _ p _ => p.items = []
  | .outlet _ q => q.items = []

/-- The value an event delivers directly to the output when the drain
loop processes it: an outlet event's own value, an inlet event's scalar
handler result; an inlet event whose handler result is a stream (or a
failure) delivers nothing directly. -/
def Event.direct (h : IV → Ctx → PromiseOrValue OV E) : Event IV OV Ctx E → Option OV
  | .outlet _ v _ => some v
  | .inlet _ v c _ =>
      match (h v c).await with
      | .scalar w => some w
      | _ => none

/-- How many leading queue entries the current round has fully
processed (their direct values have been delivered). -/
def LoopState.processed : LoopState IV OV Ctx E → Nat
  | .awaitingHandler i _ _ _ _ => i
  | .yielding i _ => i + 1
  | _ => 0

/-- The basic structural invariants of the system, preserved by every
step from every configuration of registrations.

* `drain`: the loop position is consistent with the queue entry at its
  index;
* `noSig`: an unresolved signal means an empty queue (pushing an event
  always resolves the signal; the signal is reset only together with
  clearing the queue);
* `waitNZ`: the loop never waits on an unresolved signal with a zero
  live count (the `while` guard was tested when the signal was reset);
* `finZ`: a finished loop means the live count reached zero;
* `conserve`: as long as the generator has not thrown, `iteratorCount`
  equals the number of live producers, each owned by exactly one
  place — an outstanding pull, an unreached queue entry, or the loop
  position. -/
structure InvA (s : State IV OV Ctx E) : Prop where
  drain : drainPos s
  noSig : s.signal = false → s.events = []
  waitNZ : s.loop = .waitSig → s.signal = false → s.iteratorCount ≠ 0
  finZ : s.loop = .finished → s.iteratorCount = 0
  conserve : ¬ s.loop.isThrew → s.iteratorCount = (liveCount s : Int)

/-- What the drain continuation starting at index `j` needs of a state
to re-establish `InvA`. -/
structure PreDrainA (t : State IV OV Ctx E) (j : Nat) : Prop where
  sigE : t.signal = false → t.events = []
  cnt : t.iteratorCount = ((t.pending.length + (t.events.drop j).length : Nat) : Int)
  jle : j ≤ t.events.length

/-- A live occurrence of a producer iterator: its identity, the items
it still has to deliver, and (for an inlet) the context it was
registered with.  Each place that can own an iterator — an outstanding
pull, an unreached queue entry, or the loop position — contributes one
occurrence. -/
inductive Occ (IV OV Ctx : Type) : Type where
  | inl (id : Nat) (items : List IV) (c : Ctx)
  | out (id : Nat) (items : List OV)
  deriving DecidableEq, Repr

/-- The identity an occurrence carries. -/
def Occ.oid : Occ IV OV Ctx → Nat
  | .inl id _ _ => id
  | .out id _ => id

/-- The occurrence owned by an outstanding pull. -/
def Pull.occ : Pull IV OV Ctx E → Occ IV OV Ctx
  | .inlet id p c => .inl id p.items c
  | .outlet id q => .out id q.items

/-- The occurrence owned by a queued event: its pulled value has not
been delivered yet, so it still counts as remaining. -/
def Event.occ : Event IV OV Ctx E → Occ IV OV Ctx
  | .inlet id v c rest => .inl id (v :: rest.items) c
  | .outlet id v rest => .out id (v :: rest.items)

/-- The occurrences owned by the loop position itself: while the
handler runs, the current value's transformation is still owed. -/
def LoopState.occs : LoopState IV OV Ctx E → List (Occ IV OV Ctx)
  | .awaitingHandler _ id v c rest => [.inl id (v :: rest.items) c]
  | .yielding _ re => [re.occ]
  | _ => []

/-- Every live occurrence of a state. -/
def occs (s : State IV OV Ctx E) : List (Occ IV OV Ctx) :=
  s.pending.map Pull.occ ++ (liveEvents s).map Event.occ ++ s.loop.occs

/-- The live occurrences as a multiset: the bookkeeping invariants do
not depend on where an occurrence currently lives. -/
def occsM (s : State IV OV Ctx E) : Multiset (Occ IV OV Ctx) :=
  (occs s : Multiset (Occ IV OV Ctx))

/-- The live occurrences seen by a drain continuation starting at
index `j`: the loop position owns nothing (its pull has been folded
into `pending` by the caller). -/
def preOccsM (t : State IV OV Ctx E) (j : Nat) : Multiset (Occ IV OV Ctx) :=
  ((t.pending.map Pull.occ ++ (t.events.drop j).map Event.occ : List (Occ IV OV Ctx))
    : Multiset (Occ IV OV Ctx))

/-- The identities of all producers ever registered. -/
def bornIds (s : State IV OV Ctx E) : List Nat :=
  s.bornIn.map (fun x => x.1) ++ s.bornOut.map (fun x => x.1)

/-- The identity and per-producer bookkeeping invariants.

* every identity in use was allocated below `nextId`;
* no identity is registered twice, and every live identity is owned by
  exactly one occurrence — in particular at most one pull per producer
  is outstanding at any time;
* a live occurrence keeps the role and (for an inlet) the context it
  was registered with;
* `prefO`: for an outlet producer registered with items `l`, the
  values delivered for it plus any live occurrence's remaining items
  equal `l`; once no occurrence is left, either everything was
  delivered or the generator threw; the delivered values always form
  an initial segment of `l`;
* `prefI`: the analogue for an inlet producer, through the handler's
  scalar results. -/
structure InvO (h : IV → Ctx → PromiseOrValue OV E) (s : State IV OV Ctx E) : Prop where
  freshO : ∀ o ∈ occsM s, Occ.oid o < s.nextId
  freshOut : ∀ pr ∈ s.output, Prod.fst pr < s.nextId
  freshBorn : ∀ id ∈ bornIds s, id < s.nextId
  bornNd : (bornIds s).Nodup
  ndO : ((occsM s).map Occ.oid).Nodup
  sideO : ∀ o ∈ occsM s,
    (∀ id l c2, o = .inl id l c2 → id ∈ s.bornIn.map (fun x => x.1))
    ∧ (∀ id l, o = .out id l → id ∈ s.bornOut.map (fun x => x.1))
  prefO : ∀ il ∈ s.bornOut,
    (∀ l, Occ.out il.1 l ∈ occsM s → outFor il.1 s ++ l = il.2)
    ∧ ((∀ l, Occ.out il.1 l ∉ occsM s) → outFor il.1 s = il.2 ∨ s.loop.isThrew)
    ∧ InitSeg (outFor il.1 s) il.2
  prefI : ∀ il ∈ s.bornIn,
    (∀ l c2, Occ.inl il.1 l c2 ∈ occsM s → c2 = il.2.2
      ∧ outFor il.1 s ++ scalarSeq h il.2.2 l = scalarSeq h il.2.2 il.2.1)
    ∧ ((∀ l c2, Occ.inl il.1 l c2 ∉ occsM s) →
        outFor il.1 s = scalarSeq h il.2.2 il.2.1 ∨ s.loop.isThrew)
    ∧ InitSeg (outFor il.1 s) (scalarSeq h il.2.2 il.2.1)

/-- What the drain continuation starting at index `j` needs of a state
to re-establish `InvO` (the plain forms: the caller has not thrown). -/
structure PreO (h : IV → Ctx → PromiseOrValue OV E) (t : State IV OV Ctx E) (j : Nat) :
    Prop where
  freshO : ∀ o ∈ preOccsM t j, Occ.oid o < t.nextId
  freshOut : ∀ pr ∈ t.output, Prod.fst pr < t.nextId
  freshBorn : ∀ id ∈ bornIds t, id < t.nextId
  bornNd : (bornIds t).Nodup
  ndO : ((preOccsM t j).map Occ.oid).Nodup
  sideO : ∀ o ∈ preOccsM t j,
    (∀ id l c2, o = .inl id l c2 → id ∈ t.bornIn.map (fun x => x.1))
    ∧ (∀ id l, o = .out id l → id ∈ t.bornOut.map (fun x => x.1))
  prefO : ∀ il ∈ t.bornOut,
    (∀ l, Occ.out il.1 l ∈ preOccsM t j → outFor il.1 t ++ l = il.2)
    ∧ ((∀ l, Occ.out il.1 l ∉ preOccsM t j) → outFor il.1 t = il.2)
    ∧ InitSeg (outFor il.1 t) il.2
  prefI : ∀ il ∈ t.bornIn,
    (∀ l c2, Occ.inl il.1 l c2 ∈ preOccsM t j → c2 = il.2.2
      ∧ outFor il.1 t ++ scalarSeq h il.2.2 l = scalarSeq h il.2.2 il.2.1)
    ∧ ((∀ l c2, Occ.inl il.1 l c2 ∉ preOccsM t j) →
        outFor il.1 t = scalarSeq h il.2.2 il.2.1)
    ∧ InitSeg (outFor il.1 t) (scalarSeq h il.2.2 il.2.1)

/-- The round invariant: the direct values of the queue entries that
the current round has already processed are part of the delivered
output. -/
def RoundJ (h : IV → Ctx → PromiseOrValue OV E) (s : State IV OV Ctx E) : Prop :=
  (((s.events.take s.loop.processed).filterMap (Event.direct h)) : Multiset OV)
    ≤ (s.visible : Multiset OV)

/-- What the drain continuation starting at index `j` needs to
re-establish `RoundJ`: everything strictly before `j` was processed. -/
def PreDrainJ (h : IV → Ctx → PromiseOrValue OV E) (t : State IV OV Ctx E) (j : Nat) : Prop :=
  (((t.events.take j).filterMap (Event.direct h)) : Multiset OV) ≤ (t.visible : Multiset OV)

/-- What the drain continuation starting at index `j` needs to
re-establish `InvNE` (defined below). -/
structure PreDrainNE (t : State IV OV Ctx E) (j : Nat) : Prop where
  thr : t.throws = []
  cleanPend : ∀ pu ∈ t.pending, Pull.clean pu
  cleanEv : ∀ ev ∈ t.events.drop j, Event.clean ev

/-- The additional invariants of an error-free run: no error was ever
accumulated, the generator never threw, and every live iterator still
ends cleanly. -/
structure InvNE (s : State IV OV Ctx E) : Prop where
  thr : s.throws = []
  notThrew : ¬ s.loop.isThrew
  cleanPend : ∀ pu ∈ s.pending, Pull.clean pu
  cleanEv : ∀ ev ∈ liveEvents s, Event.clean ev
  cleanHeld : ∀ pu ∈ (heldPull s).toList, Pull.clean pu

/-- A handler whose result for `v` is a two-item stream `[v, v + 1]`:
used to witness the stream branch. -/
def hStream : Nat → Unit → PromiseOrValue Nat Nat :=
  fun v _ => .now (.stream ⟨[v, v + 1], none⟩)

/-- One inlet belt `[4]` under `hStream`: the starting state for the
witness of claim C7. -/
def c7init : State Nat Nat Unit Nat :=
  mkInit [.inl ⟨[4], none⟩ ()]

/-- `c7init` with the pulled value 4 handed to the handler: the loop is
suspended awaiting the handler. -/
def c7a : State Nat Nat Unit Nat :=
  { iteratorCount := 1
    events := [.inlet 0 4 () ⟨[], none⟩]
    signal := true
    throws := []
    pending := []
    loop := .awaitingHandler 0 0 4 () ⟨[], none⟩
    output := []
    nextId := 1
    bornOut := []
    bornIn := [(0, [4], ())] }

/-- The clean terminal state of the C7 witness run: the handler's
stream was registered as outlet producer 1 and both its items were
yielded. -/
def c7t : State Nat Nat Unit Nat :=
  { iteratorCount := 0
    events := []
    signal := false
    throws := []
    pending := []
    loop := .finished
    output := [(1, 4), (1, 5)]
    nextId := 2
    bornOut := [(1, [4, 5])]
    bornIn := [(0, [4], ())] }


/-! ## Theorems -/

/-- The step relation depends on the handler only through the awaited
result of each invocation. -/
theorem step_congr (h h' : IV → Ctx → PromiseOrValue OV E)
    (hag : ∀ v c, (h v c).await = (h' v c).await) :
    ∀ s s', Step h s s' → Step h' s s' := by
  intro s s' hst
  cases hst with
  | start hl => exact Step.start _ hl
  | pull k hs => exact Step.pull _ k hs
  | wake hl hsig => exact Step.wake _ hl hsig
  | handlerResolved i id v c rest hl =>
      have heq : applyHandler h s i id v c rest = applyHandler h' s i id v c rest := by
        unfold applyHandler
        rw [hag]
      exact heq ▸ Step.handlerResolved _ i id v c rest hl
  | yieldResumed i re hl => exact Step.yieldResumed _ i re hl

/-- Claim C6: the spec names the registration API `addInlet`,
`addOutlet`, and a convenience `add` equivalent to `addInlet` (as the
repository's README does in its Usage section), but the `Conveyor`
class declares none of these members: its registration methods are
`addInletBelt` and `addOutletBelt`, and no `add` method exists at all —
`conveyor.add(...)` fails at run time. -/
theorem C6_theorem :
    "add" ∉ publicMethodNames ∧ "addInlet" ∉ publicMethodNames
    ∧ "addOutlet" ∉ publicMethodNames
    ∧ "addInletBelt" ∈ publicMethodNames ∧ "addOutletBelt" ∈ publicMethodNames := by
  decide

/-- Claim C1 (amended): a producer pull failure is captured by the
driver and appended to the error accumulator, never thrown to the
driver's caller; a handler failure, by contrast, is not captured
anywhere — it propagates synchronously out of the merge loop, ending the
output sequence at once, without touching the accumulator and without
draining the remaining queued events of the round (no further step of
the generator is possible after it throws). -/
theorem C1_theorem :
    (∀ (s : State IV OV Ctx E) (id : Nat) (e : E) (c : Ctx),
      completePull s (.inlet id ⟨[], some e⟩ c)
        = { s with iteratorCount := s.iteratorCount - 1,
                   throws := s.throws ++ [e], signal := true })
    ∧ (∀ (s : State IV OV Ctx E) (id : Nat) (e : E),
      completePull s (.outlet id ⟨[], some e⟩)
        = { s with iteratorCount := s.iteratorCount - 1,
                   throws := s.throws ++ [e], signal := true })
    ∧ (∀ (h : IV → Ctx → PromiseOrValue OV E) (s : State IV OV Ctx E)
        (i id : Nat) (v : IV) (c : Ctx) (rest : Producer IV E) (e : E),
      (h v c).await = .raise e →
      applyHandler h s i id v c rest = { s with loop := .threw e })
    ∧ (∀ (h : IV → Ctx → PromiseOrValue OV E) (s : State IV OV Ctx E) (e : E)
        (s' : State IV OV Ctx E),
      s.loop = .threw e → ¬ Step h s s') := by
  refine ⟨fun s id e c => rfl, fun s id e => rfl, ?_, ?_⟩
  · intro h s i id v c rest e hraise
    unfold applyHandler
    rw [hraise]
  · intro h s e s' hl hst
    cases hst with
    | start hl2 => rw [hl] at hl2; exact LoopState.noConfusion hl2
    | pull k hs => rw [hl] at hs; exact hs
    | wake hl2 hsig => rw [hl] at hl2; exact LoopState.noConfusion hl2
    | handlerResolved i id v c rest hl2 => rw [hl] at hl2; exact LoopState.noConfusion hl2
    | yieldResumed i re hl2 => rw [hl] at hl2; exact LoopState.noConfusion hl2

/-- Witness for C1: the amended claim evaluated at concrete inputs — a
rejecting first pull on a fresh conveyor, the failing handler `hRaise`
resolving during a round of `c1init`, and the dead generator of
`c1final`. -/
theorem C1_witness :
    completePull (mkConveyor : State Nat Nat Unit Nat) (.inlet 0 ⟨[], some 7⟩ ())
      = { (mkConveyor : State Nat Nat Unit Nat) with
          iteratorCount := (0 : Int) - 1, throws := [7], signal := true }
    ∧ applyHandler hRaise c1init 0 0 1 () ⟨[], none⟩ = { c1init with loop := .threw 7 }
    ∧ ¬ Step hRaise c1final c1final :=
  ⟨C1_theorem.1 mkConveyor 0 7 (),
   C1_theorem.2.2.1 hRaise c1init 0 0 1 () ⟨[], none⟩ 7 rfl,
   C1_theorem.2.2.2 hRaise c1final 7 c1final rfl⟩

/-- Counterexample to C1 as stated: under the always-failing handler
`hRaise`, the run from `c1init` reaches a state where the handler's
error 7 has escaped the generator (`loop = .threw 7`, the consumer's
pending `next()` rejects with it) while the error accumulator is empty
— the failure was never appended to it — and the second queued event of
the round was never drained: nothing was yielded although the queue
still holds two events. -/
theorem C1_counterexample :
    Reaches hRaise c1init c1final
    ∧ c1final.loop = .threw 7
    ∧ c1final.throws = []
    ∧ c1final.output = []
    ∧ c1final.events.length = 2 := by
  refine ⟨?_, rfl, rfl, rfl, rfl⟩
  exact Relation.ReflTransGen.head (Step.start _ rfl)
    (Relation.ReflTransGen.head (Step.pull _ ⟨0, by decide⟩ trivial)
      (Relation.ReflTransGen.head (Step.pull _ ⟨0, by decide⟩ trivial)
        (Relation.ReflTransGen.head (Step.wake _ rfl rfl)
          (Relation.ReflTransGen.head (Step.handlerResolved _ 0 0 1 () ⟨[], none⟩ rfl)
            Relation.ReflTransGen.refl))))

/-- Claim C3 (code bug): with two inlet belts whose first pulls reject
with errors 1 and 2, both errors are accumulated in the same round, but
the consumer observes only the first: the replay loop's first `throw`
ends the generator (its later iterations are unreachable), and the
accumulator reset after the loop never runs — the terminal state still
holds `[1, 2]`.  The spec's requirement that every accumulated error be
surfaced and the accumulator then cleared is not met by the code. -/
theorem C3_theorem :
    Reaches hPass c3init c3final
    ∧ c3final.throws = [1, 2]
    ∧ c3final.loop = .threw 1 := by
  refine ⟨?_, rfl, rfl⟩
  exact Relation.ReflTransGen.head (Step.start _ rfl)
    (Relation.ReflTransGen.head (Step.pull _ ⟨0, by decide⟩ trivial)
      (Relation.ReflTransGen.head (Step.pull _ ⟨0, by decide⟩ trivial)
        (Relation.ReflTransGen.head (Step.wake _ rfl rfl)
          Relation.ReflTransGen.refl)))

/-- Claim C10: the merge loop awaits the handler's return value before
inspecting it, so a handler returning a promise is indistinguishable
from one returning the settled value directly: awaiting a promise gives
the same result as awaiting the plain value, and two handlers whose
awaited results agree induce exactly the same steps. -/
theorem C10_theorem :
    (∀ (r : HandlerResult OV E), (PromiseOrValue.promise r).await = (PromiseOrValue.now r).await)
    ∧ (∀ (h h' : IV → Ctx → PromiseOrValue OV E),
        (∀ v c, (h v c).await = (h' v c).await) →
        ∀ s s', Step h s s' ↔ Step h' s s') :=
  ⟨fun _ => rfl,
   fun h h' hag s s' =>
    ⟨step_congr h h' hag s s',
     step_congr h' h (fun v c => (hag v c).symm) s s'⟩⟩

/-- Witness for C10: the pass-through handler returning plain values
and its promise-wrapped variant generate the same step at a concrete
state. -/
theorem C10_witness :
    Step hPass c8s2 c8s3 ↔ Step hPassP c8s2 c8s3 :=
  C10_theorem.2 hPass hPassP (fun _ _ => rfl) c8s2 c8s3

/-- Counterexample to C8 as stated: with outlet belts `[1, 2]` and
`[3]`, the round beginning at `c8s2` starts with a queue holding only
the event for value 1, yet after the second belt's event arrives
mid-round (step `c8s3` to `c8s4`) the same round's drain loop reaches
it and yields value 3 (state `c8s5`: the queue, never snapshotted, now
has two entries and has not been cleared — the round is still in
progress).  The drain loop reads `this.events` live; it does not
process "exactly the snapshot taken at the start of the round", and a
mid-round arrival is not postponed to a subsequent round. -/
theorem C8_counterexample :
    Reaches hPass c8init c8s2
    ∧ Step hPass c8s2 c8s3 ∧ Step hPass c8s3 c8s4 ∧ Step hPass c8s4 c8s5
    ∧ c8s2.events.length = 1
    ∧ c8s5.visible = [1, 3]
    ∧ c8s5.events.length = 2
    ∧ c8s5.loop = .yielding 1 (.outlet 1 ⟨[], none⟩) := by
  refine ⟨?_, Step.wake _ rfl rfl, Step.pull _ ⟨0, by decide⟩ trivial,
    Step.yieldResumed _ 0 (.outlet 0 ⟨[2], none⟩) rfl, rfl, rfl, rfl, rfl⟩
  exact Relation.ReflTransGen.head (Step.start _ rfl)
    (Relation.ReflTransGen.head (Step.pull _ ⟨0, by decide⟩ trivial)
      Relation.ReflTransGen.refl)

/-! ## Termination: the measure strictly decreases on every step -/

theorem drop_of_get? {A : Type} (l : List A) (j : Nat) (e : A) (hj : l.get? j = some e) :
    l.drop j = e :: l.drop (j + 1) := by
  induction l generalizing j with
  | nil => simp at hj
  | cons a t ih =>
      cases j with
      | zero => simp at hj; simp [hj]
      | succ j => simpa using ih j (by simpa using hj)

theorem drop_of_get?_none {A : Type} (l : List A) (j : Nat) (hj : l.get? j = none) :
    l.drop j = [] :=
  List.drop_eq_nil_of_le (List.get?_eq_none.mp hj)

theorem sum_f_eraseIdx {A : Type} (f : A → Nat) (l : List A) (k : Nat) (hk : k < l.length) :
    ((l.eraseIdx k).map f).sum + f (l.get ⟨k, hk⟩) = (l.map f).sum := by
  induction l generalizing k with
  | nil => simp at hk
  | cons a t ih =>
      cases k with
      | zero => simp [List.eraseIdx]; omega
      | succ k =>
          have := ih k (by simpa using Nat.lt_of_succ_lt_succ hk)
          simp only [List.eraseIdx, List.map_cons, List.sum_cons, List.get]
          omega

theorem sum_drop_singleton {A : Type} (f : A → Nat) (e : A) (c : Nat) :
    (([e].drop c).map f).sum ≤ f e := by
  cases c with
  | zero => simp
  | succ c => simp

theorem sum_drop_append {A : Type} (f : A → Nat) (l : List A) (e : A) (c : Nat) :
    (((l ++ [e]).drop c).map f).sum ≤ ((l.drop c).map f).sum + f e := by
  rw [List.drop_append_eq_append_drop]
  simp only [List.map_append, List.sum_append]
  have := sum_drop_singleton f e (c - l.length)
  omega

theorem liveEvents_eq (s : State IV OV Ctx E) (hnt : ¬ s.loop.isThrew) :
    liveEvents s = s.events.drop s.loop.cut := by
  cases hloop : s.loop <;>
    simp [liveEvents, LoopState.cut, LoopState.isThrew, hloop] at hnt ⊢

theorem liveEvents_mk (cnt : Int) (ev : List (Event IV OV Ctx E)) (sg : Bool) (thr : List E)
    (pend : List (Pull IV OV Ctx E)) (lp : LoopState IV OV Ctx E) (outp : List (Nat × OV))
    (nid : Nat) (bo : List (Nat × List OV)) (bi : List (Nat × List IV × Ctx))
    (hnt : ¬ lp.isThrew) :
    liveEvents (⟨cnt, ev, sg, thr, pend, lp, outp, nid, bo, bi⟩ : State IV OV Ctx E)
      = ev.drop lp.cut :=
  liveEvents_eq _ hnt

/-- Basic facts about the weight sums. -/
theorem pweightL_nil (h : IV → Ctx → PromiseOrValue OV E) : pweightL h [] = 0 := rfl

theorem eweightL_nil (h : IV → Ctx → PromiseOrValue OV E) : eweightL h [] = 0 := rfl

theorem pweightL_append (h : IV → Ctx → PromiseOrValue OV E) (l1 l2 : List (Pull IV OV Ctx E)) :
    pweightL h (l1 ++ l2) = pweightL h l1 + pweightL h l2 := by
  simp [pweightL]

theorem pweightL_single (h : IV → Ctx → PromiseOrValue OV E) (pu : Pull IV OV Ctx E) :
    pweightL h [pu] = Pull.weight h pu := by
  simp [pweightL]

theorem eweightL_drop_get? (h : IV → Ctx → PromiseOrValue OV E)
    (l : List (Event IV OV Ctx E)) (j : Nat) (ev : Event IV OV Ctx E)
    (hj : l.get? j = some ev) :
    eweightL h (l.drop j) = Event.weight h ev + eweightL h (l.drop (j + 1)) := by
  rw [drop_of_get? l j ev hj]
  simp [eweightL]

theorem eweightL_drop_append (h : IV → Ctx → PromiseOrValue OV E)
    (l : List (Event IV OV Ctx E)) (e : Event IV OV Ctx E) (c : Nat) :
    eweightL h ((l ++ [e]).drop c) ≤ eweightL h (l.drop c) + Event.weight h e :=
  sum_drop_append (Event.weight h) l e c

theorem pweightL_eraseIdx (h : IV → Ctx → PromiseOrValue OV E)
    (l : List (Pull IV OV Ctx E)) (k : Nat) (hk : k < l.length) :
    pweightL h (l.eraseIdx k) + Pull.weight h (l.get ⟨k, hk⟩) = pweightL h l :=
  sum_f_eraseIdx (Pull.weight h) l k hk

theorem sigWeight_le (s : State IV OV Ctx E) : sigWeight s ≤ 1 := by
  unfold sigWeight
  split <;> omega

/-- The drain continuation is bounded by the weight of what it
consumes. -/
theorem phi_drainFrom_le (h : IV → Ctx → PromiseOrValue OV E) (t : State IV OV Ctx E) (j : Nat)
    (hcut : t.loop.cut = j) (hnt : ¬ t.loop.isThrew) :
    phi h (drainFrom t j) ≤ sigWeight t + pweightL h t.pending
      + eweightL h (t.events.drop j) + 1 := by
  unfold drainFrom
  rcases hev : t.events.get? j with _ | ev
  · have hdrop : t.events.drop j = [] := drop_of_get?_none _ _ hev
    rw [hdrop, eweightL_nil]
    rcases hthr : t.throws with _ | ⟨e, rest⟩
    · by_cases hz : t.iteratorCount = 0
      · rw [if_pos hz]
        simp [phi, LoopState.weight, liveEvents, sigWeight, eweightL_nil]
        all_goals first | omega | (split <;> omega)
      · rw [if_neg hz]
        simp [phi, LoopState.weight, liveEvents, LoopState.cut, sigWeight, eweightL_nil,
          hdrop]
        all_goals first | omega | (split <;> omega)
    · simp [phi, LoopState.weight, liveEvents, sigWeight, eweightL_nil]
      all_goals first | omega | (split <;> omega)
  · have hdget := eweightL_drop_get? h t.events j ev hev
    rw [hdget]
    cases ev with
    | inlet id v c rest =>
        simp [phi, LoopState.weight, liveEvents, LoopState.cut, sigWeight, Event.weight]
        all_goals first | omega | (split <;> omega)
    | outlet id v rest =>
        simp [phi, LoopState.weight, liveEvents, LoopState.cut, sigWeight, Event.weight,
          Pull.weight]
        all_goals first | omega | (split <;> omega)

/-- With a resolved signal, the drain continuation even pays for the
wake-up step. -/
theorem phi_drainFrom_lt (h : IV → Ctx → PromiseOrValue OV E) (t : State IV OV Ctx E) (j : Nat)
    (hcut : t.loop.cut = j) (hnt : ¬ t.loop.isThrew) (hsig : t.signal = true) :
    phi h (drainFrom t j) < sigWeight t + pweightL h t.pending
      + eweightL h (t.events.drop j) + 1 := by
  have hsg : sigWeight t = 1 := by simp [sigWeight, hsig]
  unfold drainFrom
  rcases hev : t.events.get? j with _ | ev
  · have hdrop : t.events.drop j = [] := drop_of_get?_none _ _ hev
    rw [hdrop, eweightL_nil, hsg]
    rcases hthr : t.throws with _ | ⟨e, rest⟩
    · by_cases hz : t.iteratorCount = 0
      · rw [if_pos hz]
        simp [phi, LoopState.weight, liveEvents, sigWeight, eweightL_nil]
        all_goals first | omega | (split <;> omega)
      · rw [if_neg hz]
        simp [phi, LoopState.weight, liveEvents, LoopState.cut, sigWeight, eweightL_nil,
          hdrop]
        all_goals first | omega | (split <;> omega)
    · simp [phi, LoopState.weight, liveEvents, sigWeight, eweightL_nil, hsig]
      all_goals first | omega | (split <;> omega)
  · have hdget := eweightL_drop_get? h t.events j ev hev
    rw [hdget, hsg]
    cases ev with
    | inlet id v c rest =>
        simp [phi, LoopState.weight, liveEvents, LoopState.cut, sigWeight, Event.weight,
          hsig]
        all_goals first | omega | (split <;> omega)
    | outlet id v rest =>
        simp [phi, LoopState.weight, liveEvents, LoopState.cut, sigWeight, Event.weight,
          Pull.weight, hsig]
        all_goals first | omega | (split <;> omega)

/-- Every step of the system strictly decreases the measure `phi`. -/
theorem phi_decreases (h : IV → Ctx → PromiseOrValue OV E) (s s' : State IV OV Ctx E)
    (hst : Step h s s') : phi h s' < phi h s := by
  cases hst with
  | start hl =>
      have hps : phi h s = 2 + sigWeight s + pweightL h s.pending + eweightL h s.events := by
        rw [phi, liveEvents_eq s (by simp [hl, LoopState.isThrew]), hl]
        simp [LoopState.weight, LoopState.cut]
      by_cases hz : s.iteratorCount = 0
      · rw [startRun, if_pos hz, hps]
        simp [phi, liveEvents, LoopState.weight, LoopState.cut, sigWeight]
        all_goals first | omega | (split <;> omega)
      · rw [startRun, if_neg hz, hps]
        simp [phi, liveEvents, LoopState.weight, LoopState.cut, sigWeight]
        all_goals first | omega | (split <;> omega)
  | pull k hs =>
      have hnt : ¬ s.loop.isThrew := by
        cases hloop : s.loop <;> rw [hloop] at hs <;>
          simp [LoopState.isThrew, LoopState.suspended] at hs ⊢
      have hps : phi h s = s.loop.weight h + sigWeight s + pweightL h s.pending
          + eweightL h (s.events.drop s.loop.cut) := by
        rw [phi, liveEvents_eq s hnt]
      have hperase := pweightL_eraseIdx h s.pending k.val k.isLt
      have hsgs := sigWeight_le s
      rcases hpk : s.pending.get k with ⟨id, ⟨items, post⟩, c⟩ | ⟨id, ⟨items, post⟩⟩ <;>
        rw [hpk] at hperase
      · rcases items with _ | ⟨v, rest⟩
        · rcases post with _ | e
          all_goals
            simp only [completePull]
          all_goals
            rw [hps]
          all_goals
            simp only [Pull.weight, weightIn] at hperase
          all_goals
            simp [phi, liveEvents_mk, hnt, sigWeight]
          all_goals first | omega | (split <;> omega)
        · rcases post with _ | e
          · have hap := eweightL_drop_append h s.events
              (Event.inlet id v c ⟨rest, none⟩) s.loop.cut
            simp only [completePull]
            rw [hps]
            simp only [Pull.weight, weightIn] at hperase
            simp only [Event.weight] at hap
            simp [phi, liveEvents_mk, hnt, sigWeight]
            all_goals first | omega | (split <;> omega)
          · have hap := eweightL_drop_append h s.events
              (Event.inlet id v c ⟨rest, some e⟩) s.loop.cut
            simp only [completePull]
            rw [hps]
            simp only [Pull.weight, weightIn] at hperase
            simp only [Event.weight] at hap
            simp [phi, liveEvents_mk, hnt, sigWeight]
            all_goals first | omega | (split <;> omega)
      · rcases items with _ | ⟨v, rest⟩
        · rcases post with _ | e
          all_goals
            simp only [completePull]
          all_goals
            rw [hps]
          all_goals
            simp only [Pull.weight, Producer.weightOut] at hperase
          all_goals
            simp [phi, liveEvents_mk, hnt, sigWeight]
          all_goals first | omega | (split <;> omega)
        · rcases post with _ | e
          · have hap := eweightL_drop_append h s.events
              (Event.outlet id v ⟨rest, none⟩) s.loop.cut
            simp only [completePull]
            rw [hps]
            simp only [Pull.weight, Producer.weightOut, List.length_cons] at hperase
            simp only [Event.weight, Producer.weightOut] at hap
            simp [phi, liveEvents_mk, hnt, sigWeight, Producer.weightOut]
            all_goals first | omega | (split <;> omega)
          · have hap := eweightL_drop_append h s.events
              (Event.outlet id v ⟨rest, some e⟩) s.loop.cut
            simp only [completePull]
            rw [hps]
            simp only [Pull.weight, Producer.weightOut, List.length_cons] at hperase
            simp only [Event.weight, Producer.weightOut] at hap
            simp [phi, liveEvents_mk, hnt, sigWeight, Producer.weightOut]
            all_goals first | omega | (split <;> omega)
  | wake hl hsig =>
      have hnt : ¬ s.loop.isThrew := by simp [hl, LoopState.isThrew]
      have hcut : s.loop.cut = 0 := by rw [hl]; rfl
      have hb := phi_drainFrom_lt h s 0 hcut hnt hsig
      have hps : phi h s = 1 + sigWeight s + pweightL h s.pending
          + eweightL h (s.events.drop 0) := by
        rw [phi, liveEvents_eq s hnt, hcut, hl]
        rfl
      rw [hps]
      omega
  | handlerResolved i id v c rest hl =>
      have hnt : ¬ s.loop.isThrew := by simp [hl, LoopState.isThrew]
      have hcut : s.loop.cut = i + 1 := by rw [hl]; rfl
      have hps : phi h s = (2 + handlerWeight h v c + weightIn h rest.items c) + sigWeight s
          + pweightL h s.pending + eweightL h (s.events.drop (i + 1)) := by
        rw [phi, liveEvents_eq s hnt, hcut, hl]
        rfl
      rcases haw : (h v c).await with w | q | e <;>
        simp only [applyHandler, haw]
      · have hw : handlerWeight h v c = 1 := by simp [handlerWeight, haw]
        rw [hps, hw]
        simp [phi, liveEvents, LoopState.weight, LoopState.cut, sigWeight, Pull.weight]
        all_goals first | omega | (split <;> omega)
      · have hw : handlerWeight h v c = q.weightOut + 1 := by simp [handlerWeight, haw]
        refine lt_of_le_of_lt (phi_drainFrom_le h _ (i + 1) hcut hnt) ?_
        have hpw : pweightL h ((addOutletBelt s q).pending ++ [Pull.inlet id rest c])
            = pweightL h s.pending + q.weightOut + weightIn h rest.items c := by
          rw [show (addOutletBelt s q).pending = s.pending ++ [.outlet s.nextId q] from rfl]
          rw [pweightL_append, pweightL_append, pweightL_single, pweightL_single]
          simp [Pull.weight]
        rw [show sigWeight ({ addOutletBelt s q with
            pending := (addOutletBelt s q).pending ++ [Pull.inlet id rest c] }
            : State IV OV Ctx E) = sigWeight s from rfl]
        rw [show ({ addOutletBelt s q with
            pending := (addOutletBelt s q).pending ++ [Pull.inlet id rest c] }
            : State IV OV Ctx E).pending
          = (addOutletBelt s q).pending ++ [Pull.inlet id rest c] from rfl]
        rw [show ({ addOutletBelt s q with
            pending := (addOutletBelt s q).pending ++ [Pull.inlet id rest c] }
            : State IV OV Ctx E).events = s.events from rfl]
        rw [hpw, hps, hw]
        omega
      · have hw : handlerWeight h v c = 1 := by simp [handlerWeight, haw]
        rw [hps, hw]
        simp [phi, liveEvents, LoopState.weight, sigWeight, eweightL_nil]
        all_goals first | omega | (split <;> omega)
  | yieldResumed i re hl =>
      have hnt : ¬ s.loop.isThrew := by simp [hl, LoopState.isThrew]
      have hcut : s.loop.cut = i + 1 := by rw [hl]; rfl
      have hps : phi h s = (re.weight h + 2) + sigWeight s
          + pweightL h s.pending + eweightL h (s.events.drop (i + 1)) := by
        rw [phi, liveEvents_eq s hnt, hcut, hl]
        rfl
      refine lt_of_le_of_lt (phi_drainFrom_le h _ (i + 1) hcut hnt) ?_
      rw [show ({ s with pending := s.pending ++ [re] } : State IV OV Ctx E).pending
          = s.pending ++ [re] from rfl]
      rw [show sigWeight ({ s with pending := s.pending ++ [re] } : State IV OV Ctx E)
          = sigWeight s from rfl]
      rw [show ({ s with pending := s.pending ++ [re] } : State IV OV Ctx E).events
          = s.events from rfl]
      rw [pweightL_append, pweightL_single, hps]
      omega

/-- No run of the system is infinite: every execution, from any state,
under any handler and any schedule, takes only finitely many steps. -/
theorem no_infinite_run (h : IV → Ctx → PromiseOrValue OV E) (f : ℕ → State IV OV Ctx E)
    (hstep : ∀ n, Step h (f n) (f (n + 1))) : False := by
  have hdec : ∀ n, phi h (f n) + n ≤ phi h (f 0) := by
    intro n
    induction n with
    | zero => omega
    | succ n ih =>
        have := phi_decreases h (f n) (f (n + 1)) (hstep n)
        omega
  have := hdec (phi h (f 0) + 1)
  omega

/-! ## Preservation of the basic invariants -/

theorem drop_append_of_le {A : Type} (l : List A) (e : A) (c : Nat) (hc : c ≤ l.length) :
    (l ++ [e]).drop c = l.drop c ++ [e] := by
  rw [List.drop_append_eq_append_drop, Nat.sub_eq_zero_of_le hc]
  rfl

theorem length_drop_of_get? {A : Type} (l : List A) (j : Nat) (e : A)
    (hj : l.get? j = some e) :
    (l.drop j).length = (l.drop (j + 1)).length + 1 := by
  rw [drop_of_get? l j e hj]
  rfl

theorem get?_lt_length {A : Type} (l : List A) (j : Nat) (e : A) (hj : l.get? j = some e) :
    j < l.length :=
  List.get?_eq_some.mp hj |>.1

theorem drainPosL_cut_le (lp : LoopState IV OV Ctx E) (evs : List (Event IV OV Ctx E))
    (hd : drainPosL lp evs) : lp.cut ≤ evs.length := by
  cases lp with
  | awaitingHandler i id v c rest =>
      simp only [drainPosL] at hd
      have := get?_lt_length evs i _ hd
      simp only [LoopState.cut]
      omega
  | yielding i re =>
      cases re with
      | inlet id rest c =>
          simp only [drainPosL] at hd
          rcases hg : evs.get? i with _ | ev
          · rw [hg] at hd
            exact hd.elim
          · have := get?_lt_length evs i _ hg
            simp only [LoopState.cut]
            omega
      | outlet id rest =>
          simp only [drainPosL] at hd
          rcases hg : evs.get? i with _ | ev
          · rw [hg] at hd
            exact hd.elim
          · have := get?_lt_length evs i _ hg
            simp only [LoopState.cut]
            omega
  | notStarted => simp [LoopState.cut]
  | waitSig => simp [LoopState.cut]
  | finished => simp [LoopState.cut]
  | threw e => simp [LoopState.cut]

theorem drainPosL_append (lp : LoopState IV OV Ctx E) (evs : List (Event IV OV Ctx E))
    (ev : Event IV OV Ctx E) (hd : drainPosL lp evs) : drainPosL lp (evs ++ [ev]) := by
  cases lp with
  | awaitingHandler i id v c rest =>
      simp only [drainPosL] at hd ⊢
      rw [List.get?_append (get?_lt_length evs i _ hd)]
      exact hd
  | yielding i re =>
      cases re with
      | inlet id rest c =>
          simp only [drainPosL] at hd ⊢
          rcases hg : evs.get? i with _ | ev2
          · rw [hg] at hd
            exact hd.elim
          · rw [List.get?_append (get?_lt_length evs i _ hg), hg]
            rw [hg] at hd
            exact hd
      | outlet id rest =>
          simp only [drainPosL] at hd ⊢
          rcases hg : evs.get? i with _ | ev2
          · rw [hg] at hd
            exact hd.elim
          · rw [List.get?_append (get?_lt_length evs i _ hg), hg]
            rw [hg] at hd
            exact hd
  | notStarted => trivial
  | waitSig => trivial
  | finished => trivial
  | threw e => trivial

theorem liveCount_eq (s : State IV OV Ctx E) (hnt : ¬ s.loop.isThrew) :
    liveCount s = s.pending.length + (s.events.drop s.loop.cut).length
      + s.loop.held.toList.length := by
  unfold liveCount heldPull
  rw [liveEvents_eq s hnt]

theorem liveCount_mk (cnt : Int) (ev : List (Event IV OV Ctx E)) (sg : Bool) (thr : List E)
    (pend : List (Pull IV OV Ctx E)) (lp : LoopState IV OV Ctx E) (outp : List (Nat × OV))
    (nid : Nat) (bo : List (Nat × List OV)) (bi : List (Nat × List IV × Ctx))
    (hnt : ¬ lp.isThrew) :
    liveCount (⟨cnt, ev, sg, thr, pend, lp, outp, nid, bo, bi⟩ : State IV OV Ctx E)
      = pend.length + (ev.drop lp.cut).length + lp.held.toList.length :=
  liveCount_eq _ hnt

/-- The drain continuation re-establishes the basic invariants. -/
theorem invA_drainFrom (t : State IV OV Ctx E) (j : Nat) (P : PreDrainA t j) :
    InvA (drainFrom t j) := by
  unfold drainFrom
  rcases hev : t.events.get? j with _ | ev
  · have hdrop : t.events.drop j = [] := drop_of_get?_none _ _ hev
    have hlen0 : (t.events.drop j).length = 0 := by rw [hdrop]; rfl
    rcases hthr : t.throws with _ | ⟨e, rest⟩
    · by_cases hz : t.iteratorCount = 0
      · rw [if_pos hz]
        refine ⟨trivial, fun _ => rfl, ?_, fun _ => hz, ?_⟩
        · intro hf
          exact LoopState.noConfusion hf
        · intro _
          rw [liveCount_mk _ _ _ _ _ _ _ _ _ _ (by simp [LoopState.isThrew])]
          simp only [LoopState.cut, LoopState.held, List.drop_nil, Option.toList]
          have hcnt := P.cnt
          simp only [hlen0] at hcnt
          simp
          omega
      · rw [if_neg hz]
        refine ⟨trivial, fun _ => rfl, fun _ _ => hz, ?_, ?_⟩
        · intro hf
          exact LoopState.noConfusion hf
        · intro _
          rw [liveCount_mk _ _ _ _ _ _ _ _ _ _ (by simp [LoopState.isThrew])]
          simp only [LoopState.cut, LoopState.held, List.drop_nil, Option.toList]
          have hcnt := P.cnt
          simp only [hlen0] at hcnt
          simp
          omega
    · refine ⟨trivial, P.sigE, ?_, ?_, ?_⟩
      · intro hf
        exact LoopState.noConfusion hf
      · intro hf
        exact LoopState.noConfusion hf
      · intro hnt
        exact absurd trivial hnt
  · cases ev with
    | inlet id v c rest =>
        have hlen := length_drop_of_get? t.events j _ hev
        refine ⟨?_, P.sigE, ?_, ?_, ?_⟩
        · show drainPosL (.awaitingHandler j id v c rest) t.events
          simp only [drainPosL]
          exact hev
        · intro hf
          exact LoopState.noConfusion hf
        · intro hf
          exact LoopState.noConfusion hf
        · intro _
          rw [liveCount_mk _ _ _ _ _ _ _ _ _ _ (by simp [LoopState.isThrew])]
          simp only [LoopState.cut, LoopState.held, Option.toList]
          have hcnt := P.cnt
          simp only [List.length_drop] at hcnt hlen ⊢
          simp
          omega
    | outlet id v rest =>
        have hlen := length_drop_of_get? t.events j _ hev
        refine ⟨?_, P.sigE, ?_, ?_, ?_⟩
        · show drainPosL (.yielding j (.outlet id rest)) t.events
          simp only [drainPosL]
          rw [hev]
          exact ⟨rfl, rfl⟩
        · intro hf
          exact LoopState.noConfusion hf
        · intro hf
          exact LoopState.noConfusion hf
        · intro _
          rw [liveCount_mk _ _ _ _ _ _ _ _ _ _ (by simp [LoopState.isThrew])]
          simp only [LoopState.cut, LoopState.held, Option.toList]
          have hcnt := P.cnt
          simp only [List.length_drop] at hcnt hlen ⊢
          simp
          omega

/-- Registration preserves the basic invariants. -/
theorem invA_applyReg (s : State IV OV Ctx E) (r : Reg IV OV Ctx E) (hA : InvA s)
    (hl : s.loop = .notStarted) : InvA (applyReg s r) := by
  have hnt : ¬ s.loop.isThrew := by simp [hl, LoopState.isThrew]
  have hc := hA.conserve hnt
  rw [liveCount_eq s hnt, hl] at hc
  simp only [LoopState.cut, LoopState.held, Option.toList, List.drop_zero] at hc
  cases r with
  | inl p c =>
      show InvA (addInletBelt s p c)
      refine ⟨?_, hA.noSig, ?_, ?_, ?_⟩
      · show drainPosL s.loop s.events
        rw [hl]
        trivial
      · intro hf
        rw [show (addInletBelt s p c).loop = s.loop from rfl, hl] at hf
        exact LoopState.noConfusion hf
      · intro hf
        rw [show (addInletBelt s p c).loop = s.loop from rfl, hl] at hf
        exact LoopState.noConfusion hf
      · intro _
        have hnt2 : ¬ (addInletBelt s p c).loop.isThrew := by
          rw [show (addInletBelt s p c).loop = s.loop from rfl]
          exact hnt
        rw [liveCount_eq _ hnt2]
        rw [show (addInletBelt s p c).loop = s.loop from rfl, hl]
        simp only [LoopState.cut, LoopState.held, Option.toList, List.drop_zero]
        rw [show (addInletBelt s p c).pending = s.pending ++ [.inlet s.nextId p c] from rfl]
        rw [show (addInletBelt s p c).events = s.events from rfl]
        rw [show (addInletBelt s p c).iteratorCount = s.iteratorCount + 1 from rfl]
        simp at hc ⊢
        omega
  | out q =>
      show InvA (addOutletBelt s q)
      refine ⟨?_, hA.noSig, ?_, ?_, ?_⟩
      · show drainPosL s.loop s.events
        rw [hl]
        trivial
      · intro hf
        rw [show (addOutletBelt s q).loop = s.loop from rfl, hl] at hf
        exact LoopState.noConfusion hf
      · intro hf
        rw [show (addOutletBelt s q).loop = s.loop from rfl, hl] at hf
        exact LoopState.noConfusion hf
      · intro _
        have hnt2 : ¬ (addOutletBelt s q).loop.isThrew := by
          rw [show (addOutletBelt s q).loop = s.loop from rfl]
          exact hnt
        rw [liveCount_eq _ hnt2]
        rw [show (addOutletBelt s q).loop = s.loop from rfl, hl]
        simp only [LoopState.cut, LoopState.held, Option.toList, List.drop_zero]
        rw [show (addOutletBelt s q).pending = s.pending ++ [.outlet s.nextId q] from rfl]
        rw [show (addOutletBelt s q).events = s.events from rfl]
        rw [show (addOutletBelt s q).iteratorCount = s.iteratorCount + 1 from rfl]
        simp at hc ⊢
        omega

theorem length_eraseIdx_add_one {A : Type} (l : List A) (k : Nat) (hk : k < l.length) :
    (l.eraseIdx k).length + 1 = l.length := by
  induction l generalizing k with
  | nil => simp at hk
  | cons a t ih =>
      cases k with
      | zero => simp [List.eraseIdx]
      | succ k =>
          simp only [List.eraseIdx, List.length_cons]
          rw [← ih k (by simpa using Nat.lt_of_succ_lt_succ hk)]

/-- Every step preserves the basic invariants. -/
theorem invA_step (h : IV → Ctx → PromiseOrValue OV E) (s s' : State IV OV Ctx E)
    (hA : InvA s) (hst : Step h s s') : InvA s' := by
  cases hst with
  | start hl =>
      have hnt : ¬ s.loop.isThrew := by simp [hl, LoopState.isThrew]
      have hc := hA.conserve hnt
      rw [liveCount_eq s hnt, hl] at hc
      simp only [LoopState.cut, LoopState.held, Option.toList, List.drop_zero,
        List.length_nil] at hc
      by_cases hz : s.iteratorCount = 0
      · rw [startRun, if_pos hz]
        refine ⟨trivial, hA.noSig, ?_, fun _ => hz, ?_⟩
        · intro hf
          exact LoopState.noConfusion hf
        · intro _
          rw [liveCount_mk _ _ _ _ _ _ _ _ _ _ (by simp [LoopState.isThrew])]
          simp only [LoopState.cut, LoopState.held, Option.toList, List.drop_zero,
            List.length_nil]
          omega
      · rw [startRun, if_neg hz]
        refine ⟨trivial, hA.noSig, fun _ _ => hz, ?_, ?_⟩
        · intro hf
          exact LoopState.noConfusion hf
        · intro _
          rw [liveCount_mk _ _ _ _ _ _ _ _ _ _ (by simp [LoopState.isThrew])]
          simp only [LoopState.cut, LoopState.held, Option.toList, List.drop_zero,
            List.length_nil]
          omega
  | pull k hs =>
      have hnt : ¬ s.loop.isThrew := by
        cases hloop : s.loop <;> rw [hloop] at hs <;>
          simp [LoopState.isThrew, LoopState.suspended] at hs ⊢
      have hd := hA.drain
      have hcle := drainPosL_cut_le s.loop s.events hd
      have hc := hA.conserve hnt
      rw [liveCount_eq s hnt] at hc
      have herase := length_eraseIdx_add_one s.pending k.val k.isLt
      have hfin : ∀ t : State IV OV Ctx E, t.loop = s.loop → t.loop = .finished → False := by
        intro t htl htf
        rw [htl] at htf
        rw [htf] at hs
        exact hs
      rcases hpk : s.pending.get k with ⟨id, ⟨items, post⟩, c⟩ | ⟨id, ⟨items, post⟩⟩
      · rcases items with _ | ⟨v, rest⟩
        · rcases post with _ | e <;>
          · simp only [completePull]
            refine ⟨hd, fun hf => Bool.noConfusion hf, fun _ hf => Bool.noConfusion hf,
              fun hf => absurd (hfin _ rfl hf) (fun x => x), ?_⟩
            intro _
            rw [liveCount_mk _ _ _ _ _ _ _ _ _ _ hnt]
            dsimp only
            omega
        · rcases post with _ | e <;>
          · simp only [completePull]
            refine ⟨drainPosL_append _ _ _ hd, fun hf => Bool.noConfusion hf,
              fun _ hf => Bool.noConfusion hf,
              fun hf => absurd (hfin _ rfl hf) (fun x => x), ?_⟩
            intro _
            rw [liveCount_mk _ _ _ _ _ _ _ _ _ _ hnt]
            rw [drop_append_of_le _ _ _ hcle]
            dsimp only
            simp only [List.length_append, List.length_cons, List.length_nil]
            omega
      · rcases items with _ | ⟨v, rest⟩
        · rcases post with _ | e <;>
          · simp only [completePull]
            refine ⟨hd, fun hf => Bool.noConfusion hf, fun _ hf => Bool.noConfusion hf,
              fun hf => absurd (hfin _ rfl hf) (fun x => x), ?_⟩
            intro _
            rw [liveCount_mk _ _ _ _ _ _ _ _ _ _ hnt]
            dsimp only
            omega
        · rcases post with _ | e <;>
          · simp only [completePull]
            refine ⟨drainPosL_append _ _ _ hd, fun hf => Bool.noConfusion hf,
              fun _ hf => Bool.noConfusion hf,
              fun hf => absurd (hfin _ rfl hf) (fun x => x), ?_⟩
            intro _
            rw [liveCount_mk _ _ _ _ _ _ _ _ _ _ hnt]
            rw [drop_append_of_le _ _ _ hcle]
            dsimp only
            simp only [List.length_append, List.length_cons, List.length_nil]
            omega
  | wake hl hsig =>
      have hnt : ¬ s.loop.isThrew := by simp [hl, LoopState.isThrew]
      refine invA_drainFrom s 0 ⟨hA.noSig, ?_, Nat.zero_le _⟩
      have hc := hA.conserve hnt
      rw [liveCount_eq s hnt, hl] at hc
      simp only [LoopState.cut, LoopState.held, Option.toList, List.drop_zero,
        List.length_nil] at hc
      simp only [List.drop_zero]
      omega
  | handlerResolved i id v c rest hl =>
      have hnt : ¬ s.loop.isThrew := by simp [hl, LoopState.isThrew]
      have hd := hA.drain
      rw [drainPos, hl] at hd
      simp only [drainPosL] at hd
      have hilt := get?_lt_length s.events i _ hd
      have hc := hA.conserve hnt
      rw [liveCount_eq s hnt, hl] at hc
      simp only [LoopState.cut, LoopState.held, Option.toList] at hc
      rcases haw : (h v c).await with w | q | e <;> simp only [applyHandler, haw]
      · refine ⟨?_, hA.noSig, fun hf _ => LoopState.noConfusion hf,
          fun hf => LoopState.noConfusion hf, ?_⟩
        · show drainPosL (.yielding i (.inlet id rest c)) s.events
          simp only [drainPosL]
          rw [hd]
          exact ⟨rfl, rfl, rfl⟩
        · intro _
          rw [liveCount_mk _ _ _ _ _ _ _ _ _ _ (by simp [LoopState.isThrew])]
          simp only [LoopState.cut, LoopState.held, Option.toList] at hc ⊢
          simp only [List.length_cons] at hc ⊢
          omega
      · refine invA_drainFrom _ (i + 1) ⟨?_, ?_, ?_⟩
        · intro hf
          exact hA.noSig hf
        · dsimp only [addOutletBelt]
          simp only [List.length_append, List.length_cons, List.length_nil] at hc ⊢
          simp at hc ⊢
          omega
        · show i + 1 ≤ s.events.length
          omega
      · refine ⟨trivial, hA.noSig, fun hf _ => LoopState.noConfusion hf,
          fun hf => LoopState.noConfusion hf, ?_⟩
        intro hnt2
        exact absurd trivial hnt2
  | yieldResumed i re hl =>
      have hnt : ¬ s.loop.isThrew := by simp [hl, LoopState.isThrew]
      have hcle := drainPosL_cut_le s.loop s.events hA.drain
      rw [hl] at hcle
      simp only [LoopState.cut] at hcle
      have hc := hA.conserve hnt
      rw [liveCount_eq s hnt, hl] at hc
      simp only [LoopState.cut, LoopState.held, Option.toList] at hc
      refine invA_drainFrom _ (i + 1) ⟨?_, ?_, hcle⟩
      · intro hf
        exact hA.noSig hf
      · dsimp only
        simp only [List.length_append, List.length_cons, List.length_nil] at hc ⊢
        simp at hc ⊢
        omega

theorem invA_mkConveyor : InvA (mkConveyor : State IV OV Ctx E) := by
  refine ⟨trivial, fun _ => rfl, ?_, fun _ => rfl, ?_⟩
  · intro hf
    exact LoopState.noConfusion hf
  · intro _
    rfl

theorem applyReg_loop (s : State IV OV Ctx E) (r : Reg IV OV Ctx E) :
    (applyReg s r).loop = s.loop := by
  cases r <;> rfl

theorem invA_foldl (regs : List (Reg IV OV Ctx E)) :
    ∀ s : State IV OV Ctx E, InvA s → s.loop = .notStarted →
      InvA (regs.foldl applyReg s) ∧ (regs.foldl applyReg s).loop = .notStarted := by
  induction regs with
  | nil => exact fun s hA hl => ⟨hA, hl⟩
  | cons r rest ih =>
      intro s hA hl
      exact ih (applyReg s r) (invA_applyReg s r hA hl) ((applyReg_loop s r).trans hl)

theorem invA_mkInit (regs : List (Reg IV OV Ctx E)) : InvA (mkInit regs) :=
  (invA_foldl regs mkConveyor invA_mkConveyor rfl).1

theorem mkInit_loop (regs : List (Reg IV OV Ctx E)) :
    (mkInit regs : State IV OV Ctx E).loop = .notStarted :=
  (invA_foldl regs mkConveyor invA_mkConveyor rfl).2

/-- The basic invariants hold in every reachable state. -/
theorem invA_reaches (h : IV → Ctx → PromiseOrValue OV E) (regs : List (Reg IV OV Ctx E))
    (s : State IV OV Ctx E) (hr : Reaches h (mkInit regs) s) : InvA s := by
  induction hr with
  | refl => exact invA_mkInit regs
  | tail hsteps hstep ih => exact invA_step h _ _ ih hstep

/-! ## Progress: a halted system has terminated -/

/-- A reachable state in which no step is possible has a terminated
loop: either a clean finish or a thrown error. -/
theorem progress (h : IV → Ctx → PromiseOrValue OV E) (s : State IV OV Ctx E)
    (hA : InvA s) (hhalt : Halted h s) : s.loop = .finished ∨ s.loop.isThrew := by
  cases hloop : s.loop with
  | notStarted => exact absurd (Step.start s hloop) (hhalt _)
  | waitSig =>
      cases hsig : s.signal with
      | true => exact absurd (Step.wake s hloop hsig) (hhalt _)
      | false =>
          have hev : s.events = [] := hA.noSig hsig
          have hnz := hA.waitNZ hloop hsig
          have hc := hA.conserve (by simp [hloop, LoopState.isThrew])
          rw [liveCount_eq s (by simp [hloop, LoopState.isThrew]), hloop] at hc
          simp only [LoopState.cut, LoopState.held, Option.toList, List.drop_zero,
            List.length_nil, hev] at hc
          have hpnd : s.pending.length ≠ 0 := by
            intro h0
            rw [h0] at hc
            simp at hc
            exact hnz hc
          have hk : 0 < s.pending.length := Nat.pos_of_ne_zero hpnd
          exact absurd (Step.pull s ⟨0, hk⟩ (by rw [hloop]; trivial)) (hhalt _)
  | awaitingHandler i id v c rest =>
      exact absurd (Step.handlerResolved s i id v c rest hloop) (hhalt _)
  | yielding i re => exact absurd (Step.yieldResumed s i re hloop) (hhalt _)
  | finished => exact Or.inl rfl
  | threw e => exact Or.inr (by simp [LoopState.isThrew])

/-! ## Preservation of the error-freedom invariants -/

theorem mem_drop_succ {A : Type} (l : List A) (j : Nat) (x : A)
    (hx : x ∈ l.drop (j + 1)) : x ∈ l.drop j := by
  rcases hg : l.get? j with _ | e
  · rw [drop_of_get?_none _ _ hg] at *
    rw [List.drop_eq_nil_of_le (by
      have := List.get?_eq_none.mp hg
      omega)] at hx
    exact absurd hx (List.not_mem_nil _)
  · rw [drop_of_get? _ _ _ hg]
    exact List.mem_cons_of_mem _ hx

theorem head_mem_drop {A : Type} (l : List A) (j : Nat) (e : A) (hj : l.get? j = some e) :
    e ∈ l.drop j := by
  rw [drop_of_get? _ _ _ hj]
  exact List.mem_cons_self _ _

/-- The drain continuation re-establishes the error-freedom
invariants. -/
theorem invNE_drainFrom (t : State IV OV Ctx E) (j : Nat) (P : PreDrainNE t j) :
    InvNE (drainFrom t j) := by
  unfold drainFrom
  rcases hev : t.events.get? j with _ | ev
  · rcases hthr : t.throws with _ | ⟨e2, rest2⟩
    · by_cases hz : t.iteratorCount = 0
      · rw [if_pos hz]
        refine ⟨rfl, by simp [LoopState.isThrew], P.cleanPend, ?_, ?_⟩
        · intro ev2 hev2
          simp [liveEvents, LoopState.cut] at hev2
        · intro pu hpu
          simp [heldPull, LoopState.held] at hpu
      · rw [if_neg hz]
        refine ⟨rfl, by simp [LoopState.isThrew], P.cleanPend, ?_, ?_⟩
        · intro ev2 hev2
          simp [liveEvents, LoopState.cut] at hev2
        · intro pu hpu
          simp [heldPull, LoopState.held] at hpu
    · exact absurd P.thr (by rw [hthr]; simp)
  · cases ev with
    | inlet id v c rest =>
        have hevm := P.cleanEv _ (head_mem_drop _ _ _ hev)
        refine ⟨P.thr, by simp [LoopState.isThrew], P.cleanPend, ?_, ?_⟩
        · intro ev2 hev2
          rw [liveEvents_mk _ _ _ _ _ _ _ _ _ _ (by simp [LoopState.isThrew])] at hev2
          simp only [LoopState.cut] at hev2
          exact P.cleanEv _ (mem_drop_succ _ _ _ hev2)
        · intro pu hpu
          rw [show heldPull (⟨t.iteratorCount, t.events, t.signal, t.throws, t.pending,
            .awaitingHandler j id v c rest, t.output, t.nextId, t.bornOut, t.bornIn⟩
            : State IV OV Ctx E) = some (.inlet id rest c) from rfl] at hpu
          simp only [Option.toList, List.mem_singleton] at hpu
          subst hpu
          exact hevm
    | outlet id v rest =>
        have hevm := P.cleanEv _ (head_mem_drop _ _ _ hev)
        refine ⟨P.thr, by simp [LoopState.isThrew], P.cleanPend, ?_, ?_⟩
        · intro ev2 hev2
          rw [liveEvents_mk _ _ _ _ _ _ _ _ _ _ (by simp [LoopState.isThrew])] at hev2
          simp only [LoopState.cut] at hev2
          exact P.cleanEv _ (mem_drop_succ _ _ _ hev2)
        · intro pu hpu
          rw [show heldPull (⟨t.iteratorCount, t.events, t.signal, t.throws, t.pending,
            .yielding j (.outlet id rest), t.output ++ [(id, v)], t.nextId, t.bornOut,
            t.bornIn⟩ : State IV OV Ctx E) = some (.outlet id rest) from rfl] at hpu
          simp only [Option.toList, List.mem_singleton] at hpu
          subst hpu
          exact hevm

/-- Every step preserves the error-freedom invariants, for a handler
that never raises and only returns clean streams. -/
theorem invNE_step (h : IV → Ctx → PromiseOrValue OV E) (s s' : State IV OV Ctx E)
    (hNR : NoRaise h) (hCS : CleanStreams h) (hA : InvA s) (hNE : InvNE s)
    (hst : Step h s s') : InvNE s' := by
  cases hst with
  | start hl =>
      have hle : liveEvents s = s.events := by
        rw [liveEvents_eq s (by simp [hl, LoopState.isThrew]), hl]
        simp [LoopState.cut]
      by_cases hz : s.iteratorCount = 0
      · rw [startRun, if_pos hz]
        refine ⟨hNE.thr, by simp [LoopState.isThrew], hNE.cleanPend, ?_, ?_⟩
        · intro ev2 hev2
          rw [liveEvents_mk _ _ _ _ _ _ _ _ _ _ (by simp [LoopState.isThrew])] at hev2
          simp only [LoopState.cut, List.drop_zero] at hev2
          exact hNE.cleanEv _ (by rw [hle]; exact hev2)
        · intro pu hpu
          simp [heldPull, LoopState.held] at hpu
      · rw [startRun, if_neg hz]
        refine ⟨hNE.thr, by simp [LoopState.isThrew], hNE.cleanPend, ?_, ?_⟩
        · intro ev2 hev2
          rw [liveEvents_mk _ _ _ _ _ _ _ _ _ _ (by simp [LoopState.isThrew])] at hev2
          simp only [LoopState.cut, List.drop_zero] at hev2
          exact hNE.cleanEv _ (by rw [hle]; exact hev2)
        · intro pu hpu
          simp [heldPull, LoopState.held] at hpu
  | pull k hs =>
      have hnt : ¬ s.loop.isThrew := by
        cases hloop : s.loop <;> rw [hloop] at hs <;>
          simp [LoopState.isThrew, LoopState.suspended] at hs ⊢
      have hgm : s.pending.get k ∈ s.pending := s.pending.get_mem k.val k.isLt
      have hgcl := hNE.cleanPend _ hgm
      have hcle := drainPosL_cut_le s.loop s.events hA.drain
      have hpe : ∀ pu ∈ s.pending.eraseIdx k.val, Pull.clean pu := by
        intro pu hpu
        exact hNE.cleanPend _ (List.mem_of_mem_eraseIdx hpu)
      rcases hpk : s.pending.get k with ⟨id, ⟨items, post⟩, c⟩ | ⟨id, ⟨items, post⟩⟩ <;>
        rw [hpk] at hgcl
      · rcases items with _ | ⟨v, rest⟩
        · rcases post with _ | e
          · simp only [completePull]
            refine ⟨hNE.thr, hnt, hpe, ?_, ?_⟩
            · intro ev2 hev2
              rw [liveEvents_mk _ _ _ _ _ _ _ _ _ _ hnt] at hev2
              exact hNE.cleanEv _ (by rw [liveEvents_eq s hnt]; exact hev2)
            · intro pu hpu
              rw [show heldPull (⟨s.iteratorCount - 1, s.events, true, s.throws,
                s.pending.eraseIdx k.val, s.loop, s.output, s.nextId, s.bornOut, s.bornIn⟩
                : State IV OV Ctx E) = s.loop.held from rfl] at hpu
              exact hNE.cleanHeld _ (by rw [show heldPull s = s.loop.held from rfl]; exact hpu)
          · exact absurd hgcl (by simp [Pull.clean])
        · rcases post with _ | e
          · simp only [completePull]
            refine ⟨hNE.thr, hnt, hpe, ?_, ?_⟩
            · intro ev2 hev2
              rw [liveEvents_mk _ _ _ _ _ _ _ _ _ _ hnt] at hev2
              rw [drop_append_of_le _ _ _ hcle] at hev2
              rcases List.mem_append.mp hev2 with hev2 | hev2
              · exact hNE.cleanEv _ (by rw [liveEvents_eq s hnt]; exact hev2)
              · rcases List.mem_singleton.mp hev2 with rfl
                exact hgcl
            · intro pu hpu
              rw [show heldPull (⟨s.iteratorCount,
                s.events ++ [.inlet id v c ⟨rest, none⟩], true, s.throws,
                s.pending.eraseIdx k.val, s.loop, s.output, s.nextId, s.bornOut, s.bornIn⟩
                : State IV OV Ctx E) = s.loop.held from rfl] at hpu
              exact hNE.cleanHeld _ (by rw [show heldPull s = s.loop.held from rfl]; exact hpu)
          · exact absurd hgcl (by simp [Pull.clean])
      · rcases items with _ | ⟨v, rest⟩
        · rcases post with _ | e
          · simp only [completePull]
            refine ⟨hNE.thr, hnt, hpe, ?_, ?_⟩
            · intro ev2 hev2
              rw [liveEvents_mk _ _ _ _ _ _ _ _ _ _ hnt] at hev2
              exact hNE.cleanEv _ (by rw [liveEvents_eq s hnt]; exact hev2)
            · intro pu hpu
              rw [show heldPull (⟨s.iteratorCount - 1, s.events, true, s.throws,
                s.pending.eraseIdx k.val, s.loop, s.output, s.nextId, s.bornOut, s.bornIn⟩
                : State IV OV Ctx E) = s.loop.held from rfl] at hpu
              exact hNE.cleanHeld _ (by rw [show heldPull s = s.loop.held from rfl]; exact hpu)
          · exact absurd hgcl (by simp [Pull.clean])
        · rcases post with _ | e
          · simp only [completePull]
            refine ⟨hNE.thr, hnt, hpe, ?_, ?_⟩
            · intro ev2 hev2
              rw [liveEvents_mk _ _ _ _ _ _ _ _ _ _ hnt] at hev2
              rw [drop_append_of_le _ _ _ hcle] at hev2
              rcases List.mem_append.mp hev2 with hev2 | hev2
              · exact hNE.cleanEv _ (by rw [liveEvents_eq s hnt]; exact hev2)
              · rcases List.mem_singleton.mp hev2 with rfl
                exact hgcl
            · intro pu hpu
              rw [show heldPull (⟨s.iteratorCount,
                s.events ++ [.outlet id v ⟨rest, none⟩], true, s.throws,
                s.pending.eraseIdx k.val, s.loop, s.output, s.nextId, s.bornOut, s.bornIn⟩
                : State IV OV Ctx E) = s.loop.held from rfl] at hpu
              exact hNE.cleanHeld _ (by rw [show heldPull s = s.loop.held from rfl]; exact hpu)
          · exact absurd hgcl (by simp [Pull.clean])
  | wake hl hsig =>
      refine invNE_drainFrom s 0 ⟨hNE.thr, hNE.cleanPend, ?_⟩
      intro ev hev
      refine hNE.cleanEv _ ?_
      rw [liveEvents_eq s (by simp [hl, LoopState.isThrew]), hl]
      simpa [LoopState.cut] using hev
  | handlerResolved i id v c rest hl =>
      have hnt : ¬ s.loop.isThrew := by simp [hl, LoopState.isThrew]
      have hheld : Pull.clean (.inlet id rest c : Pull IV OV Ctx E) := by
        refine hNE.cleanHeld _ ?_
        rw [show heldPull s = s.loop.held from rfl, hl]
        simp [LoopState.held]
      have hlev : liveEvents s = s.events.drop (i + 1) := by
        rw [liveEvents_eq s hnt, hl]
        rfl
      rcases haw : (h v c).await with w | q | e <;> simp only [applyHandler, haw]
      · refine ⟨hNE.thr, by simp [LoopState.isThrew], hNE.cleanPend, ?_, ?_⟩
        · intro ev2 hev2
          rw [liveEvents_mk _ _ _ _ _ _ _ _ _ _ (by simp [LoopState.isThrew])] at hev2
          simp only [LoopState.cut] at hev2
          exact hNE.cleanEv _ (by rw [hlev]; exact hev2)
        · intro pu hpu
          rw [show heldPull (⟨s.iteratorCount, s.events, s.signal, s.throws, s.pending,
            .yielding i (.inlet id rest c), s.output ++ [(id, w)], s.nextId, s.bornOut,
            s.bornIn⟩ : State IV OV Ctx E) = some (.inlet id rest c) from rfl] at hpu
          simp only [Option.toList, List.mem_singleton] at hpu
          subst hpu
          exact hheld
      · refine invNE_drainFrom _ (i + 1) ⟨hNE.thr, ?_, ?_⟩
        · intro pu hpu
          dsimp only [addOutletBelt] at hpu
          rcases List.mem_append.mp hpu with hpu | hpu
          · rcases List.mem_append.mp hpu with hpu | hpu
            · exact hNE.cleanPend _ hpu
            · rcases List.mem_singleton.mp hpu with rfl
              exact hCS v c q haw
          · rcases List.mem_singleton.mp hpu with rfl
            exact hheld
        · intro ev2 hev2
          exact hNE.cleanEv _ (by rw [hlev]; exact hev2)
      · exact absurd haw (hNR v c e)
  | yieldResumed i re hl =>
      have hnt : ¬ s.loop.isThrew := by simp [hl, LoopState.isThrew]
      have hheld : Pull.clean re := by
        refine hNE.cleanHeld _ ?_
        rw [show heldPull s = s.loop.held from rfl, hl]
        simp [LoopState.held]
      have hlev : liveEvents s = s.events.drop (i + 1) := by
        rw [liveEvents_eq s hnt, hl]
        rfl
      refine invNE_drainFrom _ (i + 1) ⟨hNE.thr, ?_, ?_⟩
      · intro pu hpu
        dsimp only at hpu
        rcases List.mem_append.mp hpu with hpu | hpu
        · exact hNE.cleanPend _ hpu
        · rcases List.mem_singleton.mp hpu with rfl
          exact hheld
      · intro ev2 hev2
        exact hNE.cleanEv _ (by rw [hlev]; exact hev2)

theorem invNE_mkConveyor : InvNE (mkConveyor : State IV OV Ctx E) :=
  ⟨rfl, by simp [mkConveyor, LoopState.isThrew],
   fun _ hpu => absurd hpu (List.not_mem_nil _),
   fun _ hev => absurd hev (List.not_mem_nil _),
   fun _ hpu => absurd hpu (List.not_mem_nil _)⟩

theorem invNE_applyReg (s : State IV OV Ctx E) (r : Reg IV OV Ctx E) (hNE : InvNE s)
    (hcl : r.clean) (hl : s.loop = .notStarted) : InvNE (applyReg s r) := by
  have hnt : ¬ s.loop.isThrew := by simp [hl, LoopState.isThrew]
  cases r with
  | inl p c =>
      show InvNE (addInletBelt s p c)
      refine ⟨hNE.thr, hnt, ?_, ?_, ?_⟩
      · intro pu hpu
        dsimp only [addInletBelt] at hpu
        rcases List.mem_append.mp hpu with hpu | hpu
        · exact hNE.cleanPend _ hpu
        · rcases List.mem_singleton.mp hpu with rfl
          exact hcl
      · intro ev hev
        rw [liveEvents_eq (addInletBelt s p c) hnt] at hev
        exact hNE.cleanEv _ (by rw [liveEvents_eq s hnt]; exact hev)
      · intro pu hpu
        rw [show heldPull (addInletBelt s p c) = s.loop.held from rfl] at hpu
        exact hNE.cleanHeld _ (by rw [show heldPull s = s.loop.held from rfl]; exact hpu)
  | out q =>
      show InvNE (addOutletBelt s q)
      refine ⟨hNE.thr, hnt, ?_, ?_, ?_⟩
      · intro pu hpu
        dsimp only [addOutletBelt] at hpu
        rcases List.mem_append.mp hpu with hpu | hpu
        · exact hNE.cleanPend _ hpu
        · rcases List.mem_singleton.mp hpu with rfl
          exact hcl
      · intro ev hev
        rw [liveEvents_eq (addOutletBelt s q) hnt] at hev
        exact hNE.cleanEv _ (by rw [liveEvents_eq s hnt]; exact hev)
      · intro pu hpu
        rw [show heldPull (addOutletBelt s q) = s.loop.held from rfl] at hpu
        exact hNE.cleanHeld _ (by rw [show heldPull s = s.loop.held from rfl]; exact hpu)

theorem invNE_mkInit (regs : List (Reg IV OV Ctx E)) (hcl : ∀ r ∈ regs, r.clean) :
    InvNE (mkInit regs) := by
  have main : ∀ (l : List (Reg IV OV Ctx E)) (s : State IV OV Ctx E), InvNE s →
      s.loop = .notStarted → (∀ r ∈ l, r.clean) → InvNE (l.foldl applyReg s) := by
    intro l
    induction l with
    | nil => exact fun s hNE _ _ => hNE
    | cons r rest ih =>
        intro s hNE hl hcl2
        exact ih (applyReg s r) (invNE_applyReg s r hNE (hcl2 r (by simp)) hl)
          ((applyReg_loop s r).trans hl)
          (fun r2 hr2 => hcl2 r2 (by simp [hr2]))
  exact main regs mkConveyor invNE_mkConveyor rfl hcl

/-- The error-freedom invariants hold in every reachable state of an
error-free configuration. -/
theorem invNE_reaches (h : IV → Ctx → PromiseOrValue OV E) (regs : List (Reg IV OV Ctx E))
    (hNR : NoRaise h) (hCS : CleanStreams h) (hcl : ∀ r ∈ regs, r.clean)
    (s : State IV OV Ctx E) (hr : Reaches h (mkInit regs) s) : InvNE s := by
  induction hr with
  | refl => exact invNE_mkInit regs hcl
  | tail hsteps hstep ih =>
      exact invNE_step h _ _ hNR hCS (invA_reaches h regs _ hsteps) ih hstep

/-! ## Conservation of the output multiset -/

theorem sum_map_eraseIdx {A M : Type} [AddCommMonoid M] (f : A → M) (l : List A) (k : Nat)
    (hk : k < l.length) :
    ((l.eraseIdx k).map f).sum + f (l.get ⟨k, hk⟩) = (l.map f).sum := by
  induction l generalizing k with
  | nil => simp at hk
  | cons a t ih =>
      cases k with
      | zero =>
          simp only [List.eraseIdx, List.map_cons, List.sum_cons, List.get]
          exact add_comm _ _
      | succ k =>
          have := ih k (by simpa using Nat.lt_of_succ_lt_succ hk)
          simp only [List.eraseIdx, List.map_cons, List.sum_cons, List.get]
          rw [add_assoc, this]

theorem sum_map_drop_append {A M : Type} [AddCommMonoid M] (f : A → M) (l : List A) (e : A)
    (c : Nat) (hc : c ≤ l.length) :
    (((l ++ [e]).drop c).map f).sum = ((l.drop c).map f).sum + f e := by
  rw [drop_append_of_le l e c hc]
  simp

theorem sum_map_drop_get? {A M : Type} [AddCommMonoid M] (f : A → M) (l : List A) (j : Nat)
    (e : A) (hj : l.get? j = some e) :
    ((l.drop j).map f).sum = f e + ((l.drop (j + 1)).map f).sum := by
  rw [drop_of_get? l j e hj]
  simp

theorem expList_cons (h : IV → Ctx → PromiseOrValue OV E) (v : IV) (l : List IV) (c : Ctx) :
    expList h (v :: l) c = expVal h v c + expList h l c := by
  simp [expList]

theorem visible_append (s : State IV OV Ctx E) (pr : Nat × OV) :
    ((({ s with output := s.output ++ [pr] } : State IV OV Ctx E).visible : List OV)
      : Multiset OV) = (s.visible : Multiset OV) + {pr.2} := by
  show ((((s.output ++ [pr]).map Prod.snd : List OV)) : Multiset OV) = _
  rw [List.map_append]
  rw [← Multiset.coe_add]
  rfl

/-- The drain continuation conserves the total output. -/
theorem totalOut_drainFrom (h : IV → Ctx → PromiseOrValue OV E) (t : State IV OV Ctx E)
    (j : Nat) (hthr : t.throws = []) :
    totalOut h (drainFrom t j) = (t.visible : Multiset OV)
      + (t.pending.map (Pull.todo h)).sum + ((t.events.drop j).map (Event.todo h)).sum := by
  unfold drainFrom
  rcases hev : t.events.get? j with _ | ev
  · have hdrop : t.events.drop j = [] := drop_of_get?_none _ _ hev
    rcases hthr2 : t.throws with _ | ⟨e2, rest2⟩
    · by_cases hz : t.iteratorCount = 0
      · rw [if_pos hz]
        simp [totalOut, todo, loopTodo, LoopState.todoL, liveEvents, LoopState.cut,
          State.visible, hdrop]
      · rw [if_neg hz]
        simp [totalOut, todo, loopTodo, LoopState.todoL, liveEvents, LoopState.cut,
          State.visible, hdrop]
    · exact absurd hthr (by rw [hthr2]; simp)
  · cases ev with
    | inlet id v c rest =>
        rw [sum_map_drop_get? _ _ _ _ hev]
        simp only [totalOut, todo, loopTodo]
        rw [liveEvents_mk _ _ _ _ _ _ _ _ _ _ (by simp [LoopState.isThrew])]
        simp only [LoopState.cut, LoopState.todoL, Event.todo, State.visible]
        abel
    | outlet id v rest =>
        rw [sum_map_drop_get? _ _ _ _ hev]
        simp only [totalOut, todo, loopTodo]
        rw [liveEvents_mk _ _ _ _ _ _ _ _ _ _ (by simp [LoopState.isThrew])]
        simp only [LoopState.cut, LoopState.todoL, Event.todo, Pull.todo, State.visible]
        rw [show ((((t.output ++ [(id, v)]).map Prod.snd : List OV)) : Multiset OV)
          = ((t.output.map Prod.snd : List OV) : Multiset OV) + {v} by
            rw [List.map_append, ← Multiset.coe_add]; rfl]
        rw [← Multiset.singleton_add]
        abel

/-- Every step conserves the total output, for an error-free run. -/
theorem totalOut_step (h : IV → Ctx → PromiseOrValue OV E) (s s' : State IV OV Ctx E)
    (hNR : NoRaise h) (hA : InvA s) (hNE : InvNE s) (hst : Step h s s') :
    totalOut h s' = totalOut h s := by
  cases hst with
  | start hl =>
      have hnt : ¬ s.loop.isThrew := by simp [hl, LoopState.isThrew]
      have hps : totalOut h s = (s.visible : Multiset OV)
          + (s.pending.map (Pull.todo h)).sum
          + ((s.events.drop 0).map (Event.todo h)).sum := by
        simp only [totalOut, todo, loopTodo]
        rw [liveEvents_eq s hnt, hl]
        simp [LoopState.cut, LoopState.todoL]
        abel
      by_cases hz : s.iteratorCount = 0
      · rw [startRun, if_pos hz, hps]
        simp only [totalOut, todo, loopTodo]
        rw [liveEvents_mk _ _ _ _ _ _ _ _ _ _ (by simp [LoopState.isThrew])]
        simp [LoopState.cut, LoopState.todoL, State.visible]
        abel
      · rw [startRun, if_neg hz, hps]
        simp only [totalOut, todo, loopTodo]
        rw [liveEvents_mk _ _ _ _ _ _ _ _ _ _ (by simp [LoopState.isThrew])]
        simp [LoopState.cut, LoopState.todoL, State.visible]
        abel
  | pull k hs =>
      have hnt : ¬ s.loop.isThrew := by
        cases hloop : s.loop <;> rw [hloop] at hs <;>
          simp [LoopState.isThrew, LoopState.suspended] at hs ⊢
      have hcle := drainPosL_cut_le s.loop s.events hA.drain
      have hsum := sum_map_eraseIdx (Pull.todo h) s.pending k.val k.isLt
      have hgm : s.pending.get k ∈ s.pending := s.pending.get_mem k.val k.isLt
      have hgcl := hNE.cleanPend _ hgm
      have hps : totalOut h s = (s.visible : Multiset OV)
          + (s.pending.map (Pull.todo h)).sum
          + ((s.events.drop s.loop.cut).map (Event.todo h)).sum + s.loop.todoL h := by
        simp only [totalOut, todo, loopTodo]
        rw [liveEvents_eq s hnt]
        abel
      rcases hpk : s.pending.get k with ⟨id, ⟨items, post⟩, c⟩ | ⟨id, ⟨items, post⟩⟩ <;>
        rw [hpk] at hsum hgcl
      · rcases items with _ | ⟨v, rest⟩
        · rcases post with _ | e
          · simp only [completePull]
            rw [hps]
            simp only [totalOut, todo, loopTodo]
            rw [liveEvents_mk _ _ _ _ _ _ _ _ _ _ hnt]
            simp only [State.visible]
            simp only [Pull.todo, expList, List.map_nil, List.sum_nil] at hsum
            rw [add_zero] at hsum
            rw [hsum]
            abel
          · exact absurd hgcl (by simp [Pull.clean])
        · rcases post with _ | e
          · simp only [completePull]
            rw [hps]
            simp only [totalOut, todo, loopTodo]
            rw [liveEvents_mk _ _ _ _ _ _ _ _ _ _ hnt]
            simp only [State.visible]
            rw [sum_map_drop_append _ _ _ _ hcle]
            simp only [Pull.todo, Event.todo] at hsum ⊢
            rw [expList_cons] at hsum
            rw [← hsum]
            abel
          · exact absurd hgcl (by simp [Pull.clean])
      · rcases items with _ | ⟨v, rest⟩
        · rcases post with _ | e
          · simp only [completePull]
            rw [hps]
            simp only [totalOut, todo, loopTodo]
            rw [liveEvents_mk _ _ _ _ _ _ _ _ _ _ hnt]
            simp only [State.visible]
            simp only [Pull.todo] at hsum
            rw [show ((([] : List OV)) : Multiset OV) = 0 from rfl, add_zero] at hsum
            rw [hsum]
            abel
          · exact absurd hgcl (by simp [Pull.clean])
        · rcases post with _ | e
          · simp only [completePull]
            rw [hps]
            simp only [totalOut, todo, loopTodo]
            rw [liveEvents_mk _ _ _ _ _ _ _ _ _ _ hnt]
            simp only [State.visible]
            rw [sum_map_drop_append _ _ _ _ hcle]
            simp only [Pull.todo, Event.todo] at hsum ⊢
            rw [show (((v :: rest : List OV)) : Multiset OV) = v ::ₘ (rest : Multiset OV)
              from (Multiset.cons_coe v rest).symm] at hsum
            rw [← hsum]
            abel
          · exact absurd hgcl (by simp [Pull.clean])
  | wake hl hsig =>
      have hnt : ¬ s.loop.isThrew := by simp [hl, LoopState.isThrew]
      rw [totalOut_drainFrom h s 0 hNE.thr]
      simp only [totalOut, todo, loopTodo]
      rw [liveEvents_eq s hnt, hl]
      simp [LoopState.cut, LoopState.todoL]
      abel
  | handlerResolved i id v c rest hl =>
      have hnt : ¬ s.loop.isThrew := by simp [hl, LoopState.isThrew]
      have hps : totalOut h s = (s.visible : Multiset OV)
          + (s.pending.map (Pull.todo h)).sum
          + ((s.events.drop (i + 1)).map (Event.todo h)).sum
          + (expVal h v c + expList h rest.items c) := by
        simp only [totalOut, todo, loopTodo]
        rw [liveEvents_eq s hnt, hl]
        simp only [LoopState.cut, LoopState.todoL]
        abel
      rcases haw : (h v c).await with w | q | e <;> simp only [applyHandler, haw]
      · have hexp : expVal h v c = {w} := by simp [expVal, haw]
        rw [hps, hexp]
        simp only [totalOut, todo, loopTodo]
        rw [liveEvents_mk _ _ _ _ _ _ _ _ _ _ (by simp [LoopState.isThrew])]
        simp only [LoopState.cut, LoopState.todoL, Pull.todo, State.visible,
          List.map_append, List.map_cons, List.map_nil]
        rw [← Multiset.coe_add, Multiset.coe_singleton]
        abel
      · have hexp : expVal h v c = (q.items : Multiset OV) := by simp [expVal, haw]
        rw [totalOut_drainFrom h
          { addOutletBelt s q with
              pending := (addOutletBelt s q).pending ++ [.inlet id rest c] }
          (i + 1) (by exact hNE.thr)]
        dsimp only [addOutletBelt]
        rw [hps, hexp]
        simp only [List.map_append, List.sum_append, List.map_cons, List.sum_cons,
          List.map_nil, List.sum_nil, Pull.todo, State.visible]
        abel
      · exact absurd haw (hNR v c e)
  | yieldResumed i re hl =>
      have hnt : ¬ s.loop.isThrew := by simp [hl, LoopState.isThrew]
      have hps : totalOut h s = (s.visible : Multiset OV)
          + (s.pending.map (Pull.todo h)).sum
          + ((s.events.drop (i + 1)).map (Event.todo h)).sum + re.todo h := by
        simp only [totalOut, todo, loopTodo]
        rw [liveEvents_eq s hnt, hl]
        simp only [LoopState.cut, LoopState.todoL]
        abel
      rw [totalOut_drainFrom h { s with pending := s.pending ++ [re] } (i + 1)
        (by exact hNE.thr)]
      dsimp only
      rw [hps]
      simp only [List.map_append, List.sum_append, List.map_cons, List.sum_cons,
        List.map_nil, List.sum_nil, State.visible]
      abel

theorem totalOut_applyReg (h : IV → Ctx → PromiseOrValue OV E) (s : State IV OV Ctx E)
    (r : Reg IV OV Ctx E) (hl : s.loop = .notStarted) :
    totalOut h (applyReg s r) = totalOut h s + r.expected h := by
  have hnt : ¬ s.loop.isThrew := by simp [hl, LoopState.isThrew]
  cases r with
  | inl p c =>
      show totalOut h (addInletBelt s p c) = _
      simp only [totalOut, todo, loopTodo]
      rw [liveEvents_eq (addInletBelt s p c) hnt, liveEvents_eq s hnt]
      dsimp only [addInletBelt]
      simp only [List.map_append, List.sum_append, List.map_cons, List.sum_cons,
        List.map_nil, List.sum_nil, Pull.todo, Reg.expected, State.visible]
      abel
  | out q =>
      show totalOut h (addOutletBelt s q) = _
      simp only [totalOut, todo, loopTodo]
      rw [liveEvents_eq (addOutletBelt s q) hnt, liveEvents_eq s hnt]
      dsimp only [addOutletBelt]
      simp only [List.map_append, List.sum_append, List.map_cons, List.sum_cons,
        List.map_nil, List.sum_nil, Pull.todo, Reg.expected, State.visible]
      abel

theorem totalOut_mkInit (h : IV → Ctx → PromiseOrValue OV E) (regs : List (Reg IV OV Ctx E)) :
    totalOut h (mkInit regs) = expectedOf h regs := by
  have main : ∀ (l : List (Reg IV OV Ctx E)) (s : State IV OV Ctx E),
      s.loop = .notStarted →
      totalOut h (l.foldl applyReg s) = totalOut h s + expectedOf h l := by
    intro l
    induction l with
    | nil => intro s _; simp [expectedOf]
    | cons r rest ih =>
        intro s hl
        rw [List.foldl_cons, ih (applyReg s r) ((applyReg_loop s r).trans hl),
          totalOut_applyReg h s r hl]
        simp [expectedOf]
        abel
  rw [show mkInit regs = regs.foldl applyReg mkConveyor from rfl]
  rw [main regs mkConveyor rfl]
  rw [show totalOut h (mkConveyor : State IV OV Ctx E) = 0 from rfl]
  rw [zero_add]

/-- In an error-free run the total output is invariant. -/
theorem totalOut_reaches (h : IV → Ctx → PromiseOrValue OV E) (regs : List (Reg IV OV Ctx E))
    (hNR : NoRaise h) (hCS : CleanStreams h) (hcl : ∀ r ∈ regs, r.clean)
    (s : State IV OV Ctx E) (hr : Reaches h (mkInit regs) s) :
    totalOut h s = expectedOf h regs := by
  induction hr with
  | refl => exact totalOut_mkInit h regs
  | tail hsteps hstep ih =>
      rw [totalOut_step h _ _ hNR (invA_reaches h regs _ hsteps)
        (invNE_reaches h regs hNR hCS hcl _ hsteps) hstep]
      exact ih

/-- At a clean finish nothing is owed: the delivered output is the
whole total. -/
theorem totalOut_finished (h : IV → Ctx → PromiseOrValue OV E) (s : State IV OV Ctx E)
    (hA : InvA s) (hfin : s.loop = .finished) :
    totalOut h s = (s.visible : Multiset OV) := by
  have hnt : ¬ s.loop.isThrew := by simp [hfin, LoopState.isThrew]
  have hc := hA.conserve hnt
  rw [hA.finZ hfin, liveCount_eq s hnt, hfin] at hc
  simp only [LoopState.cut, LoopState.held, Option.toList, List.drop_zero,
    List.length_nil] at hc
  have hpnil : s.pending = [] := by
    rcases hp : s.pending with _ | ⟨a, b⟩
    · rfl
    · rw [hp] at hc; simp at hc; omega
  have hevnil : s.events = [] := by
    rcases hp : s.events with _ | ⟨a, b⟩
    · rfl
    · rw [hp] at hc; simp at hc; omega
  simp only [totalOut, todo, loopTodo]
  rw [liveEvents_eq s hnt, hfin]
  simp [LoopState.cut, LoopState.todoL, hpnil, hevnil]

/-- Claim C2: with finitely many finite producer streams that all end
cleanly, a handler that never raises, and handler-returned streams that
end cleanly, iteration cannot run forever, and every reachable state in
which no step remains has finished cleanly with the delivered output
being exactly the expected multiset — the handler image of every inlet
item plus every outlet item verbatim, no duplicates, no omissions,
whatever order the pulls complete in. -/
theorem C2_theorem (h : IV → Ctx → PromiseOrValue OV E) (regs : List (Reg IV OV Ctx E))
    (hNR : NoRaise h) (hCS : CleanStreams h) (hcl : ∀ r ∈ regs, r.clean) :
    (∀ f : Nat → State IV OV Ctx E, f 0 = mkInit regs → ¬ ∀ n, Step h (f n) (f (n + 1)))
    ∧ ∀ s, Reaches h (mkInit regs) s → Halted h s →
        s.loop = .finished ∧ (s.visible : Multiset OV) = expectedOf h regs := by
  constructor
  · intro f _ hstep
    exact no_infinite_run h f hstep
  · intro s hr hhalt
    have hA := invA_reaches h regs s hr
    have hNE := invNE_reaches h regs hNR hCS hcl s hr
    have hfin : s.loop = .finished := by
      rcases progress h s hA hhalt with hf | ht
      · exact hf
      · exact absurd ht hNE.notThrew
    refine ⟨hfin, ?_⟩
    have hto := totalOut_reaches h regs hNR hCS hcl s hr
    rw [totalOut_finished h s hA hfin] at hto
    exact hto

/-- Witness for C2: one outlet belt holding the single value 7, driven
under the pass-through handler to its halted state, yields exactly the
multiset containing 7. -/
theorem C2_witness :
    c2final.loop = LoopState.finished
    ∧ (c2final.visible : Multiset Nat) = expectedOf hPass [.out ⟨[7], none⟩] := by
  have hNR : NoRaise hPass := fun v c e hx => HandlerResult.noConfusion hx
  have hCS : CleanStreams hPass := fun v c q hx => HandlerResult.noConfusion hx
  have hcl : ∀ r ∈ ([.out ⟨[7], none⟩] : List (Reg Nat Nat Unit Nat)), r.clean := by
    intro r hr
    rw [List.mem_singleton] at hr
    subst hr
    rfl
  have htr : Reaches hPass (mkInit [.out ⟨[7], none⟩]) c2final :=
    Relation.ReflTransGen.head (Step.start _ rfl)
      (Relation.ReflTransGen.head (Step.pull _ ⟨0, by decide⟩ trivial)
        (Relation.ReflTransGen.head (Step.wake _ rfl rfl)
          (Relation.ReflTransGen.head (Step.yieldResumed _ 0 (.outlet 0 ⟨[], none⟩) rfl)
            (Relation.ReflTransGen.head (Step.pull _ ⟨0, by decide⟩ trivial)
              (Relation.ReflTransGen.head (Step.wake _ rfl rfl)
                Relation.ReflTransGen.refl)))))
  have hhalt : Halted hPass c2final := by
    intro t hst
    cases hst with
    | start hl => exact LoopState.noConfusion hl
    | pull k hs => exact absurd k.isLt (Nat.not_lt_zero k.val)
    | wake hl hsig => exact LoopState.noConfusion hl
    | handlerResolved i id v c rest hl => exact LoopState.noConfusion hl
    | yieldResumed i re hl => exact LoopState.noConfusion hl
  exact (C2_theorem hPass [.out ⟨[7], none⟩] hNR hCS hcl).2 c2final htr hhalt

/-- Claim C5: each registration call increments the live-producer
counter by exactly one; a settling pull decrements it by exactly one
when its producer reports done or error and leaves it unchanged when a
value arrives (so each producer, whose retired pull is removed, is
decremented exactly once — never both ways, never zero times); while
the generator has not thrown the counter equals the number of live
producers; and the merge loop finishes exactly when the counter is
zero: a finished loop implies a zero counter, and a halted run that did
not throw has finished. -/
theorem C5_theorem (h : IV → Ctx → PromiseOrValue OV E) (regs : List (Reg IV OV Ctx E)) :
    (∀ (s : State IV OV Ctx E) (p : Producer IV E) (c : Ctx),
        (addInletBelt s p c).iteratorCount = s.iteratorCount + 1)
    ∧ (∀ (s : State IV OV Ctx E) (q : Producer OV E),
        (addOutletBelt s q).iteratorCount = s.iteratorCount + 1)
    ∧ (∀ (s : State IV OV Ctx E) (k : Fin s.pending.length),
        ((s.pending.get k).spent →
          (completePull { s with pending := s.pending.eraseIdx k.val }
            (s.pending.get k)).iteratorCount = s.iteratorCount - 1)
        ∧ (¬ (s.pending.get k).spent →
          (completePull { s with pending := s.pending.eraseIdx k.val }
            (s.pending.get k)).iteratorCount = s.iteratorCount))
    ∧ (∀ s : State IV OV Ctx E, Reaches h (mkInit regs) s → ¬ s.loop.isThrew →
        s.iteratorCount = (liveCount s : Int))
    ∧ (∀ s : State IV OV Ctx E, Reaches h (mkInit regs) s →
        (s.loop = .finished → s.iteratorCount = 0)
        ∧ (Halted h s → ¬ s.loop.isThrew → s.loop = .finished)) := by
  refine ⟨fun s p c => rfl, fun s q => rfl, ?_, ?_, ?_⟩
  · intro s k
    rcases hpk : s.pending.get k with ⟨id, ⟨items, post⟩, c⟩ | ⟨id, ⟨items, post⟩⟩ <;>
      rcases items with _ | ⟨v, rest⟩ <;> rcases post with _ | e <;>
      constructor <;> intro hx <;>
      simp only [Pull.spent] at hx <;>
      first
      | exact absurd rfl hx
      | exact absurd trivial hx
      | exact absurd hx (List.cons_ne_nil _ _)
      | simp [completePull]
  · intro s hr hnt
    exact (invA_reaches h regs s hr).conserve hnt
  · intro s hr
    refine ⟨(invA_reaches h regs s hr).finZ, fun hhalt hnt => ?_⟩
    rcases progress h s (invA_reaches h regs s hr) hhalt with hf | ht
    · exact hf
    · exact absurd ht hnt

/-- Witness for C5: registering the outlet belt `[7]` on a fresh
conveyor bumps the counter from zero to one, and at the clean terminal
state of its run the counter (zero) equals the live count. -/
theorem C5_witness :
    (addOutletBelt (mkConveyor : State Nat Nat Unit Nat) ⟨[7], none⟩).iteratorCount
      = (mkConveyor : State Nat Nat Unit Nat).iteratorCount + 1
    ∧ c2final.iteratorCount = (liveCount c2final : Int) := by
  have htr : Reaches hPass (mkInit [.out ⟨[7], none⟩]) c2final :=
    Relation.ReflTransGen.head (Step.start _ rfl)
      (Relation.ReflTransGen.head (Step.pull _ ⟨0, by decide⟩ trivial)
        (Relation.ReflTransGen.head (Step.wake _ rfl rfl)
          (Relation.ReflTransGen.head (Step.yieldResumed _ 0 (.outlet 0 ⟨[], none⟩) rfl)
            (Relation.ReflTransGen.head (Step.pull _ ⟨0, by decide⟩ trivial)
              (Relation.ReflTransGen.head (Step.wake _ rfl rfl)
                Relation.ReflTransGen.refl)))))
  exact ⟨(C5_theorem hPass [.out ⟨[7], none⟩]).2.1 mkConveyor ⟨[7], none⟩,
    (C5_theorem hPass [.out ⟨[7], none⟩]).2.2.2.1 c2final htr (by decide)⟩

/-! ## The round invariant: processed events have been delivered -/

theorem take_append_of_le {A : Type} (l l2 : List A) (n : Nat) (hn : n ≤ l.length) :
    (l ++ l2).take n = l.take n := by
  induction l generalizing n with
  | nil =>
      have : n = 0 := Nat.le_zero.mp hn
      simp [this]
  | cons a t ih =>
      cases n with
      | zero => rfl
      | succ n => simp [ih n (by simpa using Nat.le_of_succ_le_succ hn)]

theorem take_of_get? {A : Type} (l : List A) (j : Nat) (e : A) (hj : l.get? j = some e) :
    l.take (j + 1) = l.take j ++ [e] := by
  rw [List.take_succ, ← List.get?_eq_getElem?, hj]
  rfl

theorem processed_le_cut (lp : LoopState IV OV Ctx E) : lp.processed ≤ lp.cut := by
  cases lp <;> simp [LoopState.processed, LoopState.cut]

theorem initSeg_refl {A : Type} (l : List A) : InitSeg l l :=
  ⟨[], by simp⟩

theorem initSeg_append {A : Type} (l t : List A) : InitSeg l (l ++ t) :=
  ⟨t, rfl⟩

theorem initSeg_map {A B : Type} (f : A → B) (l1 l2 : List A) (hs : InitSeg l1 l2) :
    InitSeg (l1.map f) (l2.map f) := by
  rcases hs with ⟨t, ht⟩
  exact ⟨t.map f, by rw [← List.map_append, ht]⟩

theorem initSeg_trans {A : Type} (l1 l2 l3 : List A) (h1 : InitSeg l1 l2)
    (h2 : InitSeg l2 l3) : InitSeg l1 l3 := by
  rcases h1 with ⟨t1, ht1⟩
  rcases h2 with ⟨t2, ht2⟩
  exact ⟨t1 ++ t2, by rw [← List.append_assoc, ht1, ht2]⟩

/-- The drain continuation appends to the output, never rewrites it. -/
theorem drainFrom_output (t : State IV OV Ctx E) (j : Nat) :
    InitSeg t.output (drainFrom t j).output := by
  unfold drainFrom
  rcases hev : t.events.get? j with _ | ev
  · rcases t.throws with _ | ⟨e, rest⟩
    · by_cases hz : t.iteratorCount = 0
      · rw [if_pos hz]; exact initSeg_refl _
      · rw [if_neg hz]; exact initSeg_refl _
    · exact initSeg_refl _
  · cases ev with
    | inlet id v c rest => exact initSeg_refl _
    | outlet id v rest => exact initSeg_append _ _

/-- Every step appends to the output, never rewrites it. -/
theorem step_output_mono (h : IV → Ctx → PromiseOrValue OV E) (s s' : State IV OV Ctx E)
    (hst : Step h s s') : InitSeg s.output s'.output := by
  cases hst with
  | start hl =>
      rw [startRun]
      by_cases hz : s.iteratorCount = 0
      · rw [if_pos hz]; exact initSeg_refl _
      · rw [if_neg hz]; exact initSeg_refl _
  | pull k hs =>
      rcases hpk : s.pending.get k with ⟨id, ⟨items, post⟩, c⟩ | ⟨id, ⟨items, post⟩⟩ <;>
        rcases items with _ | ⟨v, rest⟩ <;> rcases post with _ | e <;>
        exact initSeg_refl _
  | wake hl hsig => exact drainFrom_output s 0
  | handlerResolved i id v c rest hl =>
      rcases haw : (h v c).await with w | q | e <;> simp only [applyHandler, haw]
      · exact initSeg_append _ _
      · exact initSeg_trans _ _ _
          (initSeg_refl _)
          (drainFrom_output
            { addOutletBelt s q with
                pending := (addOutletBelt s q).pending ++ [.inlet id rest c] } (i + 1))
      · exact initSeg_refl _
  | yieldResumed i re hl =>
      exact drainFrom_output { s with pending := s.pending ++ [re] } (i + 1)

/-- The drain continuation re-establishes the round invariant. -/
theorem roundJ_drainFrom (h : IV → Ctx → PromiseOrValue OV E) (t : State IV OV Ctx E)
    (j : Nat) (hpre : PreDrainJ h t j) : RoundJ h (drainFrom t j) := by
  unfold drainFrom
  rcases hev : t.events.get? j with _ | ev
  · rcases t.throws with _ | ⟨e, rest⟩
    · by_cases hz : t.iteratorCount = 0
      · rw [if_pos hz]
        simp [RoundJ, LoopState.processed]
      · rw [if_neg hz]
        simp [RoundJ, LoopState.processed]
    · simp [RoundJ, LoopState.processed]
  · cases ev with
    | inlet id v c rest =>
        show (((t.events.take j).filterMap (Event.direct h) : List OV) : Multiset OV)
          ≤ ((t.output.map Prod.snd : List OV) : Multiset OV)
        exact hpre
    | outlet id v rest =>
        show (((t.events.take (j + 1)).filterMap (Event.direct h) : List OV) : Multiset OV)
          ≤ (((t.output ++ [(id, v)]).map Prod.snd : List OV) : Multiset OV)
        rw [take_of_get? _ _ _ hev, List.filterMap_append, List.map_append]
        rw [← Multiset.coe_add, ← Multiset.coe_add]
        exact add_le_add hpre (le_refl _)

/-- A drain continuation that ends with a thrown error left the queue
and the output as they were, found no event at its index, and threw the
head of the accumulator. -/
theorem drainFrom_threw (t : State IV OV Ctx E) (j : Nat) (e : E)
    (hth : (drainFrom t j).loop = .threw e) :
    t.events.get? j = none ∧ t.throws.head? = some e
    ∧ drainFrom t j = { t with loop := .threw e } := by
  rcases hev : t.events.get? j with _ | ev
  · rcases hthr : t.throws with _ | ⟨e2, rest⟩
    · exfalso
      unfold drainFrom at hth
      rw [hev, hthr] at hth
      dsimp only at hth
      by_cases hz : t.iteratorCount = 0
      · rw [if_pos hz] at hth
        exact LoopState.noConfusion hth
      · rw [if_neg hz] at hth
        exact LoopState.noConfusion hth
    · unfold drainFrom at hth ⊢
      rw [hev, hthr] at hth ⊢
      dsimp only at hth ⊢
      have he : e2 = e := by injection hth
      subst he
      exact ⟨rfl, rfl, rfl⟩
  · exfalso
    unfold drainFrom at hth
    rw [hev] at hth
    cases ev with
    | inlet id v c rest => exact LoopState.noConfusion hth
    | outlet id v rest => exact LoopState.noConfusion hth

/-- Every step preserves the round invariant. -/
theorem roundJ_step (h : IV → Ctx → PromiseOrValue OV E) (s s' : State IV OV Ctx E)
    (hA : InvA s) (hJ : RoundJ h s) (hst : Step h s s') : RoundJ h s' := by
  cases hst with
  | start hl =>
      rw [startRun]
      by_cases hz : s.iteratorCount = 0
      · rw [if_pos hz]; simp [RoundJ, LoopState.processed]
      · rw [if_neg hz]; simp [RoundJ, LoopState.processed]
  | pull k hs =>
      have hple : s.loop.processed ≤ s.events.length :=
        le_trans (processed_le_cut s.loop) (drainPosL_cut_le s.loop s.events hA.drain)
      rcases hpk : s.pending.get k with ⟨id, ⟨items, post⟩, c⟩ | ⟨id, ⟨items, post⟩⟩ <;>
        rcases items with _ | ⟨v, rest⟩ <;> rcases post with _ | e
      · exact hJ
      · exact hJ
      · show (((( s.events ++ [Event.inlet id v c ⟨rest, none⟩]).take s.loop.processed).filterMap
            (Event.direct h) : List OV) : Multiset OV) ≤ _
        rw [take_append_of_le _ _ _ hple]
        exact hJ
      · show (((( s.events ++ [Event.inlet id v c ⟨rest, some e⟩]).take s.loop.processed).filterMap
            (Event.direct h) : List OV) : Multiset OV) ≤ _
        rw [take_append_of_le _ _ _ hple]
        exact hJ
      · exact hJ
      · exact hJ
      · show (((( s.events ++ [Event.outlet id v ⟨rest, none⟩]).take s.loop.processed).filterMap
            (Event.direct h) : List OV) : Multiset OV) ≤ _
        rw [take_append_of_le _ _ _ hple]
        exact hJ
      · show (((( s.events ++ [Event.outlet id v ⟨rest, some e⟩]).take s.loop.processed).filterMap
            (Event.direct h) : List OV) : Multiset OV) ≤ _
        rw [take_append_of_le _ _ _ hple]
        exact hJ
  | wake hl hsig =>
      refine roundJ_drainFrom h s 0 ?_
      show ((( s.events.take 0).filterMap (Event.direct h) : List OV) : Multiset OV) ≤ _
      simp
  | handlerResolved i id v c rest hl =>
      have hJs : (((s.events.take i).filterMap (Event.direct h) : List OV) : Multiset OV)
          ≤ (s.visible : Multiset OV) := by
        have := hJ
        rw [RoundJ, hl] at this
        exact this
      have hev : s.events.get? i = some (.inlet id v c rest) := by
        have := hA.drain
        rw [drainPos, hl] at this
        exact this
      rw [applyHandler]
      rcases haw : (h v c).await with w | q | e
      · show ((( s.events.take (i + 1)).filterMap (Event.direct h) : List OV) : Multiset OV)
          ≤ (((s.output ++ [(id, w)]).map Prod.snd : List OV) : Multiset OV)
        rw [take_of_get? _ _ _ hev, List.filterMap_append, List.map_append]
        rw [← Multiset.coe_add, ← Multiset.coe_add]
        refine add_le_add hJs ?_
        simp [Event.direct, haw]
      · refine roundJ_drainFrom h _ (i + 1) ?_
        show ((( s.events.take (i + 1)).filterMap (Event.direct h) : List OV) : Multiset OV)
          ≤ (s.visible : Multiset OV)
        rw [take_of_get? _ _ _ hev, List.filterMap_append]
        simpa [Event.direct, haw] using hJs
      · simp [RoundJ, LoopState.processed]
  | yieldResumed i re hl =>
      refine roundJ_drainFrom h _ (i + 1) ?_
      have hJs : (((s.events.take (i + 1)).filterMap (Event.direct h) : List OV) : Multiset OV)
          ≤ (s.visible : Multiset OV) := by
        have := hJ
        rw [RoundJ, hl] at this
        exact this
      exact hJs

/-- The round invariant holds in every reachable state. -/
theorem roundJ_reaches (h : IV → Ctx → PromiseOrValue OV E) (regs : List (Reg IV OV Ctx E))
    (s : State IV OV Ctx E) (hr : Reaches h (mkInit regs) s) : RoundJ h s := by
  induction hr with
  | refl =>
      have hl := mkInit_loop regs
      rw [RoundJ, hl]
      simp [LoopState.processed]
  | tail hsteps hstep ih => exact roundJ_step h _ _ (invA_reaches h regs _ hsteps) ih hstep

/-- Claim C4: the output only ever grows (a value once yielded stays
delivered before anything later, so a producer's yielded item X is in
the output when the sequence later fails), and when the generator
throws an accumulated error — under a handler that itself never fails —
the error surfaced is the head of the accumulator, the moment of
surfacing yields nothing new, and every direct value of every event
queued in that round has already been delivered: errors reach the
consumer only after all values queued in the round. -/
theorem C4_theorem (h : IV → Ctx → PromiseOrValue OV E) (regs : List (Reg IV OV Ctx E))
    (hNR : NoRaise h) :
    (∀ (s s' : State IV OV Ctx E), Step h s s' → InitSeg s.visible s'.visible)
    ∧ (∀ (s s' : State IV OV Ctx E) (e : E), Reaches h (mkInit regs) s → Step h s s' →
        s'.loop = .threw e →
        s.throws.head? = some e
        ∧ s'.visible = s.visible
        ∧ ((s'.events.filterMap (Event.direct h) : List OV) : Multiset OV)
            ≤ (s'.visible : Multiset OV)) := by
  constructor
  · intro s s' hst
    exact initSeg_map Prod.snd s.output s'.output (step_output_mono h s s' hst)
  · intro s s' e hr hst hthrew
    have hA := invA_reaches h regs s hr
    have hJ := roundJ_reaches h regs s hr
    cases hst with
    | start hl =>
        exfalso
        rw [startRun] at hthrew
        by_cases hz : s.iteratorCount = 0
        · rw [if_pos hz] at hthrew
          exact LoopState.noConfusion hthrew
        · rw [if_neg hz] at hthrew
          exact LoopState.noConfusion hthrew
    | pull k hs =>
        exfalso
        rcases hpk : s.pending.get k with ⟨id, ⟨items, post⟩, c2⟩ | ⟨id, ⟨items, post⟩⟩ <;>
          rw [hpk] at hthrew <;>
          rcases items with _ | ⟨v, rest⟩ <;> rcases post with _ | e2 <;>
          simp only [completePull] at hthrew <;>
          rw [hthrew] at hs <;>
          exact hs
    | wake hl hsig =>
        rcases drainFrom_threw s 0 e hthrew with ⟨hnone, hhead, heq⟩
        have hevnil : s.events = [] := by
          rcases hev2 : s.events with _ | ⟨a, b⟩
          · rfl
          · rw [hev2] at hnone
            exact absurd hnone (by simp [List.get?])
        refine ⟨hhead, by rw [heq]; rfl, ?_⟩
        rw [heq]
        show (((s.events.filterMap (Event.direct h) : List OV)) : Multiset OV)
          ≤ ((s.output.map Prod.snd : List OV) : Multiset OV)
        rw [hevnil]
        simp
    | handlerResolved i id v c rest hl =>
        rcases haw : (h v c).await with w | q | e2 <;>
          simp only [applyHandler, haw] at hthrew ⊢
        · exact absurd (show (LoopState.yielding i (Pull.inlet id rest c) : LoopState IV OV Ctx E)
            = .threw e from hthrew) (by simp)
        · rcases drainFrom_threw _ (i + 1) e hthrew with ⟨hnone, hhead, heq⟩
          have hle : s.events.length ≤ i + 1 := by
            have := hnone
            dsimp only [addOutletBelt] at this
            exact List.get?_eq_none.mp this
          have hev : s.events.get? i = some (.inlet id v c rest) := by
            have := hA.drain
            rw [drainPos, hl] at this
            exact this
          have hJs : (((s.events.take (i + 1)).filterMap (Event.direct h) : List OV)
              : Multiset OV) ≤ (s.visible : Multiset OV) := by
            rw [take_of_get? _ _ _ hev, List.filterMap_append]
            have hJi : (((s.events.take i).filterMap (Event.direct h) : List OV)
                : Multiset OV) ≤ (s.visible : Multiset OV) := by
              have := hJ
              rw [RoundJ, hl] at this
              exact this
            simpa [Event.direct, haw] using hJi
          refine ⟨hhead, by rw [heq]; rfl, ?_⟩
          rw [heq]
          show (((s.events.filterMap (Event.direct h) : List OV)) : Multiset OV)
            ≤ ((s.output.map Prod.snd : List OV) : Multiset OV)
          rw [← List.take_of_length_le hle]
          exact hJs
        · exact absurd haw (hNR v c e2)
    | yieldResumed i re hl =>
        rcases drainFrom_threw _ (i + 1) e hthrew with ⟨hnone, hhead, heq⟩
        have hle : s.events.length ≤ i + 1 := List.get?_eq_none.mp hnone
        have hJs : (((s.events.take (i + 1)).filterMap (Event.direct h) : List OV)
            : Multiset OV) ≤ (s.visible : Multiset OV) := by
          have := hJ
          rw [RoundJ, hl] at this
          exact this
        refine ⟨hhead, by rw [heq]; rfl, ?_⟩
        rw [heq]
        show (((s.events.filterMap (Event.direct h) : List OV)) : Multiset OV)
          ≤ ((s.output.map Prod.snd : List OV) : Multiset OV)
        rw [← List.take_of_length_le hle]
        exact hJs

/-- Witness for C4: the outlet belt that yields 9 and then fails with
error 5 drives the run to the thrown state with 9 already delivered:
the failure surfaces only after the queued value was yielded. -/
theorem C4_witness :
    c4d.loop = LoopState.threw 5
    ∧ (9 : Nat) ∈ c4d.visible
    ∧ c4c.throws.head? = some 5
    ∧ c4d.visible = c4c.visible := by
  have hNR : NoRaise hPass := fun v c e hx => HandlerResult.noConfusion hx
  have htr : Reaches hPass (mkInit [.out ⟨[9], some 5⟩]) c4c :=
    Relation.ReflTransGen.head (Step.start _ rfl)
      (Relation.ReflTransGen.head (Step.pull _ ⟨0, by decide⟩ trivial)
        (Relation.ReflTransGen.head (Step.wake _ rfl rfl)
          (Relation.ReflTransGen.head (Step.yieldResumed _ 0 (.outlet 0 ⟨[], some 5⟩) rfl)
            (Relation.ReflTransGen.head (Step.pull _ ⟨0, by decide⟩ trivial)
              Relation.ReflTransGen.refl))))
  have happ := (C4_theorem hPass [.out ⟨[9], some 5⟩] hNR).2 c4c c4d 5 htr
    (Step.wake _ rfl rfl) rfl
  exact ⟨rfl, by decide, happ.1, happ.2.1⟩

/-! ## Identity and ordering invariants: toolkit -/

theorem multiset_map_eraseIdx {A B : Type} (f : A → B) (l : List A) (k : Nat)
    (hk : k < l.length) :
    (((l.eraseIdx k).map f : List B) : Multiset B) + {f (l.get ⟨k, hk⟩)}
      = ((l.map f : List B) : Multiset B) := by
  induction l generalizing k with
  | nil => simp at hk
  | cons a t ih =>
      cases k with
      | zero =>
          simp only [List.eraseIdx, List.map_cons, List.get]
          rw [add_comm, Multiset.singleton_add, Multiset.cons_coe]
      | succ k =>
          have hk2 : k < t.length := by simpa using Nat.lt_of_succ_lt_succ hk
          have hih := ih k hk2
          simp only [List.eraseIdx, List.map_cons, List.get]
          rw [← Multiset.cons_coe, Multiset.cons_add, hih, Multiset.cons_coe]

theorem occsM_eq (s : State IV OV Ctx E) (hnt : ¬ s.loop.isThrew) :
    occsM s = ((s.pending.map Pull.occ : List (Occ IV OV Ctx)) : Multiset (Occ IV OV Ctx))
      + (((s.events.drop s.loop.cut).map Event.occ : List (Occ IV OV Ctx))
          : Multiset (Occ IV OV Ctx))
      + (s.loop.occs : Multiset (Occ IV OV Ctx)) := by
  unfold occsM occs
  rw [liveEvents_eq s hnt, ← Multiset.coe_add, ← Multiset.coe_add]

theorem occsM_mk (cnt : Int) (ev : List (Event IV OV Ctx E)) (sg : Bool) (thr : List E)
    (pend : List (Pull IV OV Ctx E)) (lp : LoopState IV OV Ctx E) (outp : List (Nat × OV))
    (nid : Nat) (bo : List (Nat × List OV)) (bi : List (Nat × List IV × Ctx))
    (hnt : ¬ lp.isThrew) :
    occsM (⟨cnt, ev, sg, thr, pend, lp, outp, nid, bo, bi⟩ : State IV OV Ctx E)
      = ((pend.map Pull.occ : List (Occ IV OV Ctx)) : Multiset (Occ IV OV Ctx))
        + (((ev.drop lp.cut).map Event.occ : List (Occ IV OV Ctx))
            : Multiset (Occ IV OV Ctx))
        + (lp.occs : Multiset (Occ IV OV Ctx)) :=
  occsM_eq _ hnt

theorem occsM_threw (s : State IV OV Ctx E) (e : E) (hl : s.loop = .threw e) :
    occsM s = ((s.pending.map Pull.occ : List (Occ IV OV Ctx)) : Multiset (Occ IV OV Ctx)) := by
  unfold occsM occs liveEvents
  rw [hl]
  simp [LoopState.occs]

theorem preOccsM_eq (t : State IV OV Ctx E) (j : Nat) :
    preOccsM t j
      = ((t.pending.map Pull.occ : List (Occ IV OV Ctx)) : Multiset (Occ IV OV Ctx))
        + (((t.events.drop j).map Event.occ : List (Occ IV OV Ctx))
            : Multiset (Occ IV OV Ctx)) := by
  unfold preOccsM
  rw [← Multiset.coe_add]

theorem preOccsM_get? (t : State IV OV Ctx E) (j : Nat) (ev : Event IV OV Ctx E)
    (hj : t.events.get? j = some ev) :
    preOccsM t j
      = ((t.pending.map Pull.occ : List (Occ IV OV Ctx)) : Multiset (Occ IV OV Ctx))
        + (((t.events.drop (j + 1)).map Event.occ : List (Occ IV OV Ctx))
            : Multiset (Occ IV OV Ctx))
        + {Event.occ ev} := by
  rw [preOccsM_eq, drop_of_get? _ _ _ hj, List.map_cons, ← Multiset.cons_coe,
    ← Multiset.singleton_add]
  abel

theorem filterMap_out_append (il1 id : Nat) {OV : Type} (v : OV) (out : List (Nat × OV)) :
    (out ++ [(id, v)]).filterMap (fun pr => if pr.1 = il1 then some pr.2 else none)
      = out.filterMap (fun pr => if pr.1 = il1 then some pr.2 else none)
        ++ (if id = il1 then [v] else []) := by
  rw [List.filterMap_append]
  congr 1
  by_cases hid : id = il1 <;> simp [hid]

theorem outFor_append_state (il1 id : Nat) (v : OV) (s s' : State IV OV Ctx E)
    (hout : s'.output = s.output ++ [(id, v)]) :
    outFor il1 s' = outFor il1 s ++ (if id = il1 then [v] else []) := by
  unfold outFor
  rw [hout, filterMap_out_append]

theorem outFor_congr (id : Nat) (s s' : State IV OV Ctx E) (hout : s'.output = s.output) :
    outFor id s' = outFor id s := by
  unfold outFor
  rw [hout]

theorem scalarSeq_nil (h : IV → Ctx → PromiseOrValue OV E) (c : Ctx) :
    scalarSeq h c [] = [] := rfl

theorem scalarSeq_cons_scalar (h : IV → Ctx → PromiseOrValue OV E) (c : Ctx) (v : IV)
    (l : List IV) (w : OV) (haw : (h v c).await = .scalar w) :
    scalarSeq h c (v :: l) = w :: scalarSeq h c l := by
  unfold scalarSeq
  rw [List.filterMap_cons, haw]

theorem scalarSeq_cons_stream (h : IV → Ctx → PromiseOrValue OV E) (c : Ctx) (v : IV)
    (l : List IV) (q : Producer OV E) (haw : (h v c).await = .stream q) :
    scalarSeq h c (v :: l) = scalarSeq h c l := by
  unfold scalarSeq
  rw [List.filterMap_cons, haw]

/-- The identity invariants depend only on the occurrence multiset and
the bookkeeping fields, not on where the occurrences live. -/
theorem invO_transfer (h : IV → Ctx → PromiseOrValue OV E) (s s' : State IV OV Ctx E)
    (hocc : occsM s' = occsM s)
    (hout : s'.output = s.output) (hbi : s'.bornIn = s.bornIn) (hbo : s'.bornOut = s.bornOut)
    (hnx : s'.nextId = s.nextId) (hth : s.loop.isThrew → s'.loop.isThrew)
    (hO : InvO h s) : InvO h s' := by
  have hbids : bornIds s' = bornIds s := by unfold bornIds; rw [hbi, hbo]
  refine ⟨?_, ?_, ?_, ?_, ?_, ?_, ?_, ?_⟩
  · rw [hocc, hnx]; exact hO.freshO
  · rw [hout, hnx]; exact hO.freshOut
  · rw [hbids, hnx]; exact hO.freshBorn
  · rw [hbids]; exact hO.bornNd
  · rw [hocc]; exact hO.ndO
  · rw [hocc, hbi, hbo]; exact hO.sideO
  · intro il hil
    rw [hbo] at hil
    obtain ⟨h1, h2, h3⟩ := hO.prefO il hil
    rw [outFor_congr il.1 s s' hout]
    refine ⟨?_, ?_, h3⟩
    · intro l hm
      rw [hocc] at hm
      exact h1 l hm
    · intro hni
      refine (h2 ?_).imp (fun hx => hx) hth
      intro l
      rw [← hocc]
      exact hni l
  · intro il hil
    rw [hbi] at hil
    obtain ⟨h1, h2, h3⟩ := hO.prefI il hil
    rw [outFor_congr il.1 s s' hout]
    refine ⟨?_, ?_, h3⟩
    · intro l c2 hm
      rw [hocc] at hm
      exact h1 l c2 hm
    · intro hni
      refine (h2 ?_).imp (fun hx => hx) hth
      intro l c2
      rw [← hocc]
      exact hni l c2

/-- A state whose occurrences are exactly those a drain continuation
was handed satisfies the identity invariants. -/
theorem invO_of_preO (h : IV → Ctx → PromiseOrValue OV E) (t : State IV OV Ctx E) (j : Nat)
    (s' : State IV OV Ctx E) (hocc : occsM s' = preOccsM t j)
    (hout : s'.output = t.output) (hbi : s'.bornIn = t.bornIn) (hbo : s'.bornOut = t.bornOut)
    (hnx : s'.nextId = t.nextId) (hP : PreO h t j) : InvO h s' := by
  have hbids : bornIds s' = bornIds t := by unfold bornIds; rw [hbi, hbo]
  refine ⟨?_, ?_, ?_, ?_, ?_, ?_, ?_, ?_⟩
  · rw [hocc, hnx]; exact hP.freshO
  · rw [hout, hnx]; exact hP.freshOut
  · rw [hbids, hnx]; exact hP.freshBorn
  · rw [hbids]; exact hP.bornNd
  · rw [hocc]; exact hP.ndO
  · rw [hocc, hbi, hbo]; exact hP.sideO
  · intro il hil
    rw [hbo] at hil
    obtain ⟨h1, h2, h3⟩ := hP.prefO il hil
    rw [outFor_congr il.1 t s' hout]
    refine ⟨?_, ?_, h3⟩
    · intro l hm
      rw [hocc] at hm
      exact h1 l hm
    · intro hni
      refine Or.inl (h2 ?_)
      intro l
      rw [← hocc]
      exact hni l
  · intro il hil
    rw [hbi] at hil
    obtain ⟨h1, h2, h3⟩ := hP.prefI il hil
    rw [outFor_congr il.1 t s' hout]
    refine ⟨?_, ?_, h3⟩
    · intro l c2 hm
      rw [hocc] at hm
      exact h1 l c2 hm
    · intro hni
      refine Or.inl (h2 ?_)
      intro l c2
      rw [← hocc]
      exact hni l c2

/-- A state that satisfies the identity invariants and has not thrown
hands a drain continuation what it needs, provided the continuation is
given exactly the state's occurrences. -/
theorem preO_of_invO (h : IV → Ctx → PromiseOrValue OV E) (s t : State IV OV Ctx E) (j : Nat)
    (hocc : preOccsM t j = occsM s)
    (hout : t.output = s.output) (hbi : t.bornIn = s.bornIn) (hbo : t.bornOut = s.bornOut)
    (hnx : t.nextId = s.nextId) (hnt : ¬ s.loop.isThrew)
    (hO : InvO h s) : PreO h t j := by
  have hbids : bornIds t = bornIds s := by unfold bornIds; rw [hbi, hbo]
  refine ⟨?_, ?_, ?_, ?_, ?_, ?_, ?_, ?_⟩
  · rw [hocc, hnx]; exact hO.freshO
  · rw [hout, hnx]; exact hO.freshOut
  · rw [hbids, hnx]; exact hO.freshBorn
  · rw [hbids]; exact hO.bornNd
  · rw [hocc]; exact hO.ndO
  · rw [hocc, hbi, hbo]; exact hO.sideO
  · intro il hil
    rw [hbo] at hil
    obtain ⟨h1, h2, h3⟩ := hO.prefO il hil
    rw [outFor_congr il.1 s t hout]
    refine ⟨?_, ?_, h3⟩
    · intro l hm
      rw [hocc] at hm
      exact h1 l hm
    · intro hni
      rcases h2 (fun l => by rw [← hocc]; exact hni l) with hx | hx
      · exact hx
      · exact absurd hx hnt
  · intro il hil
    rw [hbi] at hil
    obtain ⟨h1, h2, h3⟩ := hO.prefI il hil
    rw [outFor_congr il.1 s t hout]
    refine ⟨?_, ?_, h3⟩
    · intro l c2 hm
      rw [hocc] at hm
      exact h1 l c2 hm
    · intro hni
      rcases h2 (fun l c2 => by rw [← hocc]; exact hni l c2) with hx | hx
      · exact hx
      · exact absurd hx hnt

/-- The drain continuation re-establishes the identity and ordering
invariants. -/
theorem invO_drainFrom (h : IV → Ctx → PromiseOrValue OV E) (t : State IV OV Ctx E) (j : Nat)
    (hP : PreO h t j) : InvO h (drainFrom t j) := by
  unfold drainFrom
  rcases hev : t.events.get? j with _ | ev
  · dsimp only
    have hdrop : t.events.drop j = [] := drop_of_get?_none _ _ hev
    rcases hthr : t.throws with _ | ⟨e, restE⟩ <;> dsimp only
    · by_cases hz : t.iteratorCount = 0
      · rw [if_pos hz]
        refine invO_of_preO h t j _ ?_ rfl rfl rfl rfl hP
        rw [occsM_mk _ _ _ _ _ _ _ _ _ _ (by simp [LoopState.isThrew]), preOccsM_eq, hdrop]
        simp [LoopState.cut, LoopState.occs]
      · rw [if_neg hz]
        refine invO_of_preO h t j _ ?_ rfl rfl rfl rfl hP
        rw [occsM_mk _ _ _ _ _ _ _ _ _ _ (by simp [LoopState.isThrew]), preOccsM_eq, hdrop]
        simp [LoopState.cut, LoopState.occs]
    · -- the generator throws: the live occurrences shrink to the pulls
      rw [← hthr]
      have hocc2 : occsM ({ t with loop := .threw e } : State IV OV Ctx E)
          = ((t.pending.map Pull.occ : List (Occ IV OV Ctx)) : Multiset (Occ IV OV Ctx)) :=
        occsM_threw _ e rfl
      have hle : occsM ({ t with loop := .threw e } : State IV OV Ctx E) ≤ preOccsM t j := by
        rw [hocc2, preOccsM_eq]
        exact Multiset.le_add_right _ _
      refine ⟨?_, hP.freshOut, hP.freshBorn, hP.bornNd, ?_, ?_, ?_, ?_⟩
      · intro o hm
        exact hP.freshO o (Multiset.mem_of_le hle hm)
      · exact Multiset.nodup_of_le (Multiset.map_le_map hle) hP.ndO
      · intro o hm
        exact hP.sideO o (Multiset.mem_of_le hle hm)
      · intro il hil
        obtain ⟨h1, h2, h3⟩ := hP.prefO il hil
        refine ⟨?_, ?_, h3⟩
        · intro l hm
          exact h1 l (Multiset.mem_of_le hle hm)
        · intro _
          exact Or.inr trivial
      · intro il hil
        obtain ⟨h1, h2, h3⟩ := hP.prefI il hil
        refine ⟨?_, ?_, h3⟩
        · intro l c2 hm
          exact h1 l c2 (Multiset.mem_of_le hle hm)
        · intro _
          exact Or.inr trivial
  · cases ev with
    | inlet id v c rest =>
        dsimp only
        refine invO_of_preO h t j _ ?_ rfl rfl rfl rfl hP
        rw [occsM_mk _ _ _ _ _ _ _ _ _ _ (by simp [LoopState.isThrew]),
          preOccsM_get? t j _ hev]
        simp only [LoopState.cut, LoopState.occs, Event.occ]
        rw [show ((([Occ.inl id (v :: rest.items) c] : List (Occ IV OV Ctx)))
          : Multiset (Occ IV OV Ctx)) = {Occ.inl id (v :: rest.items) c} from rfl]
    | outlet id v rest =>
        dsimp only
        have hocc2 : occsM ({ t with
              loop := .yielding j (.outlet id rest)
              output := t.output ++ [(id, v)] } : State IV OV Ctx E)
            = (((t.pending.map Pull.occ : List (Occ IV OV Ctx))) : Multiset (Occ IV OV Ctx))
              + ((((t.events.drop (j + 1)).map Event.occ : List (Occ IV OV Ctx)))
                  : Multiset (Occ IV OV Ctx))
              + {Occ.out id rest.items} := by
          rw [occsM_mk _ _ _ _ _ _ _ _ _ _ (by simp [LoopState.isThrew])]
          simp only [LoopState.cut, LoopState.occs, Pull.occ]
          rw [show ((([Occ.out id rest.items] : List (Occ IV OV Ctx)))
            : Multiset (Occ IV OV Ctx)) = {Occ.out id rest.items} from rfl]
        have hpre2 := preOccsM_get? t j _ hev
        rw [show Event.occ (Event.outlet id v rest : Event IV OV Ctx E)
          = Occ.out id (v :: rest.items) from rfl] at hpre2
        have hmemS : ∀ o : Occ IV OV Ctx,
            o ∈ occsM ({ t with
              loop := .yielding j (.outlet id rest)
              output := t.output ++ [(id, v)] } : State IV OV Ctx E)
            ↔ (o ∈ ((t.pending.map Pull.occ : List (Occ IV OV Ctx))
                  : Multiset (Occ IV OV Ctx))
                ∨ o ∈ (((t.events.drop (j + 1)).map Event.occ : List (Occ IV OV Ctx))
                  : Multiset (Occ IV OV Ctx)))
              ∨ o = Occ.out id rest.items := by
          intro o
          rw [hocc2]
          simp [Multiset.mem_add, or_assoc]
        have hmemP : ∀ o : Occ IV OV Ctx,
            o ∈ preOccsM t j
            ↔ (o ∈ ((t.pending.map Pull.occ : List (Occ IV OV Ctx))
                  : Multiset (Occ IV OV Ctx))
                ∨ o ∈ (((t.events.drop (j + 1)).map Event.occ : List (Occ IV OV Ctx))
                  : Multiset (Occ IV OV Ctx)))
              ∨ o = Occ.out id (v :: rest.items) := by
          intro o
          rw [hpre2]
          simp [Multiset.mem_add, or_assoc]
        have hxP : Occ.out id (v :: rest.items) ∈ preOccsM t j :=
          (hmemP _).mpr (Or.inr rfl)
        have hidlt : id < t.nextId := hP.freshO _ hxP
        have hidM0 : id ∉ Multiset.map Occ.oid
            (((t.pending.map Pull.occ : List (Occ IV OV Ctx)) : Multiset (Occ IV OV Ctx))
              + (((t.events.drop (j + 1)).map Event.occ : List (Occ IV OV Ctx))
                  : Multiset (Occ IV OV Ctx))) := by
          have hnd := hP.ndO
          rw [hpre2, Multiset.map_add, Multiset.map_singleton] at hnd
          rw [Multiset.nodup_add] at hnd
          have hdisj := hnd.2.2
          intro hmem
          exact (Multiset.disjoint_left.mp hdisj hmem) (by
            rw [show Occ.oid (Occ.out id (v :: rest.items) : Occ IV OV Ctx) = id
              from rfl]
            exact Multiset.mem_singleton.mpr rfl)
        have hofs : ∀ il1 : Nat, outFor il1 ({ t with
              loop := .yielding j (.outlet id rest)
              output := t.output ++ [(id, v)] } : State IV OV Ctx E)
            = outFor il1 t ++ (if id = il1 then [v] else []) := fun il1 =>
          outFor_append_state il1 id v t _ rfl
        refine ⟨?_, ?_, hP.freshBorn, hP.bornNd, ?_, ?_, ?_, ?_⟩
        · intro o hm
          rcases (hmemS o).mp hm with hM0 | hx
          · exact hP.freshO o ((hmemP o).mpr (Or.inl hM0))
          · rw [hx]
            exact hidlt
        · intro pr hpr
          rw [show ({ t with
            loop := LoopState.yielding j (Pull.outlet id rest)
            output := t.output ++ [(id, v)] } : State IV OV Ctx E).output
            = t.output ++ [(id, v)] from rfl] at hpr
          rcases List.mem_append.mp hpr with hold | hnew
          · exact hP.freshOut pr hold
          · rw [List.mem_singleton.mp hnew]
            exact hidlt
        · rw [hocc2, Multiset.map_add, Multiset.map_singleton]
          have hnd := hP.ndO
          rw [hpre2, Multiset.map_add, Multiset.map_singleton] at hnd
          exact hnd
        · intro o hm
          rcases (hmemS o).mp hm with hM0 | hx
          · exact hP.sideO o ((hmemP o).mpr (Or.inl hM0))
          · constructor
            · intro id2 l c2 heq
              rw [hx] at heq
              exact Occ.noConfusion heq
            · intro id2 l heq
              rw [hx] at heq
              have hid2 : id = id2 := by
                have hcp := heq
                rw [Occ.out.injEq] at hcp
                exact hcp.1
              rw [← hid2]
              exact (hP.sideO _ hxP).2 id (v :: rest.items) rfl
        · intro il hil
          obtain ⟨h1, h2, h3⟩ := hP.prefO il hil
          by_cases hide : il.1 = id
          · have hofil : outFor il.1 ({ t with
                loop := .yielding j (.outlet id rest)
                output := t.output ++ [(id, v)] } : State IV OV Ctx E)
                = outFor il.1 t ++ [v] := by
              rw [hofs il.1, if_pos hide.symm]
            have hkey : outFor il.1 t ++ (v :: rest.items) = il.2 := by
              refine h1 (v :: rest.items) ?_
              rw [hide]
              exact hxP
            refine ⟨?_, ?_, ?_⟩
            · intro l hm
              rcases (hmemS _).mp hm with hM0 | hx
              · exfalso
                apply hidM0
                refine Multiset.mem_map.mpr ⟨Occ.out il.1 l, ?_, ?_⟩
                · rcases hM0 with hM0a | hM0b
                  · exact Multiset.mem_add.mpr (Or.inl hM0a)
                  · exact Multiset.mem_add.mpr (Or.inr hM0b)
                · rw [show Occ.oid (Occ.out il.1 l : Occ IV OV Ctx) = il.1 from rfl]
                  exact hide
              · have hl2 : l = rest.items := by
                  have hcp := hx
                  rw [Occ.out.injEq] at hcp
                  exact hcp.2
                rw [hofil, hl2, List.append_assoc]
                exact hkey
            · intro hni
              exfalso
              refine hni rest.items ?_
              rw [hide]
              exact (hmemS _).mpr (Or.inr rfl)
            · rw [hofil]
              exact ⟨rest.items, by rw [List.append_assoc]; exact hkey⟩
          · have hofil : outFor il.1 ({ t with
                loop := .yielding j (.outlet id rest)
                output := t.output ++ [(id, v)] } : State IV OV Ctx E)
                = outFor il.1 t := by
              rw [hofs il.1, if_neg (fun hh => hide hh.symm), List.append_nil]
            refine ⟨?_, ?_, ?_⟩
            · intro l hm
              rcases (hmemS _).mp hm with hM0 | hx
              · rw [hofil]
                refine h1 l ((hmemP _).mpr (Or.inl hM0))
              · exfalso
                have hcp := hx
                rw [Occ.out.injEq] at hcp
                exact hide hcp.1
            · intro hni
              rw [hofil]
              refine Or.inl (h2 ?_)
              intro l hm
              rcases (hmemP _).mp hm with hM0 | hx
              · exact hni l ((hmemS _).mpr (Or.inl hM0))
              · have hcp := hx
                rw [Occ.out.injEq] at hcp
                exact absurd hcp.1 hide
            · rw [hofil]
              exact h3
        · intro il hil
          obtain ⟨h1, h2, h3⟩ := hP.prefI il hil
          have hidbo : id ∈ t.bornOut.map (fun x => x.1) :=
            (hP.sideO _ hxP).2 id (v :: rest.items) rfl
          have hilbi : il.1 ∈ t.bornIn.map (fun x => x.1) :=
            List.mem_map_of_mem (fun x => x.1) hil
          have hne : il.1 ≠ id := by
            intro hcontra
            have hdisj := List.disjoint_of_nodup_append hP.bornNd
            exact (List.disjoint_left.mp hdisj hilbi) (by rw [hcontra]; exact hidbo)
          have hofil : outFor il.1 ({ t with
              loop := .yielding j (.outlet id rest)
              output := t.output ++ [(id, v)] } : State IV OV Ctx E)
              = outFor il.1 t := by
            rw [hofs il.1, if_neg (fun hh => hne hh.symm), List.append_nil]
          refine ⟨?_, ?_, ?_⟩
          · intro l c2 hm
            rcases (hmemS _).mp hm with hM0 | hx
            · rw [hofil]
              exact h1 l c2 ((hmemP _).mpr (Or.inl hM0))
            · exact absurd hx (by intro hh; exact Occ.noConfusion hh)
          · intro hni
            rw [hofil]
            refine Or.inl (h2 ?_)
            intro l c2 hm
            rcases (hmemP _).mp hm with hM0 | hx
            · exact hni l c2 ((hmemS _).mpr (Or.inl hM0))
            · exact Occ.noConfusion hx
          · rw [hofil]
            exact h3

theorem filterMap_out_fresh {OV : Type} (n : Nat) (out : List (Nat × OV))
    (hf : ∀ pr ∈ out, pr.1 < n) :
    out.filterMap (fun pr => if pr.1 = n then some pr.2 else none) = [] := by
  induction out with
  | nil => rfl
  | cons a t ih =>
      rw [List.filterMap_cons]
      have ha := hf a (List.mem_cons_self a t)
      rw [if_neg (by omega)]
      exact ih (fun pr hpr => hf pr (List.mem_cons_of_mem a hpr))

theorem outFor_fresh (n : Nat) (s : State IV OV Ctx E)
    (hf : ∀ pr ∈ s.output, Prod.fst pr < n) : outFor n s = [] :=
  filterMap_out_fresh n s.output hf

/-- Retiring a producer whose occurrence has no remaining items
preserves the identity invariants. -/
theorem invO_remove (h : IV → Ctx → PromiseOrValue OV E) (s s' : State IV OV Ctx E)
    (x : Occ IV OV Ctx) (hocc : occsM s = occsM s' + {x})
    (hout : s'.output = s.output) (hbi : s'.bornIn = s.bornIn) (hbo : s'.bornOut = s.bornOut)
    (hnx : s'.nextId = s.nextId) (hth : s.loop.isThrew → s'.loop.isThrew)
    (hempty : (∀ id l c2, x = .inl id l c2 → l = []) ∧ (∀ id l, x = .out id l → l = []))
    (hO : InvO h s) : InvO h s' := by
  have hbids : bornIds s' = bornIds s := by unfold bornIds; rw [hbi, hbo]
  have hle : occsM s' ≤ occsM s := by
    rw [hocc]
    exact Multiset.le_add_right _ _
  have hxm : x ∈ occsM s := by
    rw [hocc]
    exact Multiset.mem_add.mpr (Or.inr (Multiset.mem_singleton.mpr rfl))
  have hmem : ∀ o : Occ IV OV Ctx, o ∈ occsM s ↔ o ∈ occsM s' ∨ o = x := by
    intro o
    rw [hocc]
    simp [Multiset.mem_add]
  refine ⟨?_, ?_, ?_, ?_, ?_, ?_, ?_, ?_⟩
  · intro o hm
    rw [hnx]
    exact hO.freshO o (Multiset.mem_of_le hle hm)
  · rw [hout, hnx]; exact hO.freshOut
  · rw [hbids, hnx]; exact hO.freshBorn
  · rw [hbids]; exact hO.bornNd
  · exact Multiset.nodup_of_le (Multiset.map_le_map hle) hO.ndO
  · intro o hm
    rw [hbi, hbo]
    exact hO.sideO o (Multiset.mem_of_le hle hm)
  · intro il hil
    rw [hbo] at hil
    obtain ⟨h1, h2, h3⟩ := hO.prefO il hil
    rw [outFor_congr il.1 s s' hout]
    refine ⟨?_, ?_, h3⟩
    · intro l hm
      exact h1 l (Multiset.mem_of_le hle hm)
    · intro hni
      rcases hx : x with ⟨xid, xl, xc⟩ | ⟨xid, xl⟩
      · refine (h2 ?_).imp (fun hh => hh) hth
        intro l hm
        rcases (hmem _).mp hm with hin | heq
        · exact hni l hin
        · rw [hx] at heq
          exact Occ.noConfusion heq
      · have hxl : xl = [] := hempty.2 xid xl hx
        by_cases hxi : xid = il.1
        · refine Or.inl ?_
          have hk := h1 [] (by rw [← hxi, ← hxl, ← hx]; exact hxm)
          rw [List.append_nil] at hk
          exact hk
        · refine (h2 ?_).imp (fun hh => hh) hth
          intro l hm
          rcases (hmem _).mp hm with hin | heq
          · exact hni l hin
          · rw [hx] at heq
            have hcp := heq
            rw [Occ.out.injEq] at hcp
            exact hxi hcp.1.symm
  · intro il hil
    rw [hbi] at hil
    obtain ⟨h1, h2, h3⟩ := hO.prefI il hil
    rw [outFor_congr il.1 s s' hout]
    refine ⟨?_, ?_, h3⟩
    · intro l c2 hm
      exact h1 l c2 (Multiset.mem_of_le hle hm)
    · intro hni
      rcases hx : x with ⟨xid, xl, xc⟩ | ⟨xid, xl⟩
      · have hxl : xl = [] := hempty.1 xid xl xc hx
        by_cases hxi : xid = il.1
        · refine Or.inl ?_
          have hk := (h1 [] xc (by rw [← hxi, ← hxl, ← hx]; exact hxm)).2
          rw [scalarSeq_nil, List.append_nil] at hk
          exact hk
        · refine (h2 ?_).imp (fun hh => hh) hth
          intro l c2 hm
          rcases (hmem _).mp hm with hin | heq
          · exact hni l c2 hin
          · rw [hx] at heq
            have hcp := heq
            rw [Occ.inl.injEq] at hcp
            exact hxi hcp.1.symm
      · refine (h2 ?_).imp (fun hh => hh) hth
        intro l c2 hm
        rcases (hmem _).mp hm with hin | heq
        · exact hni l c2 hin
        · rw [hx] at heq
          exact Occ.noConfusion heq

/-- A scalar handler result: the transformed value is yielded for the
originating inlet producer and its re-pull occurrence keeps the rest;
the identity invariants are preserved. -/
theorem invO_scalar (h : IV → Ctx → PromiseOrValue OV E) (s : State IV OV Ctx E)
    (i id : Nat) (v : IV) (c : Ctx) (rest : Producer IV E) (w : OV)
    (hl : s.loop = .awaitingHandler i id v c rest) (haw : (h v c).await = .scalar w)
    (hO : InvO h s) :
    InvO h ({ s with
      loop := .yielding i (.inlet id rest c)
      output := s.output ++ [(id, w)] } : State IV OV Ctx E) := by
  have hnt : ¬ s.loop.isThrew := by simp [hl, LoopState.isThrew]
  have hSocc : occsM s
      = ((s.pending.map Pull.occ : List (Occ IV OV Ctx)) : Multiset (Occ IV OV Ctx))
        + (((s.events.drop (i + 1)).map Event.occ : List (Occ IV OV Ctx))
            : Multiset (Occ IV OV Ctx))
        + {Occ.inl id (v :: rest.items) c} := by
    rw [occsM_eq s hnt, hl]
    simp only [LoopState.cut, LoopState.occs]
    rw [show ((([Occ.inl id (v :: rest.items) c] : List (Occ IV OV Ctx)))
      : Multiset (Occ IV OV Ctx)) = {Occ.inl id (v :: rest.items) c} from rfl]
  have hocc2 : occsM ({ s with
        loop := .yielding i (.inlet id rest c)
        output := s.output ++ [(id, w)] } : State IV OV Ctx E)
      = ((s.pending.map Pull.occ : List (Occ IV OV Ctx)) : Multiset (Occ IV OV Ctx))
        + (((s.events.drop (i + 1)).map Event.occ : List (Occ IV OV Ctx))
            : Multiset (Occ IV OV Ctx))
        + {Occ.inl id rest.items c} := by
    rw [occsM_mk _ _ _ _ _ _ _ _ _ _ (by simp [LoopState.isThrew])]
    simp only [LoopState.cut, LoopState.occs, Pull.occ]
    rw [show ((([Occ.inl id rest.items c] : List (Occ IV OV Ctx)))
      : Multiset (Occ IV OV Ctx)) = {Occ.inl id rest.items c} from rfl]
  have hmemS : ∀ o : Occ IV OV Ctx,
      o ∈ occsM ({ s with
        loop := .yielding i (.inlet id rest c)
        output := s.output ++ [(id, w)] } : State IV OV Ctx E)
      ↔ (o ∈ ((s.pending.map Pull.occ : List (Occ IV OV Ctx)) : Multiset (Occ IV OV Ctx))
          ∨ o ∈ (((s.events.drop (i + 1)).map Event.occ : List (Occ IV OV Ctx))
              : Multiset (Occ IV OV Ctx)))
        ∨ o = Occ.inl id rest.items c := by
    intro o
    rw [hocc2]
    simp [Multiset.mem_add, or_assoc]
  have hmemP : ∀ o : Occ IV OV Ctx,
      o ∈ occsM s
      ↔ (o ∈ ((s.pending.map Pull.occ : List (Occ IV OV Ctx)) : Multiset (Occ IV OV Ctx))
          ∨ o ∈ (((s.events.drop (i + 1)).map Event.occ : List (Occ IV OV Ctx))
              : Multiset (Occ IV OV Ctx)))
        ∨ o = Occ.inl id (v :: rest.items) c := by
    intro o
    rw [hSocc]
    simp [Multiset.mem_add, or_assoc]
  have hxP : Occ.inl id (v :: rest.items) c ∈ occsM s := (hmemP _).mpr (Or.inr rfl)
  have hidlt : id < s.nextId := hO.freshO _ hxP
  have hidM0 : id ∉ Multiset.map Occ.oid
      (((s.pending.map Pull.occ : List (Occ IV OV Ctx)) : Multiset (Occ IV OV Ctx))
        + (((s.events.drop (i + 1)).map Event.occ : List (Occ IV OV Ctx))
            : Multiset (Occ IV OV Ctx))) := by
    have hnd := hO.ndO
    rw [hSocc, Multiset.map_add, Multiset.map_singleton] at hnd
    rw [Multiset.nodup_add] at hnd
    intro hmm
    exact (Multiset.disjoint_left.mp hnd.2.2 hmm) (by
      rw [show Occ.oid (Occ.inl id (v :: rest.items) c : Occ IV OV Ctx) = id from rfl]
      exact Multiset.mem_singleton.mpr rfl)
  have hofs : ∀ il1 : Nat, outFor il1 ({ s with
        loop := .yielding i (.inlet id rest c)
        output := s.output ++ [(id, w)] } : State IV OV Ctx E)
      = outFor il1 s ++ (if id = il1 then [w] else []) := fun il1 =>
    outFor_append_state il1 id w s _ rfl
  refine ⟨?_, ?_, hO.freshBorn, hO.bornNd, ?_, ?_, ?_, ?_⟩
  · intro o hm
    rcases (hmemS o).mp hm with hM0 | hx
    · exact hO.freshO o ((hmemP o).mpr (Or.inl hM0))
    · rw [hx]
      exact hidlt
  · intro pr hpr
    rcases List.mem_append.mp hpr with hold | hnew
    · exact hO.freshOut pr hold
    · rw [List.mem_singleton.mp hnew]
      exact hidlt
  · rw [hocc2, Multiset.map_add, Multiset.map_singleton]
    have hnd := hO.ndO
    rw [hSocc, Multiset.map_add, Multiset.map_singleton] at hnd
    exact hnd
  · intro o hm
    rcases (hmemS o).mp hm with hM0 | hx
    · exact hO.sideO o ((hmemP o).mpr (Or.inl hM0))
    · constructor
      · intro id2 l c2 heq
        rw [hx] at heq
        have hcp := heq
        rw [Occ.inl.injEq] at hcp
        rw [← hcp.1]
        exact (hO.sideO _ hxP).1 id (v :: rest.items) c rfl
      · intro id2 l heq
        rw [hx] at heq
        exact Occ.noConfusion heq
  · intro il hil
    obtain ⟨h1, h2, h3⟩ := hO.prefO il hil
    have hidbi : id ∈ s.bornIn.map (fun x => x.1) :=
      (hO.sideO _ hxP).1 id (v :: rest.items) c rfl
    have hilbo : il.1 ∈ s.bornOut.map (fun x => x.1) :=
      List.mem_map_of_mem (fun x => x.1) hil
    have hne : il.1 ≠ id := by
      intro hcontra
      have hdisj := List.disjoint_of_nodup_append hO.bornNd
      exact (List.disjoint_left.mp hdisj (by rw [hcontra]; exact hidbi)) hilbo
    have hofil : outFor il.1 ({ s with
        loop := .yielding i (.inlet id rest c)
        output := s.output ++ [(id, w)] } : State IV OV Ctx E) = outFor il.1 s := by
      rw [hofs il.1, if_neg (fun hh => hne hh.symm), List.append_nil]
    refine ⟨?_, ?_, ?_⟩
    · intro l hm
      rcases (hmemS _).mp hm with hM0 | hx
      · rw [hofil]
        exact h1 l ((hmemP _).mpr (Or.inl hM0))
      · exact absurd hx (by intro hh; exact Occ.noConfusion hh)
    · intro hni
      rw [hofil]
      refine (h2 ?_).imp (fun hh => hh) (fun hf => absurd hf hnt)
      intro l hm
      rcases (hmemP _).mp hm with hM0 | hx
      · exact hni l ((hmemS _).mpr (Or.inl hM0))
      · exact Occ.noConfusion hx
    · rw [hofil]
      exact h3
  · intro il hil
    obtain ⟨h1, h2, h3⟩ := hO.prefI il hil
    by_cases hide : il.1 = id
    · have hofil : outFor il.1 ({ s with
          loop := .yielding i (.inlet id rest c)
          output := s.output ++ [(id, w)] } : State IV OV Ctx E)
          = outFor il.1 s ++ [w] := by
        rw [hofs il.1, if_pos hide.symm]
      have hkey := h1 (v :: rest.items) c (by rw [hide]; exact hxP)
      have hc2 : c = il.2.2 := hkey.1
      have hsc : scalarSeq h il.2.2 (v :: rest.items) = w :: scalarSeq h il.2.2 rest.items :=
        scalarSeq_cons_scalar h il.2.2 v rest.items w (by rw [← hc2]; exact haw)
      have hkey2 : (outFor il.1 s ++ [w]) ++ scalarSeq h il.2.2 rest.items
          = scalarSeq h il.2.2 il.2.1 := by
        rw [List.append_assoc]
        rw [show ([w] ++ scalarSeq h il.2.2 rest.items : List OV)
          = w :: scalarSeq h il.2.2 rest.items from rfl]
        rw [← hsc]
        exact hkey.2
      refine ⟨?_, ?_, ?_⟩
      · intro l c2 hm
        rcases (hmemS _).mp hm with hM0 | hx
        · exfalso
          apply hidM0
          refine Multiset.mem_map.mpr ⟨Occ.inl il.1 l c2, ?_, ?_⟩
          · rcases hM0 with hM0a | hM0b
            · exact Multiset.mem_add.mpr (Or.inl hM0a)
            · exact Multiset.mem_add.mpr (Or.inr hM0b)
          · rw [show Occ.oid (Occ.inl il.1 l c2 : Occ IV OV Ctx) = il.1 from rfl]
            exact hide
        · have hcp := hx
          rw [Occ.inl.injEq] at hcp
          refine ⟨by rw [hcp.2.2]; exact hc2, ?_⟩
          rw [hofil, hcp.2.1]
          exact hkey2
      · intro hni
        exfalso
        refine hni rest.items c ?_
        rw [hide]
        exact (hmemS _).mpr (Or.inr rfl)
      · rw [hofil]
        exact ⟨scalarSeq h il.2.2 rest.items, hkey2⟩
    · have hofil : outFor il.1 ({ s with
          loop := .yielding i (.inlet id rest c)
          output := s.output ++ [(id, w)] } : State IV OV Ctx E) = outFor il.1 s := by
        rw [hofs il.1, if_neg (fun hh => hide hh.symm), List.append_nil]
      refine ⟨?_, ?_, ?_⟩
      · intro l c2 hm
        rcases (hmemS _).mp hm with hM0 | hx
        · rw [hofil]
          exact h1 l c2 ((hmemP _).mpr (Or.inl hM0))
        · exfalso
          have hcp := hx
          rw [Occ.inl.injEq] at hcp
          exact hide hcp.1
      · intro hni
        rw [hofil]
        refine (h2 ?_).imp (fun hh => hh) (fun hf => absurd hf hnt)
        intro l c2 hm
        rcases (hmemP _).mp hm with hM0 | hx
        · exact hni l c2 ((hmemS _).mpr (Or.inl hM0))
        · have hcp := hx
          rw [Occ.inl.injEq] at hcp
          exact hide hcp.1
      · rw [hofil]
        exact h3

/-- Registering a fresh outlet producer preserves the identity
invariants. -/
theorem invO_register_out (h : IV → Ctx → PromiseOrValue OV E) (s s' : State IV OV Ctx E)
    (q : Producer OV E)
    (hocc : occsM s' = occsM s + {Occ.out s.nextId q.items})
    (hout : s'.output = s.output) (hbi : s'.bornIn = s.bornIn)
    (hbo : s'.bornOut = s.bornOut ++ [(s.nextId, q.items)])
    (hnx : s'.nextId = s.nextId + 1)
    (hth : s.loop.isThrew → s'.loop.isThrew)
    (hO : InvO h s) : InvO h s' := by
  have hmem : ∀ o : Occ IV OV Ctx,
      o ∈ occsM s' ↔ o ∈ occsM s ∨ o = Occ.out s.nextId q.items := by
    intro o
    rw [hocc]
    simp [Multiset.mem_add]
  have hbids2 : bornIds s' = s.bornIn.map (fun x => x.1)
      ++ (s.bornOut.map (fun x => x.1) ++ [s.nextId]) := by
    unfold bornIds
    rw [hbi, hbo, List.map_append]
    rfl
  have hyb : s.nextId ∈ s'.bornOut.map (fun x => x.1) := by
    rw [hbo, List.map_append]
    exact List.mem_append_right _ (List.mem_singleton.mpr rfl)
  refine ⟨?_, ?_, ?_, ?_, ?_, ?_, ?_, ?_⟩
  · intro o hm
    rw [hnx]
    rcases (hmem o).mp hm with hin | hy
    · exact Nat.lt_succ_of_lt (hO.freshO o hin)
    · rw [hy]
      exact Nat.lt_succ_self _
  · intro pr hpr
    rw [hout] at hpr
    rw [hnx]
    exact Nat.lt_succ_of_lt (hO.freshOut pr hpr)
  · intro a ha
    rw [hbids2] at ha
    rw [hnx]
    rcases List.mem_append.mp ha with hA | hBn
    · exact Nat.lt_succ_of_lt (hO.freshBorn a
        (List.mem_append_left _ hA))
    · rcases List.mem_append.mp hBn with hB | hn
      · exact Nat.lt_succ_of_lt (hO.freshBorn a (List.mem_append_right _ hB))
      · rw [List.mem_singleton.mp hn]
        exact Nat.lt_succ_self _
  · rw [hbids2, ← List.append_assoc]
    rw [List.nodup_append]
    refine ⟨hO.bornNd, List.nodup_singleton _, ?_⟩
    intro a ha hb
    rw [List.mem_singleton.mp hb] at ha
    exact absurd (hO.freshBorn _ ha) (lt_irrefl _)
  · rw [hocc, Multiset.map_add, Multiset.map_singleton]
    rw [Multiset.nodup_add]
    refine ⟨hO.ndO, Multiset.nodup_singleton _, ?_⟩
    rw [Multiset.disjoint_left]
    intro a ha hb
    rcases Multiset.mem_map.mp ha with ⟨o, ho, hoe⟩
    rw [Multiset.mem_singleton] at hb
    rw [hb] at hoe
    have := hO.freshO o ho
    rw [show Occ.oid (Occ.out s.nextId q.items : Occ IV OV Ctx) = s.nextId
      from rfl] at hoe
    rw [hoe] at this
    exact absurd this (lt_irrefl _)
  · intro o hm
    rcases (hmem o).mp hm with hin | hy
    · obtain ⟨hsi, hso⟩ := hO.sideO o hin
      refine ⟨?_, ?_⟩
      · intro id2 l c2 heq
        rw [hbi]
        exact hsi id2 l c2 heq
      · intro id2 l heq
        rw [hbo, List.map_append]
        exact List.mem_append_left _ (hso id2 l heq)
    · refine ⟨?_, ?_⟩
      · intro id2 l c2 heq
        rw [hy] at heq
        exact Occ.noConfusion heq
      · intro id2 l heq
        rw [hy] at heq
        have hcp := heq
        rw [Occ.out.injEq] at hcp
        rw [← hcp.1]
        exact hyb
  · intro il hil
    rw [hbo] at hil
    rcases List.mem_append.mp hil with hold | hnew
    · obtain ⟨h1, h2, h3⟩ := hO.prefO il hold
      have hlt : il.1 < s.nextId := hO.freshBorn il.1 (List.mem_append_right _
        (List.mem_map_of_mem (fun x => x.1) hold))
      rw [outFor_congr il.1 s s' hout]
      refine ⟨?_, ?_, h3⟩
      · intro l hm
        rcases (hmem _).mp hm with hin | hy
        · exact h1 l hin
        · exfalso
          have hcp := hy
          rw [Occ.out.injEq] at hcp
          rw [hcp.1] at hlt
          exact absurd hlt (lt_irrefl _)
      · intro hni
        refine (h2 ?_).imp (fun hh => hh) hth
        intro l hm
        exact hni l ((hmem _).mpr (Or.inl hm))
    · have hil2 := List.mem_singleton.mp hnew
      subst hil2
      have hzero : outFor s.nextId s' = [] := by
        rw [outFor_congr _ s s' hout]
        exact outFor_fresh s.nextId s hO.freshOut
      refine ⟨?_, ?_, ?_⟩
      · intro l hm
        rcases (hmem _).mp hm with hin | hy
        · exfalso
          have := hO.freshO _ hin
          rw [show Occ.oid (Occ.out s.nextId l : Occ IV OV Ctx) = s.nextId
            from rfl] at this
          exact absurd this (lt_irrefl _)
        · have hcp := hy
          rw [Occ.out.injEq] at hcp
          rw [hzero, hcp.2]
          rfl
      · intro hni
        exfalso
        exact hni q.items ((hmem _).mpr (Or.inr rfl))
      · rw [hzero]
        exact ⟨q.items, rfl⟩
  · intro il hil
    rw [hbi] at hil
    obtain ⟨h1, h2, h3⟩ := hO.prefI il hil
    rw [outFor_congr il.1 s s' hout]
    refine ⟨?_, ?_, h3⟩
    · intro l c2 hm
      rcases (hmem _).mp hm with hin | hy
      · exact h1 l c2 hin
      · rw [hy] at hm
        exact absurd hy (by intro hh; exact Occ.noConfusion hh)
    · intro hni
      refine (h2 ?_).imp (fun hh => hh) hth
      intro l c2 hm
      exact hni l c2 ((hmem _).mpr (Or.inl hm))

/-- Registering a fresh inlet producer preserves the identity
invariants. -/
theorem invO_register_inl (h : IV → Ctx → PromiseOrValue OV E) (s s' : State IV OV Ctx E)
    (p : Producer IV E) (c : Ctx)
    (hocc : occsM s' = occsM s + {Occ.inl s.nextId p.items c})
    (hout : s'.output = s.output) (hbi : s'.bornIn = s.bornIn ++ [(s.nextId, p.items, c)])
    (hbo : s'.bornOut = s.bornOut)
    (hnx : s'.nextId = s.nextId + 1)
    (hth : s.loop.isThrew → s'.loop.isThrew)
    (hO : InvO h s) : InvO h s' := by
  have hmem : ∀ o : Occ IV OV Ctx,
      o ∈ occsM s' ↔ o ∈ occsM s ∨ o = Occ.inl s.nextId p.items c := by
    intro o
    rw [hocc]
    simp [Multiset.mem_add]
  have hbids2 : bornIds s' = (s.bornIn.map (fun x => x.1) ++ [s.nextId])
      ++ s.bornOut.map (fun x => x.1) := by
    unfold bornIds
    rw [hbi, hbo, List.map_append]
    rfl
  have hyb : s.nextId ∈ s'.bornIn.map (fun x => x.1) := by
    rw [hbi, List.map_append]
    exact List.mem_append_right _ (List.mem_singleton.mpr rfl)
  refine ⟨?_, ?_, ?_, ?_, ?_, ?_, ?_, ?_⟩
  · intro o hm
    rw [hnx]
    rcases (hmem o).mp hm with hin | hy
    · exact Nat.lt_succ_of_lt (hO.freshO o hin)
    · rw [hy]
      exact Nat.lt_succ_self _
  · intro pr hpr
    rw [hout] at hpr
    rw [hnx]
    exact Nat.lt_succ_of_lt (hO.freshOut pr hpr)
  · intro a ha
    rw [hbids2] at ha
    rw [hnx]
    rcases List.mem_append.mp ha with hAn | hB
    · rcases List.mem_append.mp hAn with hA | hn
      · exact Nat.lt_succ_of_lt (hO.freshBorn a (List.mem_append_left _ hA))
      · rw [List.mem_singleton.mp hn]
        exact Nat.lt_succ_self _
    · exact Nat.lt_succ_of_lt (hO.freshBorn a (List.mem_append_right _ hB))
  · rw [hbids2]
    have hperm : ((s.bornIn.map (fun x => x.1) ++ [s.nextId])
        ++ s.bornOut.map (fun x => x.1)).Perm
        ((s.bornIn.map (fun x => x.1) ++ s.bornOut.map (fun x => x.1)) ++ [s.nextId]) := by
      rw [List.append_assoc, List.append_assoc]
      exact List.Perm.append_left _ List.perm_append_comm
    rw [hperm.nodup_iff]
    rw [List.nodup_append]
    refine ⟨hO.bornNd, List.nodup_singleton _, ?_⟩
    intro a ha hb
    rw [List.mem_singleton.mp hb] at ha
    exact absurd (hO.freshBorn _ ha) (lt_irrefl _)
  · rw [hocc, Multiset.map_add, Multiset.map_singleton]
    rw [Multiset.nodup_add]
    refine ⟨hO.ndO, Multiset.nodup_singleton _, ?_⟩
    rw [Multiset.disjoint_left]
    intro a ha hb
    rcases Multiset.mem_map.mp ha with ⟨o, ho, hoe⟩
    rw [Multiset.mem_singleton] at hb
    rw [hb] at hoe
    have := hO.freshO o ho
    rw [show Occ.oid (Occ.inl s.nextId p.items c : Occ IV OV Ctx) = s.nextId from rfl] at hoe
    rw [hoe] at this
    exact absurd this (lt_irrefl _)
  · intro o hm
    rcases (hmem o).mp hm with hin | hy
    · obtain ⟨hsi, hso⟩ := hO.sideO o hin
      refine ⟨?_, ?_⟩
      · intro id2 l c2 heq
        rw [hbi, List.map_append]
        exact List.mem_append_left _ (hsi id2 l c2 heq)
      · intro id2 l heq
        rw [hbo]
        exact hso id2 l heq
    · refine ⟨?_, ?_⟩
      · intro id2 l c2 heq
        rw [hy] at heq
        have hcp := heq
        rw [Occ.inl.injEq] at hcp
        rw [← hcp.1]
        exact hyb
      · intro id2 l heq
        rw [hy] at heq
        exact Occ.noConfusion heq
  · intro il hil
    rw [hbo] at hil
    obtain ⟨h1, h2, h3⟩ := hO.prefO il hil
    rw [outFor_congr il.1 s s' hout]
    refine ⟨?_, ?_, h3⟩
    · intro l hm
      rcases (hmem _).mp hm with hin | hy
      · exact h1 l hin
      · exact absurd hy (by intro hh; exact Occ.noConfusion hh)
    · intro hni
      refine (h2 ?_).imp (fun hh => hh) hth
      intro l hm
      exact hni l ((hmem _).mpr (Or.inl hm))
  · intro il hil
    rw [hbi] at hil
    rcases List.mem_append.mp hil with hold | hnew
    · obtain ⟨h1, h2, h3⟩ := hO.prefI il hold
      have hlt : il.1 < s.nextId := hO.freshBorn il.1 (List.mem_append_left _
        (List.mem_map_of_mem (fun x => x.1) hold))
      rw [outFor_congr il.1 s s' hout]
      refine ⟨?_, ?_, h3⟩
      · intro l c2 hm
        rcases (hmem _).mp hm with hin | hy
        · exact h1 l c2 hin
        · exfalso
          have hcp := hy
          rw [Occ.inl.injEq] at hcp
          rw [hcp.1] at hlt
          exact absurd hlt (lt_irrefl _)
      · intro hni
        refine (h2 ?_).imp (fun hh => hh) hth
        intro l c2 hm
        exact hni l c2 ((hmem _).mpr (Or.inl hm))
    · have hil2 := List.mem_singleton.mp hnew
      subst hil2
      have hzero : outFor s.nextId s' = [] := by
        rw [outFor_congr _ s s' hout]
        exact outFor_fresh s.nextId s hO.freshOut
      refine ⟨?_, ?_, ?_⟩
      · intro l c2 hm
        rcases (hmem _).mp hm with hin | hy
        · exfalso
          have := hO.freshO _ hin
          rw [show Occ.oid (Occ.inl s.nextId l c2 : Occ IV OV Ctx) = s.nextId from rfl] at this
          exact absurd this (lt_irrefl _)
        · have hcp := hy
          rw [Occ.inl.injEq] at hcp
          refine ⟨hcp.2.2.symm ▸ rfl, ?_⟩
          rw [hzero, hcp.2.1]
          rfl
      · intro hni
        exfalso
        exact hni p.items c ((hmem _).mpr (Or.inr rfl))
      · rw [hzero]
        exact ⟨scalarSeq h c p.items, rfl⟩

/-- A stream handler result: the new outlet producer is registered and
the originating inlet's re-pull is queued; the drain continuation gets
what it needs. -/
theorem preO_stream (h : IV → Ctx → PromiseOrValue OV E) (s : State IV OV Ctx E)
    (i id : Nat) (v : IV) (c : Ctx) (rest : Producer IV E) (q : Producer OV E)
    (hl : s.loop = .awaitingHandler i id v c rest) (haw : (h v c).await = .stream q)
    (hO : InvO h s) :
    PreO h ({ addOutletBelt s q with
      pending := (addOutletBelt s q).pending ++ [.inlet id rest c] } : State IV OV Ctx E)
      (i + 1) := by
  have hnt : ¬ s.loop.isThrew := by simp [hl, LoopState.isThrew]
  have hmidnt : ¬ (addOutletBelt s q).loop.isThrew := hnt
  have hoccmid : occsM (addOutletBelt s q) = occsM s + {Occ.out s.nextId q.items} := by
    rw [occsM_eq (addOutletBelt s q) hmidnt, occsM_eq s hnt]
    rw [show (addOutletBelt s q).pending = s.pending ++ [.outlet s.nextId q] from rfl]
    rw [show (addOutletBelt s q).events = s.events from rfl]
    rw [show (addOutletBelt s q).loop = s.loop from rfl]
    rw [List.map_append, ← Multiset.coe_add]
    rw [show (([Pull.outlet s.nextId q] : List (Pull IV OV Ctx E)).map Pull.occ)
      = [Occ.out s.nextId q.items] from rfl]
    rw [show ((([Occ.out s.nextId q.items] : List (Occ IV OV Ctx)))
      : Multiset (Occ IV OV Ctx)) = {Occ.out s.nextId q.items} from rfl]
    abel
  have hOmid : InvO h (addOutletBelt s q) :=
    invO_register_out h s (addOutletBelt s q) q hoccmid rfl rfl rfl rfl
      (fun hf => hf) hO
  have hmidl : (addOutletBelt s q).loop = .awaitingHandler i id v c rest := hl
  have hSocc : occsM (addOutletBelt s q)
      = (((addOutletBelt s q).pending.map Pull.occ : List (Occ IV OV Ctx))
          : Multiset (Occ IV OV Ctx))
        + (((s.events.drop (i + 1)).map Event.occ : List (Occ IV OV Ctx))
            : Multiset (Occ IV OV Ctx))
        + {Occ.inl id (v :: rest.items) c} := by
    rw [occsM_eq (addOutletBelt s q) hmidnt, hmidl]
    rw [show (addOutletBelt s q).events = s.events from rfl]
    simp only [LoopState.cut, LoopState.occs]
    rw [show ((([Occ.inl id (v :: rest.items) c] : List (Occ IV OV Ctx)))
      : Multiset (Occ IV OV Ctx)) = {Occ.inl id (v :: rest.items) c} from rfl]
  have hpre2 : preOccsM ({ addOutletBelt s q with
        pending := (addOutletBelt s q).pending ++ [.inlet id rest c] } : State IV OV Ctx E)
        (i + 1)
      = (((addOutletBelt s q).pending.map Pull.occ : List (Occ IV OV Ctx))
          : Multiset (Occ IV OV Ctx))
        + (((s.events.drop (i + 1)).map Event.occ : List (Occ IV OV Ctx))
            : Multiset (Occ IV OV Ctx))
        + {Occ.inl id rest.items c} := by
    rw [preOccsM_eq]
    rw [show ({ addOutletBelt s q with
      pending := (addOutletBelt s q).pending ++ [.inlet id rest c] }
        : State IV OV Ctx E).pending
      = (addOutletBelt s q).pending ++ [.inlet id rest c] from rfl]
    rw [show ({ addOutletBelt s q with
      pending := (addOutletBelt s q).pending ++ [.inlet id rest c] }
        : State IV OV Ctx E).events = s.events from rfl]
    rw [List.map_append, ← Multiset.coe_add]
    rw [show (([Pull.inlet id rest c] : List (Pull IV OV Ctx E)).map Pull.occ)
      = [Occ.inl id rest.items c] from rfl]
    rw [show ((([Occ.inl id rest.items c] : List (Occ IV OV Ctx)))
      : Multiset (Occ IV OV Ctx)) = {Occ.inl id rest.items c} from rfl]
    abel
  have hmemS : ∀ o : Occ IV OV Ctx,
      o ∈ preOccsM ({ addOutletBelt s q with
        pending := (addOutletBelt s q).pending ++ [.inlet id rest c] } : State IV OV Ctx E)
        (i + 1)
      ↔ (o ∈ (((addOutletBelt s q).pending.map Pull.occ : List (Occ IV OV Ctx))
            : Multiset (Occ IV OV Ctx))
          ∨ o ∈ (((s.events.drop (i + 1)).map Event.occ : List (Occ IV OV Ctx))
              : Multiset (Occ IV OV Ctx)))
        ∨ o = Occ.inl id rest.items c := by
    intro o
    rw [hpre2]
    simp [Multiset.mem_add, or_assoc]
  have hmemP : ∀ o : Occ IV OV Ctx,
      o ∈ occsM (addOutletBelt s q)
      ↔ (o ∈ (((addOutletBelt s q).pending.map Pull.occ : List (Occ IV OV Ctx))
            : Multiset (Occ IV OV Ctx))
          ∨ o ∈ (((s.events.drop (i + 1)).map Event.occ : List (Occ IV OV Ctx))
              : Multiset (Occ IV OV Ctx)))
        ∨ o = Occ.inl id (v :: rest.items) c := by
    intro o
    rw [hSocc]
    simp [Multiset.mem_add, or_assoc]
  have hxP : Occ.inl id (v :: rest.items) c ∈ occsM (addOutletBelt s q) :=
    (hmemP _).mpr (Or.inr rfl)
  have hidM0 : id ∉ Multiset.map Occ.oid
      ((((addOutletBelt s q).pending.map Pull.occ : List (Occ IV OV Ctx))
          : Multiset (Occ IV OV Ctx))
        + (((s.events.drop (i + 1)).map Event.occ : List (Occ IV OV Ctx))
            : Multiset (Occ IV OV Ctx))) := by
    have hnd := hOmid.ndO
    rw [hSocc, Multiset.map_add, Multiset.map_singleton] at hnd
    rw [Multiset.nodup_add] at hnd
    intro hmm
    exact (Multiset.disjoint_left.mp hnd.2.2 hmm) (by
      rw [show Occ.oid (Occ.inl id (v :: rest.items) c : Occ IV OV Ctx) = id from rfl]
      exact Multiset.mem_singleton.mpr rfl)
  refine ⟨?_, hOmid.freshOut, hOmid.freshBorn, hOmid.bornNd, ?_, ?_, ?_, ?_⟩
  · intro o hm
    rcases (hmemS o).mp hm with hM0 | hx
    · exact hOmid.freshO o ((hmemP o).mpr (Or.inl hM0))
    · rw [hx]
      rw [show Occ.oid (Occ.inl id rest.items c : Occ IV OV Ctx) = id from rfl]
      have hfr := hOmid.freshO _ hxP
      rw [show Occ.oid (Occ.inl id (v :: rest.items) c : Occ IV OV Ctx) = id from rfl] at hfr
      exact hfr
  · rw [hpre2, Multiset.map_add, Multiset.map_singleton]
    have hnd := hOmid.ndO
    rw [hSocc, Multiset.map_add, Multiset.map_singleton] at hnd
    exact hnd
  · intro o hm
    rcases (hmemS o).mp hm with hM0 | hx
    · exact hOmid.sideO o ((hmemP o).mpr (Or.inl hM0))
    · refine ⟨?_, ?_⟩
      · intro id2 l c2 heq
        rw [hx] at heq
        have hcp := heq
        rw [Occ.inl.injEq] at hcp
        rw [← hcp.1]
        exact (hOmid.sideO _ hxP).1 id (v :: rest.items) c rfl
      · intro id2 l heq
        rw [hx] at heq
        exact Occ.noConfusion heq
  · intro il hil
    obtain ⟨h1, h2, h3⟩ := hOmid.prefO il hil
    refine ⟨?_, ?_, h3⟩
    · intro l hm
      rcases (hmemS _).mp hm with hM0 | hx
      · exact h1 l ((hmemP _).mpr (Or.inl hM0))
      · exact absurd hx (by intro hh; exact Occ.noConfusion hh)
    · intro hni
      rcases h2 (fun l hm => by
        rcases (hmemP _).mp hm with hM0 | hx
        · exact hni l ((hmemS _).mpr (Or.inl hM0))
        · exact Occ.noConfusion hx) with hgood | hbad
      · exact hgood
      · exact absurd hbad hmidnt
  · intro il hil
    obtain ⟨h1, h2, h3⟩ := hOmid.prefI il hil
    by_cases hide : il.1 = id
    · have hkey := h1 (v :: rest.items) c (by rw [hide]; exact hxP)
      have hc2 : c = il.2.2 := hkey.1
      have hsc : scalarSeq h il.2.2 (v :: rest.items) = scalarSeq h il.2.2 rest.items :=
        scalarSeq_cons_stream h il.2.2 v rest.items q (by rw [← hc2]; exact haw)
      refine ⟨?_, ?_, h3⟩
      · intro l c2 hm
        rcases (hmemS _).mp hm with hM0 | hx
        · exfalso
          apply hidM0
          refine Multiset.mem_map.mpr ⟨Occ.inl il.1 l c2, ?_, ?_⟩
          · rcases hM0 with hM0a | hM0b
            · exact Multiset.mem_add.mpr (Or.inl hM0a)
            · exact Multiset.mem_add.mpr (Or.inr hM0b)
          · rw [show Occ.oid (Occ.inl il.1 l c2 : Occ IV OV Ctx) = il.1 from rfl]
            exact hide
        · have hcp := hx
          rw [Occ.inl.injEq] at hcp
          refine ⟨by rw [hcp.2.2]; exact hc2, ?_⟩
          rw [hcp.2.1, ← hsc]
          exact hkey.2
      · intro hni
        exfalso
        refine hni rest.items c ?_
        rw [hide]
        exact (hmemS _).mpr (Or.inr rfl)
    · refine ⟨?_, ?_, h3⟩
      · intro l c2 hm
        rcases (hmemS _).mp hm with hM0 | hx
        · exact h1 l c2 ((hmemP _).mpr (Or.inl hM0))
        · exfalso
          have hcp := hx
          rw [Occ.inl.injEq] at hcp
          exact hide hcp.1
      · intro hni
        rcases h2 (fun l c2 hm => by
          rcases (hmemP _).mp hm with hM0 | hx
          · exact hni l c2 ((hmemS _).mpr (Or.inl hM0))
          · have hcp := hx
            rw [Occ.inl.injEq] at hcp
            exact absurd hcp.1 hide) with hgood | hbad
        · exact hgood
        · exact absurd hbad hmidnt

/-- When the generator dies, the surviving occurrences are a subset of
what was live; all invariant conditions persist with the thrown
escape. -/
theorem invO_throw (h : IV → Ctx → PromiseOrValue OV E) (s s' : State IV OV Ctx E) (e : E)
    (hl2 : s'.loop = .threw e) (hle : occsM s' ≤ occsM s)
    (hout : s'.output = s.output) (hbi : s'.bornIn = s.bornIn) (hbo : s'.bornOut = s.bornOut)
    (hnx : s'.nextId = s.nextId) (hO : InvO h s) : InvO h s' := by
  have hbids : bornIds s' = bornIds s := by unfold bornIds; rw [hbi, hbo]
  have hthrew : s'.loop.isThrew := by rw [hl2]; trivial
  refine ⟨?_, ?_, ?_, ?_, ?_, ?_, ?_, ?_⟩
  · intro o hm
    rw [hnx]
    exact hO.freshO o (Multiset.mem_of_le hle hm)
  · rw [hout, hnx]; exact hO.freshOut
  · rw [hbids, hnx]; exact hO.freshBorn
  · rw [hbids]; exact hO.bornNd
  · exact Multiset.nodup_of_le (Multiset.map_le_map hle) hO.ndO
  · intro o hm
    rw [hbi, hbo]
    exact hO.sideO o (Multiset.mem_of_le hle hm)
  · intro il hil
    rw [hbo] at hil
    obtain ⟨h1, h2, h3⟩ := hO.prefO il hil
    rw [outFor_congr il.1 s s' hout]
    refine ⟨?_, ?_, h3⟩
    · intro l hm
      exact h1 l (Multiset.mem_of_le hle hm)
    · intro _
      exact Or.inr hthrew
  · intro il hil
    rw [hbi] at hil
    obtain ⟨h1, h2, h3⟩ := hO.prefI il hil
    rw [outFor_congr il.1 s s' hout]
    refine ⟨?_, ?_, h3⟩
    · intro l c2 hm
      exact h1 l c2 (Multiset.mem_of_le hle hm)
    · intro _
      exact Or.inr hthrew

/-- Every step preserves the identity and ordering invariants. -/
theorem invO_step (h : IV → Ctx → PromiseOrValue OV E) (s s' : State IV OV Ctx E)
    (hA : InvA s) (hO : InvO h s) (hst : Step h s s') : InvO h s' := by
  cases hst with
  | start hl =>
      have hnt : ¬ s.loop.isThrew := by simp [hl, LoopState.isThrew]
      rw [startRun]
      by_cases hz : s.iteratorCount = 0
      · rw [if_pos hz]
        refine invO_transfer h s _ ?_ rfl rfl rfl rfl (fun hf => absurd hf hnt) hO
        rw [occsM_mk _ _ _ _ _ _ _ _ _ _ (by simp [LoopState.isThrew]), occsM_eq s hnt, hl]
        simp [LoopState.cut, LoopState.occs]
      · rw [if_neg hz]
        refine invO_transfer h s _ ?_ rfl rfl rfl rfl (fun hf => absurd hf hnt) hO
        rw [occsM_mk _ _ _ _ _ _ _ _ _ _ (by simp [LoopState.isThrew]), occsM_eq s hnt, hl]
        simp [LoopState.cut, LoopState.occs]
  | pull k hs =>
      have hnt : ¬ s.loop.isThrew := by
        cases hloop : s.loop <;> rw [hloop] at hs <;>
          simp [LoopState.isThrew, LoopState.suspended] at hs ⊢
      have hcle := drainPosL_cut_le s.loop s.events hA.drain
      have hsum := multiset_map_eraseIdx Pull.occ s.pending k.val k.isLt
      rcases hpk : s.pending.get k with ⟨id, ⟨items, post⟩, c⟩ | ⟨id, ⟨items, post⟩⟩ <;>
        rw [hpk] at hsum <;>
        rcases items with _ | ⟨v, rest⟩ <;> rcases post with _ | e <;>
        simp only [completePull]
      · rw [show Pull.occ (Pull.inlet id ⟨[], none⟩ c : Pull IV OV Ctx E)
          = Occ.inl id [] c from rfl] at hsum
        refine invO_remove h s _ (Occ.inl id [] c) ?_ rfl rfl rfl rfl
          (fun hf => absurd hf hnt)
          ⟨fun id2 l c2 heq => ?_, fun id2 l heq => ?_⟩ hO
        · rw [occsM_eq s hnt, occsM_mk _ _ _ _ _ _ _ _ _ _ hnt, ← hsum]
          abel
        · have hcp := heq
          rw [Occ.inl.injEq] at hcp
          exact hcp.2.1.symm
        · exact Occ.noConfusion heq
      · rw [show Pull.occ (Pull.inlet id ⟨[], some e⟩ c : Pull IV OV Ctx E)
          = Occ.inl id [] c from rfl] at hsum
        refine invO_remove h s _ (Occ.inl id [] c) ?_ rfl rfl rfl rfl
          (fun hf => absurd hf hnt)
          ⟨fun id2 l c2 heq => ?_, fun id2 l heq => ?_⟩ hO
        · rw [occsM_eq s hnt, occsM_mk _ _ _ _ _ _ _ _ _ _ hnt, ← hsum]
          abel
        · have hcp := heq
          rw [Occ.inl.injEq] at hcp
          exact hcp.2.1.symm
        · exact Occ.noConfusion heq
      · rw [show Pull.occ (Pull.inlet id ⟨v :: rest, none⟩ c : Pull IV OV Ctx E)
          = Occ.inl id (v :: rest) c from rfl] at hsum
        refine invO_transfer h s _ ?_ rfl rfl rfl rfl (fun hf => absurd hf hnt) hO
        rw [occsM_mk _ _ _ _ _ _ _ _ _ _ hnt, occsM_eq s hnt]
        rw [drop_append_of_le _ _ _ hcle, List.map_append, ← Multiset.coe_add]
        rw [show ((([Event.inlet id v c ⟨rest, none⟩]
          : List (Event IV OV Ctx E)).map Event.occ : List (Occ IV OV Ctx))
          : Multiset (Occ IV OV Ctx)) = {Occ.inl id (v :: rest) c} from rfl]
        rw [← hsum]
        abel
      · rw [show Pull.occ (Pull.inlet id ⟨v :: rest, some e⟩ c : Pull IV OV Ctx E)
          = Occ.inl id (v :: rest) c from rfl] at hsum
        refine invO_transfer h s _ ?_ rfl rfl rfl rfl (fun hf => absurd hf hnt) hO
        rw [occsM_mk _ _ _ _ _ _ _ _ _ _ hnt, occsM_eq s hnt]
        rw [drop_append_of_le _ _ _ hcle, List.map_append, ← Multiset.coe_add]
        rw [show ((([Event.inlet id v c ⟨rest, some e⟩]
          : List (Event IV OV Ctx E)).map Event.occ : List (Occ IV OV Ctx))
          : Multiset (Occ IV OV Ctx)) = {Occ.inl id (v :: rest) c} from rfl]
        rw [← hsum]
        abel
      · rw [show Pull.occ (Pull.outlet id ⟨[], none⟩ : Pull IV OV Ctx E)
          = Occ.out id [] from rfl] at hsum
        refine invO_remove h s _ (Occ.out id []) ?_ rfl rfl rfl rfl
          (fun hf => absurd hf hnt)
          ⟨fun id2 l c2 heq => ?_, fun id2 l heq => ?_⟩ hO
        · rw [occsM_eq s hnt, occsM_mk _ _ _ _ _ _ _ _ _ _ hnt, ← hsum]
          abel
        · exact Occ.noConfusion heq
        · have hcp := heq
          rw [Occ.out.injEq] at hcp
          exact hcp.2.symm
      · rw [show Pull.occ (Pull.outlet id ⟨[], some e⟩ : Pull IV OV Ctx E)
          = Occ.out id [] from rfl] at hsum
        refine invO_remove h s _ (Occ.out id []) ?_ rfl rfl rfl rfl
          (fun hf => absurd hf hnt)
          ⟨fun id2 l c2 heq => ?_, fun id2 l heq => ?_⟩ hO
        · rw [occsM_eq s hnt, occsM_mk _ _ _ _ _ _ _ _ _ _ hnt, ← hsum]
          abel
        · exact Occ.noConfusion heq
        · have hcp := heq
          rw [Occ.out.injEq] at hcp
          exact hcp.2.symm
      · rw [show Pull.occ (Pull.outlet id ⟨v :: rest, none⟩ : Pull IV OV Ctx E)
          = Occ.out id (v :: rest) from rfl] at hsum
        refine invO_transfer h s _ ?_ rfl rfl rfl rfl (fun hf => absurd hf hnt) hO
        rw [occsM_mk _ _ _ _ _ _ _ _ _ _ hnt, occsM_eq s hnt]
        rw [drop_append_of_le _ _ _ hcle, List.map_append, ← Multiset.coe_add]
        rw [show ((([Event.outlet id v ⟨rest, none⟩]
          : List (Event IV OV Ctx E)).map Event.occ : List (Occ IV OV Ctx))
          : Multiset (Occ IV OV Ctx)) = {Occ.out id (v :: rest)} from rfl]
        rw [← hsum]
        abel
      · rw [show Pull.occ (Pull.outlet id ⟨v :: rest, some e⟩ : Pull IV OV Ctx E)
          = Occ.out id (v :: rest) from rfl] at hsum
        refine invO_transfer h s _ ?_ rfl rfl rfl rfl (fun hf => absurd hf hnt) hO
        rw [occsM_mk _ _ _ _ _ _ _ _ _ _ hnt, occsM_eq s hnt]
        rw [drop_append_of_le _ _ _ hcle, List.map_append, ← Multiset.coe_add]
        rw [show ((([Event.outlet id v ⟨rest, some e⟩]
          : List (Event IV OV Ctx E)).map Event.occ : List (Occ IV OV Ctx))
          : Multiset (Occ IV OV Ctx)) = {Occ.out id (v :: rest)} from rfl]
        rw [← hsum]
        abel
  | wake hl hsig =>
      have hnt : ¬ s.loop.isThrew := by simp [hl, LoopState.isThrew]
      refine invO_drainFrom h s 0 (preO_of_invO h s s 0 ?_ rfl rfl rfl rfl hnt hO)
      rw [preOccsM_eq, occsM_eq s hnt, hl]
      simp [LoopState.cut, LoopState.occs]
  | handlerResolved i id v c rest hl =>
      have hnt : ¬ s.loop.isThrew := by simp [hl, LoopState.isThrew]
      rcases haw : (h v c).await with w | q | e <;> simp only [applyHandler, haw]
      · exact invO_scalar h s i id v c rest w hl haw hO
      · exact invO_drainFrom h _ (i + 1) (preO_stream h s i id v c rest q hl haw hO)
      · refine invO_throw h s _ e rfl ?_ rfl rfl rfl rfl hO
        rw [occsM_threw _ e rfl, occsM_eq s hnt]
        exact le_trans (Multiset.le_add_right _ _) (Multiset.le_add_right _ _)
  | yieldResumed i re hl =>
      have hnt : ¬ s.loop.isThrew := by simp [hl, LoopState.isThrew]
      refine invO_drainFrom h _ (i + 1)
        (preO_of_invO h s _ (i + 1) ?_ rfl rfl rfl rfl hnt hO)
      rw [preOccsM_eq, occsM_eq s hnt, hl]
      rw [show ({ s with pending := s.pending ++ [re] } : State IV OV Ctx E).pending
        = s.pending ++ [re] from rfl]
      rw [show ({ s with pending := s.pending ++ [re] } : State IV OV Ctx E).events
        = s.events from rfl]
      rw [List.map_append, ← Multiset.coe_add]
      simp only [LoopState.cut, LoopState.occs]
      rw [show (([re] : List (Pull IV OV Ctx E)).map Pull.occ) = [re.occ] from rfl]
      abel

theorem invO_mkConveyor (h : IV → Ctx → PromiseOrValue OV E) :
    InvO h (mkConveyor : State IV OV Ctx E) := by
  have h0 : occsM (mkConveyor : State IV OV Ctx E) = 0 := rfl
  refine ⟨?_, ?_, ?_, ?_, ?_, ?_, ?_, ?_⟩
  · intro o hm
    rw [h0] at hm
    exact absurd hm (Multiset.not_mem_zero o)
  · intro pr hpr
    exact absurd hpr (List.not_mem_nil pr)
  · intro a ha
    exact absurd ha (List.not_mem_nil a)
  · exact List.nodup_nil
  · rw [h0]
    simp
  · intro o hm
    rw [h0] at hm
    exact absurd hm (Multiset.not_mem_zero o)
  · intro il hil
    exact absurd hil (List.not_mem_nil il)
  · intro il hil
    exact absurd hil (List.not_mem_nil il)

theorem invO_applyReg (h : IV → Ctx → PromiseOrValue OV E) (s : State IV OV Ctx E)
    (r : Reg IV OV Ctx E) (hl : s.loop = .notStarted) (hO : InvO h s) :
    InvO h (applyReg s r) := by
  have hnt : ¬ s.loop.isThrew := by simp [hl, LoopState.isThrew]
  cases r with
  | inl p c =>
      show InvO h (addInletBelt s p c)
      refine invO_register_inl h s _ p c ?_ rfl rfl rfl rfl (fun hf => hf) hO
      rw [occsM_eq (addInletBelt s p c) hnt, occsM_eq s hnt]
      rw [show (addInletBelt s p c).pending = s.pending ++ [.inlet s.nextId p c] from rfl]
      rw [show (addInletBelt s p c).events = s.events from rfl]
      rw [show (addInletBelt s p c).loop = s.loop from rfl]
      rw [List.map_append, ← Multiset.coe_add]
      rw [show (([Pull.inlet s.nextId p c] : List (Pull IV OV Ctx E)).map Pull.occ)
        = [Occ.inl s.nextId p.items c] from rfl]
      rw [show ((([Occ.inl s.nextId p.items c] : List (Occ IV OV Ctx)))
        : Multiset (Occ IV OV Ctx)) = {Occ.inl s.nextId p.items c} from rfl]
      abel
  | out q =>
      show InvO h (addOutletBelt s q)
      refine invO_register_out h s _ q ?_ rfl rfl rfl rfl (fun hf => hf) hO
      rw [occsM_eq (addOutletBelt s q) hnt, occsM_eq s hnt]
      rw [show (addOutletBelt s q).pending = s.pending ++ [.outlet s.nextId q] from rfl]
      rw [show (addOutletBelt s q).events = s.events from rfl]
      rw [show (addOutletBelt s q).loop = s.loop from rfl]
      rw [List.map_append, ← Multiset.coe_add]
      rw [show (([Pull.outlet s.nextId q] : List (Pull IV OV Ctx E)).map Pull.occ)
        = [Occ.out s.nextId q.items] from rfl]
      rw [show ((([Occ.out s.nextId q.items] : List (Occ IV OV Ctx)))
        : Multiset (Occ IV OV Ctx)) = {Occ.out s.nextId q.items} from rfl]
      abel

theorem invO_mkInit (h : IV → Ctx → PromiseOrValue OV E) (regs : List (Reg IV OV Ctx E)) :
    InvO h (mkInit regs) := by
  have main : ∀ (l : List (Reg IV OV Ctx E)) (s : State IV OV Ctx E),
      s.loop = .notStarted → InvO h s → InvO h (l.foldl applyReg s) := by
    intro l
    induction l with
    | nil => intro s _ hO; exact hO
    | cons r restL ih =>
        intro s hlp hO
        rw [List.foldl_cons]
        exact ih (applyReg s r) ((applyReg_loop s r).trans hlp)
          (invO_applyReg h s r hlp hO)
  exact main regs mkConveyor rfl (invO_mkConveyor h)

/-- The identity and ordering invariants hold in every reachable
state. -/
theorem invO_reaches (h : IV → Ctx → PromiseOrValue OV E) (regs : List (Reg IV OV Ctx E))
    (s : State IV OV Ctx E) (hr : Reaches h (mkInit regs) s) : InvO h s := by
  induction hr with
  | refl => exact invO_mkInit h regs
  | tail hsteps hstep ih => exact invO_step h _ _ (invA_reaches h regs _ hsteps) ih hstep

/-! ## Connecting the occurrence view to the source observables -/

theorem occ_oid_pull (pu : Pull IV OV Ctx E) : Occ.oid pu.occ = pu.pid := by
  cases pu <;> rfl

theorem occ_oid_event (ev : Event IV OV Ctx E) : Occ.oid ev.occ = ev.eid := by
  cases ev <;> rfl

theorem liveIds_eq_occs (s : State IV OV Ctx E) :
    liveIds s = (occs s).map Occ.oid := by
  unfold liveIds occs heldPull
  rw [List.map_append, List.map_append, List.map_map, List.map_map]
  congr 1
  · congr 1
    · refine (List.map_congr_left ?_).symm
      intro pu _
      exact occ_oid_pull pu
    · refine (List.map_congr_left ?_).symm
      intro ev _
      exact occ_oid_event ev
  · cases hloop : s.loop with
    | awaitingHandler i id v c rest => rfl
    | yielding i re =>
        show [re.pid] = [Occ.oid re.occ]
        rw [occ_oid_pull re]
    | notStarted => rfl
    | waitSig => rfl
    | finished => rfl
    | threw e => rfl

theorem drainFrom_pending (t : State IV OV Ctx E) (j : Nat) :
    (drainFrom t j).pending = t.pending := by
  unfold drainFrom
  rcases hev : t.events.get? j with _ | ev
  · rcases t.throws with _ | ⟨e, restE⟩
    · by_cases hz : t.iteratorCount = 0
      · rw [if_pos hz]
      · rw [if_neg hz]
    · rfl
  · cases ev with
    | inlet id v c rest => rfl
    | outlet id v rest => rfl

theorem drainFrom_events (t : State IV OV Ctx E) (j : Nat) :
    InitSeg t.events (drainFrom t j).events ∨ (drainFrom t j).events = [] := by
  unfold drainFrom
  rcases hev : t.events.get? j with _ | ev
  · rcases t.throws with _ | ⟨e, restE⟩
    · by_cases hz : t.iteratorCount = 0
      · rw [if_pos hz]
        exact Or.inr rfl
      · rw [if_neg hz]
        exact Or.inr rfl
    · exact Or.inl (initSeg_refl _)
  · cases ev with
    | inlet id v c rest => exact Or.inl (initSeg_refl _)
    | outlet id v rest => exact Or.inl (initSeg_refl _)

theorem le_sum_of_mem_multiset {B : Type} (l : List (Multiset B)) (a : Multiset B)
    (ha : a ∈ l) : a ≤ l.sum := by
  induction l with
  | nil => exact absurd ha (List.not_mem_nil a)
  | cons b tl ih =>
      rcases List.mem_cons.mp ha with heq | hm
      · rw [heq, List.sum_cons]
        exact Multiset.le_add_right _ _
      · rw [List.sum_cons]
        exact le_trans (ih hm) (Multiset.le_add_left _ _)

/-- In a halted clean run the loop has finished and no occurrence
survives. -/
theorem occsM_finished (h : IV → Ctx → PromiseOrValue OV E) (s : State IV OV Ctx E)
    (hA : InvA s) (hfin : s.loop = .finished) : occsM s = 0 := by
  have hnt : ¬ s.loop.isThrew := by simp [hfin, LoopState.isThrew]
  have hc := hA.conserve hnt
  rw [hA.finZ hfin, liveCount_eq s hnt, hfin] at hc
  simp only [LoopState.cut, LoopState.held, Option.toList, List.drop_zero,
    List.length_nil] at hc
  have hpnil : s.pending = [] := by
    rcases hp : s.pending with _ | ⟨a, b⟩
    · rfl
    · rw [hp] at hc; simp at hc; omega
  have hevnil : s.events = [] := by
    rcases hp : s.events with _ | ⟨a, b⟩
    · rfl
    · rw [hp] at hc; simp at hc; omega
  rw [occsM_eq s hnt, hfin]
  simp [LoopState.cut, LoopState.occs, hpnil, hevnil]

/-- Claim C9: in every reachable state, every live producer identity is
owned by exactly one place — in particular at most one pull per
producer is outstanding at any time — and the values delivered for any
producer always form an initial segment of its registered item list
(for an outlet) or of the handler's scalar results on its item list
(for an inlet): an Nth item is never yielded before the (N-1)th. -/
theorem C9_theorem (h : IV → Ctx → PromiseOrValue OV E) (regs : List (Reg IV OV Ctx E)) :
    ∀ s : State IV OV Ctx E, Reaches h (mkInit regs) s →
      (liveIds s).Nodup
      ∧ (∀ il ∈ s.bornOut, InitSeg (outFor il.1 s) il.2)
      ∧ (∀ il ∈ s.bornIn, InitSeg (outFor il.1 s) (scalarSeq h il.2.2 il.2.1)) := by
  intro s hr
  have hO := invO_reaches h regs s hr
  refine ⟨?_, ?_, ?_⟩
  · have hnd := hO.ndO
    rw [show occsM s = ((occs s : List (Occ IV OV Ctx)) : Multiset (Occ IV OV Ctx))
      from rfl, Multiset.map_coe] at hnd
    rw [liveIds_eq_occs]
    exact Multiset.coe_nodup.mp hnd
  · intro il hil
    exact (hO.prefO il hil).2.2
  · intro il hil
    exact (hO.prefI il hil).2.2

/-- Witness for C9: at the terminal state of the single-outlet-belt
run, the live identity list (empty) has no duplicates and the values
delivered for the registered producer form an initial segment of its
item list. -/
theorem C9_witness :
    (liveIds c2final).Nodup
    ∧ (∀ il ∈ c2final.bornOut, InitSeg (outFor il.1 c2final) il.2) := by
  have htr : Reaches hPass (mkInit [.out ⟨[7], none⟩]) c2final :=
    Relation.ReflTransGen.head (Step.start _ rfl)
      (Relation.ReflTransGen.head (Step.pull _ ⟨0, by decide⟩ trivial)
        (Relation.ReflTransGen.head (Step.wake _ rfl rfl)
          (Relation.ReflTransGen.head (Step.yieldResumed _ 0 (.outlet 0 ⟨[], none⟩) rfl)
            (Relation.ReflTransGen.head (Step.pull _ ⟨0, by decide⟩ trivial)
              (Relation.ReflTransGen.head (Step.wake _ rfl rfl)
                Relation.ReflTransGen.refl)))))
  have happ := C9_theorem hPass [.out ⟨[7], none⟩] c2final htr
  exact ⟨happ.1, happ.2.1⟩

/-- Claim C8 (corrected): there is no snapshot — the drain loop reads
the queue live — but the queue only ever grows during a round and is
cleared as a whole at the round's end, each entry processed exactly
once; consequently in an error-free run that has halted, every
registered outlet producer's items have been delivered exactly once,
nothing lost, nothing duplicated. -/
theorem C8_theorem (h : IV → Ctx → PromiseOrValue OV E) (regs : List (Reg IV OV Ctx E))
    (hNR : NoRaise h) (hCS : CleanStreams h) (hcl : ∀ r ∈ regs, r.clean) :
    (∀ s s' : State IV OV Ctx E, Step h s s' → InitSeg s.events s'.events ∨ s'.events = [])
    ∧ (∀ s : State IV OV Ctx E, Reaches h (mkInit regs) s → Halted h s →
        ∀ il ∈ s.bornOut, outFor il.1 s = il.2) := by
  constructor
  · intro s s' hst
    cases hst with
    | start hl =>
        rw [startRun]
        by_cases hz : s.iteratorCount = 0
        · rw [if_pos hz]
          exact Or.inl (initSeg_refl _)
        · rw [if_neg hz]
          exact Or.inl (initSeg_refl _)
    | pull k hs =>
        rcases hpk : s.pending.get k with ⟨id, ⟨items, post⟩, c⟩ | ⟨id, ⟨items, post⟩⟩ <;>
          rcases items with _ | ⟨v, rest⟩ <;> rcases post with _ | e <;>
          simp only [completePull]
        · exact Or.inl (initSeg_refl _)
        · exact Or.inl (initSeg_refl _)
        · exact Or.inl (initSeg_append _ _)
        · exact Or.inl (initSeg_append _ _)
        · exact Or.inl (initSeg_refl _)
        · exact Or.inl (initSeg_refl _)
        · exact Or.inl (initSeg_append _ _)
        · exact Or.inl (initSeg_append _ _)
    | wake hl hsig => exact drainFrom_events s 0
    | handlerResolved i id v c rest hl =>
        rcases haw : (h v c).await with w | q | e <;> simp only [applyHandler, haw]
        · exact Or.inl (initSeg_refl _)
        · exact drainFrom_events
            { addOutletBelt s q with
              pending := (addOutletBelt s q).pending ++ [.inlet id rest c] } (i + 1)
        · exact Or.inl (initSeg_refl _)
    | yieldResumed i re hl =>
        exact drainFrom_events { s with pending := s.pending ++ [re] } (i + 1)
  · intro s hr hhalt il hil
    have hA := invA_reaches h regs s hr
    have hNE := invNE_reaches h regs hNR hCS hcl s hr
    have hO := invO_reaches h regs s hr
    have hfin : s.loop = .finished := by
      rcases progress h s hA hhalt with hf | ht
      · exact hf
      · exact absurd ht hNE.notThrew
    have hocc0 := occsM_finished h s hA hfin
    rcases (hO.prefO il hil).2.1 (fun l => by
      rw [hocc0]
      exact Multiset.not_mem_zero _) with hgood | hbad
    · exact hgood
    · exact absurd hbad hNE.notThrew

/-- Witness for C8: at the halted state of the single-outlet-belt run,
the registered producer's item list `[7]` was delivered exactly. -/
theorem C8_witness :
    outFor 0 c2final = [7] ∧ c2final.events = [] := by
  have hNR : NoRaise hPass := fun v c e hx => HandlerResult.noConfusion hx
  have hCS : CleanStreams hPass := fun v c q hx => HandlerResult.noConfusion hx
  have hcl : ∀ r ∈ ([.out ⟨[7], none⟩] : List (Reg Nat Nat Unit Nat)), r.clean := by
    intro r hr
    rw [List.mem_singleton] at hr
    subst hr
    rfl
  have htr : Reaches hPass (mkInit [.out ⟨[7], none⟩]) c2final :=
    Relation.ReflTransGen.head (Step.start _ rfl)
      (Relation.ReflTransGen.head (Step.pull _ ⟨0, by decide⟩ trivial)
        (Relation.ReflTransGen.head (Step.wake _ rfl rfl)
          (Relation.ReflTransGen.head (Step.yieldResumed _ 0 (.outlet 0 ⟨[], none⟩) rfl)
            (Relation.ReflTransGen.head (Step.pull _ ⟨0, by decide⟩ trivial)
              (Relation.ReflTransGen.head (Step.wake _ rfl rfl)
                Relation.ReflTransGen.refl)))))
  have hhalt : Halted hPass c2final := by
    intro t hst
    cases hst with
    | start hl => exact LoopState.noConfusion hl
    | pull k hs => exact absurd k.isLt (Nat.not_lt_zero k.val)
    | wake hl hsig => exact LoopState.noConfusion hl
    | handlerResolved i id v c rest hl => exact LoopState.noConfusion hl
    | yieldResumed i re hl => exact LoopState.noConfusion hl
  have happ := (C8_theorem hPass [.out ⟨[7], none⟩] hNR hCS hcl).2 c2final htr hhalt
    (0, [7]) (by decide)
  exact ⟨happ, rfl⟩

/-- Claim C7: a scalar handler result is yielded immediately, with the
originating inlet producer's re-pull parked to be re-issued on resume;
a stream handler result registers a fresh outlet producer, yields
nothing for the event, queues the originator's re-pull at once — and,
in an error-free run, every item of the registered stream is delivered
by the time the run halts. -/
theorem C7_theorem (h : IV → Ctx → PromiseOrValue OV E) (regs : List (Reg IV OV Ctx E))
    (hNR : NoRaise h) (hCS : CleanStreams h) (hcl : ∀ r ∈ regs, r.clean) :
    (∀ (s : State IV OV Ctx E) (i id : Nat) (v : IV) (c : Ctx) (rest : Producer IV E)
        (w : OV), (h v c).await = .scalar w →
        applyHandler h s i id v c rest
          = { s with
              loop := .yielding i (.inlet id rest c)
              output := s.output ++ [(id, w)] })
    ∧ (∀ (s : State IV OV Ctx E) (i id : Nat) (v : IV) (c : Ctx) (rest : Producer IV E)
        (q : Producer OV E), (h v c).await = .stream q →
        applyHandler h s i id v c rest
          = drainFrom ({ addOutletBelt s q with
              pending := (addOutletBelt s q).pending ++ [.inlet id rest c] }
                : State IV OV Ctx E) (i + 1)
        ∧ (addOutletBelt s q).pending = s.pending ++ [.outlet s.nextId q]
        ∧ (addOutletBelt s q).output = s.output
        ∧ (addOutletBelt s q).bornOut = s.bornOut ++ [(s.nextId, q.items)])
    ∧ (∀ (s : State IV OV Ctx E) (i id : Nat) (v : IV) (c : Ctx) (rest : Producer IV E)
        (q : Producer OV E) (t : State IV OV Ctx E),
        Reaches h (mkInit regs) s → s.loop = .awaitingHandler i id v c rest →
        (h v c).await = .stream q →
        Reaches h (applyHandler h s i id v c rest) t → Halted h t →
        (q.items : Multiset OV) ≤ (t.visible : Multiset OV)) := by
  refine ⟨?_, ?_, ?_⟩
  · intro s i id v c rest w haw
    simp only [applyHandler, haw]
  · intro s i id v c rest q haw
    refine ⟨?_, rfl, rfl, rfl⟩
    simp only [applyHandler, haw]
  · intro s i id v c rest q t hr hl haw hrt hhalt
    have hrs2 : Reaches h (mkInit regs) (applyHandler h s i id v c rest) :=
      Relation.ReflTransGen.tail hr (Step.handlerResolved s i id v c rest hl)
    have hrtt : Reaches h (mkInit regs) t := Relation.ReflTransGen.trans hrs2 hrt
    have hAt := invA_reaches h regs t hrtt
    have hNEt := invNE_reaches h regs hNR hCS hcl t hrtt
    have hfin : t.loop = .finished := by
      rcases progress h t hAt hhalt with hf | ht2
      · exact hf
      · exact absurd ht2 hNEt.notThrew
    have htt := totalOut_reaches h regs hNR hCS hcl t hrtt
    rw [totalOut_finished h t hAt hfin] at htt
    have hts := totalOut_reaches h regs hNR hCS hcl _ hrs2
    have hqle : (q.items : Multiset OV) ≤ totalOut h (applyHandler h s i id v c rest) := by
      have hmem : (Pull.outlet s.nextId q : Pull IV OV Ctx E)
          ∈ (applyHandler h s i id v c rest).pending := by
        simp only [applyHandler, haw]
        rw [drainFrom_pending]
        rw [show ({ addOutletBelt s q with
          pending := (addOutletBelt s q).pending ++ [.inlet id rest c] }
            : State IV OV Ctx E).pending
          = (s.pending ++ [.outlet s.nextId q]) ++ [.inlet id rest c] from rfl]
        exact List.mem_append_left _ (List.mem_append_right _ (List.mem_singleton.mpr rfl))
      have hmem2 : (q.items : Multiset OV)
          ∈ ((applyHandler h s i id v c rest).pending.map (Pull.todo h)) := by
        refine List.mem_map.mpr ⟨Pull.outlet s.nextId q, hmem, rfl⟩
      have hle1 := le_sum_of_mem_multiset _ _ hmem2
      refine le_trans hle1 ?_
      show ((applyHandler h s i id v c rest).pending.map (Pull.todo h)).sum
        ≤ totalOut h (applyHandler h s i id v c rest)
      unfold totalOut todo
      exact le_trans (le_trans (Multiset.le_add_right _ _) (Multiset.le_add_right _ _))
        (Multiset.le_add_left _ _)
    rw [hts, ← htt] at hqle
    exact hqle

/-- Witness for C7: the handler that maps 4 to the stream `[4, 5]`
registers it as a new outlet producer, and by the halted state both of
its items have been yielded. -/
theorem C7_witness :
    ((⟨[4, 5], none⟩ : Producer Nat Nat).items : Multiset Nat) ≤ (c7t.visible : Multiset Nat)
    ∧ c7t.visible = [4, 5] := by
  have hNR : NoRaise hStream := fun v c e hx => HandlerResult.noConfusion hx
  have hCS : CleanStreams hStream := by
    intro v c q hx
    have hcp : (HandlerResult.stream (⟨[v, v + 1], none⟩ : Producer Nat Nat) : HandlerResult Nat Nat)
        = .stream q := hx
    rw [HandlerResult.stream.injEq] at hcp
    rw [← hcp]
  have hcl : ∀ r ∈ ([.inl ⟨[4], none⟩ ()] : List (Reg Nat Nat Unit Nat)), r.clean := by
    intro r hr
    rw [List.mem_singleton] at hr
    subst hr
    rfl
  have htra : Reaches hStream (mkInit [.inl ⟨[4], none⟩ ()]) c7a :=
    Relation.ReflTransGen.head (Step.start _ rfl)
      (Relation.ReflTransGen.head (Step.pull _ ⟨0, by decide⟩ trivial)
        (Relation.ReflTransGen.head (Step.wake _ rfl rfl)
          Relation.ReflTransGen.refl))
  have hb : applyHandler hStream c7a 0 0 4 () ⟨[], none⟩
      = ({ iteratorCount := 2
           events := []
           signal := false
           throws := []
           pending := [.outlet 1 ⟨[4, 5], none⟩, .inlet 0 ⟨[], none⟩ ()]
           loop := .waitSig
           output := []
           nextId := 2
           bornOut := [(1, [4, 5])]
           bornIn := [(0, [4], ())] } : State Nat Nat Unit Nat) := by decide
  have hs1 : Step hStream
      ({ iteratorCount := 2
         events := []
         signal := false
         throws := []
         pending := [.outlet 1 ⟨[4, 5], none⟩, .inlet 0 ⟨[], none⟩ ()]
         loop := .waitSig
         output := []
         nextId := 2
         bornOut := [(1, [4, 5])]
         bornIn := [(0, [4], ())] } : State Nat Nat Unit Nat)
      ({ iteratorCount := 1
         events := []
         signal := true
         throws := []
         pending := [.outlet 1 ⟨[4, 5], none⟩]
         loop := .waitSig
         output := []
         nextId := 2
         bornOut := [(1, [4, 5])]
         bornIn := [(0, [4], ())] } : State Nat Nat Unit Nat) :=
    Step.pull _ ⟨1, by decide⟩ trivial
  have hs2 : Step hStream
      ({ iteratorCount := 1
         events := []
         signal := true
         throws := []
         pending := [.outlet 1 ⟨[4, 5], none⟩]
         loop := .waitSig
         output := []
         nextId := 2
         bornOut := [(1, [4, 5])]
         bornIn := [(0, [4], ())] } : State Nat Nat Unit Nat)
      ({ iteratorCount := 1
         events := []
         signal := false
         throws := []
         pending := [.outlet 1 ⟨[4, 5], none⟩]
         loop := .waitSig
         output := []
         nextId := 2
         bornOut := [(1, [4, 5])]
         bornIn := [(0, [4], ())] } : State Nat Nat Unit Nat) :=
    Step.wake _ rfl rfl
  have hs3 : Step hStream
      ({ iteratorCount := 1
         events := []
         signal := false
         throws := []
         pending := [.outlet 1 ⟨[4, 5], none⟩]
         loop := .waitSig
         output := []
         nextId := 2
         bornOut := [(1, [4, 5])]
         bornIn := [(0, [4], ())] } : State Nat Nat Unit Nat)
      ({ iteratorCount := 1
         events := [.outlet 1 4 ⟨[5], none⟩]
         signal := true
         throws := []
         pending := []
         loop := .waitSig
         output := []
         nextId := 2
         bornOut := [(1, [4, 5])]
         bornIn := [(0, [4], ())] } : State Nat Nat Unit Nat) :=
    Step.pull _ ⟨0, by decide⟩ trivial
  have hs4 : Step hStream
      ({ iteratorCount := 1
         events := [.outlet 1 4 ⟨[5], none⟩]
         signal := true
         throws := []
         pending := []
         loop := .waitSig
         output := []
         nextId := 2
         bornOut := [(1, [4, 5])]
         bornIn := [(0, [4], ())] } : State Nat Nat Unit Nat)
      ({ iteratorCount := 1
         events := [.outlet 1 4 ⟨[5], none⟩]
         signal := true
         throws := []
         pending := []
         loop := .yielding 0 (.outlet 1 ⟨[5], none⟩)
         output := [(1, 4)]
         nextId := 2
         bornOut := [(1, [4, 5])]
         bornIn := [(0, [4], ())] } : State Nat Nat Unit Nat) :=
    Step.wake _ rfl rfl
  have hs5 : Step hStream
      ({ iteratorCount := 1
         events := [.outlet 1 4 ⟨[5], none⟩]
         signal := true
         throws := []
         pending := []
         loop := .yielding 0 (.outlet 1 ⟨[5], none⟩)
         output := [(1, 4)]
         nextId := 2
         bornOut := [(1, [4, 5])]
         bornIn := [(0, [4], ())] } : State Nat Nat Unit Nat)
      ({ iteratorCount := 1
         events := []
         signal := false
         throws := []
         pending := [.outlet 1 ⟨[5], none⟩]
         loop := .waitSig
         output := [(1, 4)]
         nextId := 2
         bornOut := [(1, [4, 5])]
         bornIn := [(0, [4], ())] } : State Nat Nat Unit Nat) :=
    Step.yieldResumed _ 0 (.outlet 1 ⟨[5], none⟩) rfl
  have hs6 : Step hStream
      ({ iteratorCount := 1
         events := []
         signal := false
         throws := []
         pending := [.outlet 1 ⟨[5], none⟩]
         loop := .waitSig
         output := [(1, 4)]
         nextId := 2
         bornOut := [(1, [4, 5])]
         bornIn := [(0, [4], ())] } : State Nat Nat Unit Nat)
      ({ iteratorCount := 1
         events := [.outlet 1 5 ⟨[], none⟩]
         signal := true
         throws := []
         pending := []
         loop := .waitSig
         output := [(1, 4)]
         nextId := 2
         bornOut := [(1, [4, 5])]
         bornIn := [(0, [4], ())] } : State Nat Nat Unit Nat) :=
    Step.pull _ ⟨0, by decide⟩ trivial
  have hs7 : Step hStream
      ({ iteratorCount := 1
         events := [.outlet 1 5 ⟨[], none⟩]
         signal := true
         throws := []
         pending := []
         loop := .waitSig
         output := [(1, 4)]
         nextId := 2
         bornOut := [(1, [4, 5])]
         bornIn := [(0, [4], ())] } : State Nat Nat Unit Nat)
      ({ iteratorCount := 1
         events := [.outlet 1 5 ⟨[], none⟩]
         signal := true
         throws := []
         pending := []
         loop := .yielding 0 (.outlet 1 ⟨[], none⟩)
         output := [(1, 4), (1, 5)]
         nextId := 2
         bornOut := [(1, [4, 5])]
         bornIn := [(0, [4], ())] } : State Nat Nat Unit Nat) :=
    Step.wake _ rfl rfl
  have hs8 : Step hStream
      ({ iteratorCount := 1
         events := [.outlet 1 5 ⟨[], none⟩]
         signal := true
         throws := []
         pending := []
         loop := .yielding 0 (.outlet 1 ⟨[], none⟩)
         output := [(1, 4), (1, 5)]
         nextId := 2
         bornOut := [(1, [4, 5])]
         bornIn := [(0, [4], ())] } : State Nat Nat Unit Nat)
      ({ iteratorCount := 1
         events := []
         signal := false
         throws := []
         pending := [.outlet 1 ⟨[], none⟩]
         loop := .waitSig
         output := [(1, 4), (1, 5)]
         nextId := 2
         bornOut := [(1, [4, 5])]
         bornIn := [(0, [4], ())] } : State Nat Nat Unit Nat) :=
    Step.yieldResumed _ 0 (.outlet 1 ⟨[], none⟩) rfl
  have hs9 : Step hStream
      ({ iteratorCount := 1
         events := []
         signal := false
         throws := []
         pending := [.outlet 1 ⟨[], none⟩]
         loop := .waitSig
         output := [(1, 4), (1, 5)]
         nextId := 2
         bornOut := [(1, [4, 5])]
         bornIn := [(0, [4], ())] } : State Nat Nat Unit Nat)
      ({ iteratorCount := 0
         events := []
         signal := true
         throws := []
         pending := []
         loop := .waitSig
         output := [(1, 4), (1, 5)]
         nextId := 2
         bornOut := [(1, [4, 5])]
         bornIn := [(0, [4], ())] } : State Nat Nat Unit Nat) :=
    Step.pull _ ⟨0, by decide⟩ trivial
  have hs10 : Step hStream
      ({ iteratorCount := 0
         events := []
         signal := true
         throws := []
         pending := []
         loop := .waitSig
         output := [(1, 4), (1, 5)]
         nextId := 2
         bornOut := [(1, [4, 5])]
         bornIn := [(0, [4], ())] } : State Nat Nat Unit Nat) c7t :=
    Step.wake _ rfl rfl
  have htrb : Reaches hStream (applyHandler hStream c7a 0 0 4 () ⟨[], none⟩) c7t := by
    rw [hb]
    exact Relation.ReflTransGen.head hs1
      (Relation.ReflTransGen.head hs2
        (Relation.ReflTransGen.head hs3
          (Relation.ReflTransGen.head hs4
            (Relation.ReflTransGen.head hs5
              (Relation.ReflTransGen.head hs6
                (Relation.ReflTransGen.head hs7
                  (Relation.ReflTransGen.head hs8
                    (Relation.ReflTransGen.head hs9
                      (Relation.ReflTransGen.head hs10
                        Relation.ReflTransGen.refl)))))))))
  have hhalt : Halted hStream c7t := by
    intro t hst
    cases hst with
    | start hl => exact LoopState.noConfusion hl
    | pull k hs => exact absurd k.isLt (Nat.not_lt_zero k.val)
    | wake hl hsig => exact LoopState.noConfusion hl
    | handlerResolved i id v c rest hl => exact LoopState.noConfusion hl
    | yieldResumed i re hl => exact LoopState.noConfusion hl
  refine ⟨(C7_theorem hStream [.inl ⟨[4], none⟩ ()] hNR hCS hcl).2.2 c7a 0 0 4 () ⟨[], none⟩
    ⟨[4, 5], none⟩ c7t htra rfl rfl htrb hhalt, rfl⟩

/-- Counterexample to C4 as universally stated: under a failing
handler, the error reaches the consumer while a value queued in the
same round (the second event) has not been yielded — the guarantee
holds only for errors recorded in the accumulator, under a handler
that does not itself fail. -/
theorem C4_counterexample :
    Reaches hRaise c4xinit c4xfinal
    ∧ c4xfinal.loop = .threw 7
    ∧ c4xfinal.output = []
    ∧ c4xfinal.events.length = 2 := by
  refine ⟨?_, rfl, rfl, rfl⟩
  exact Relation.ReflTransGen.head (Step.start _ rfl)
    (Relation.ReflTransGen.head (Step.pull _ ⟨0, by decide⟩ trivial)
      (Relation.ReflTransGen.head (Step.pull _ ⟨0, by decide⟩ trivial)
        (Relation.ReflTransGen.head (Step.wake _ rfl rfl)
          (Relation.ReflTransGen.head (Step.handlerResolved _ 0 0 3 () ⟨[], none⟩ rfl)
            Relation.ReflTransGen.refl))))

end Conveyor
